import Mathlib

set_option maxHeartbeats 1600000

/-!
Verification of the virtual-noded BCC tetrahedra core
(`SkinFlaps/src/vnBccTetrahedra.cpp`).

A centroid code (`bccTetCentroid`, an `std::array<unsigned short, 3>` in the
source) is embedded as a triple of integers.  All source arithmetic on
centroid coordinates is embedded over `ℤ`: the unsigned-short coordinates are
non-negative by the documented invariant, and the claims proved below include
the statement that the guarded operations never drive a coordinate negative,
which is exactly the condition under which plain integer arithmetic agrees
with the C++ unsigned arithmetic.

Bit operations in the source always use power-of-two masks.  For `0 ≤ x` and a
power of two `m`, the test `x & m` (non-zero) is `x / m % 2 = 1`, the
comparison `(x & m) == (y & m)` is `x / m % 2 = y / m % 2`, and `x >> 1` is
`x / 2`; the embedding uses these arithmetic forms throughout.
-/

/-- The centroid code triple (source type `bccTetCentroid`,
`std::array<unsigned short, 3>`). -/
structure bccTetCentroid where
  x : ℤ
  y : ℤ
  z : ℤ
deriving DecidableEq, Repr

/-- Coordinate read `tc[i]` for `i ∈ {0, 1, 2}`. -/
def cGet (t : bccTetCentroid) (i : ℕ) : ℤ :=
  if i = 0 then t.x else if i = 1 then t.y else t.z

/-- Coordinate write `tc[i] = v` for `i ∈ {0, 1, 2}`. -/
def cSet (t : bccTetCentroid) (i : ℕ) (v : ℤ) : bccTetCentroid :=
  if i = 0 then ⟨v, t.y, t.z⟩ else if i = 1 then ⟨t.x, v, t.z⟩ else ⟨t.x, t.y, v⟩

theorem cGet_cSet_same (t : bccTetCentroid) (i : ℕ) (v : ℤ) :
    cGet (cSet t i v) i = v := by
  unfold cGet cSet
  split_ifs <;> simp_all

theorem cGet_cSet_ne (t : bccTetCentroid) (i j : ℕ) (v : ℤ)
    (hi : i < 3) (hj : j < 3) (hij : i ≠ j) :
    cGet (cSet t j v) i = cGet t i := by
  unfold cGet cSet
  split_ifs <;> simp_all <;> omega

theorem cExt (t u : bccTetCentroid)
    (h0 : cGet t 0 = cGet u 0) (h1 : cGet t 1 = cGet u 1)
    (h2 : cGet t 2 = cGet u 2) : t = u := by
  cases t; cases u
  simp [cGet] at h0 h1 h2
  simp_all

/-- Modelled from the spec: `centroidHalfAxisSize` is declared in the class
header `vnBccTetrahedra.h`, which is not under `src/`.  Spec §4.1 `decode`:
"finds the lowest set bit common across the pattern, identifying level; finds
which axis carries that bit to identify the half axis."  The identical scan
appears inline in `insideTet` (source lines 881-897): `dd` starts at 1 and
doubles until some coordinate has bit `dd` set, the half axis being the first
such coordinate in x, y, z order.  The scan is given explicit fuel (the loop
diverges in C++ on the invalid all-zero input; all theorems below supply a
valid centroid, for which the fuel is never exhausted). -/
def halfAxisLoop (t : bccTetCentroid) : ℤ → ℕ → ℕ × ℤ
  | dd, 0 => (3, dd)
  | dd, fuel + 1 =>
    if t.x / dd % 2 = 1 then (0, dd)
    else if t.y / dd % 2 = 1 then (1, dd)
    else if t.z / dd % 2 = 1 then (2, dd)
    else halfAxisLoop t (2 * dd) fuel

/-- Modelled from the spec (see `halfAxisLoop`): decode a centroid into its
half axis and power-of-two size. -/
def centroidHalfAxisSize (t : bccTetCentroid) : ℕ × ℤ :=
  halfAxisLoop t 1 16

/-- Validity of a centroid code at level `2 ^ k` (spec §3): the half-axis
coordinate carries the size bit, the two secondary coordinates are multiples
of `2 ^ (k + 1)`, and their quotients have opposite parity (the source asserts
exactly this at line 1199 of `centroidUpOneLevel`). -/
def ValidAt (tc : bccTetCentroid) (hc k : ℕ) (a b c : ℤ) : Prop :=
  hc < 3 ∧ k ≤ 15 ∧ 0 ≤ a ∧ 0 ≤ b ∧ 0 ≤ c ∧
    cGet tc hc = 2 ^ k * (2 * a + 1) ∧
    cGet tc ((hc + 1) % 3) = 2 ^ (k + 1) * b ∧
    cGet tc ((hc + 2) % 3) = 2 ^ (k + 1) * c ∧
    (b + c) % 2 = 1

instance (tc : bccTetCentroid) (hc k : ℕ) (a b c : ℤ) :
    Decidable (ValidAt tc hc k a b c) := by
  unfold ValidAt; infer_instance

theorem exact_ediv_bit (s m : ℤ) (hs : s ≠ 0) : s * m / s % 2 = m % 2 := by
  rw [Int.mul_ediv_cancel_left _ hs]

theorem ediv_two_mul (s m : ℤ) (hs : 0 < s) : s * m / (2 * s) = m / 2 := by
  have hm : m = 2 * (m / 2) + m % 2 := (Int.ediv_add_emod m 2).symm
  have h1 : s * m = s * (m % 2) + m / 2 * (2 * s) := by linear_combination s * hm
  rw [h1, Int.add_mul_ediv_right _ _ (by positivity : (2 : ℤ) * s ≠ 0)]
  have h2 : s * (m % 2) / (2 * s) = 0 := by
    apply Int.ediv_eq_zero_of_lt
    · have : 0 ≤ m % 2 := Int.emod_nonneg m (by norm_num)
      positivity
    · have : m % 2 < 2 := Int.emod_lt_of_pos m (by norm_num)
      nlinarith [Int.emod_nonneg m (show (2:ℤ) ≠ 0 by norm_num)]
  omega

theorem ediv_four_mul (s m : ℤ) (hs : 0 < s) : s * m / (4 * s) = m / 4 := by
  have hm : m = 4 * (m / 4) + m % 4 := (Int.ediv_add_emod m 4).symm
  have h1 : s * m = s * (m % 4) + m / 4 * (4 * s) := by linear_combination s * hm
  rw [h1, Int.add_mul_ediv_right _ _ (by positivity : (4 : ℤ) * s ≠ 0)]
  have h2 : s * (m % 4) / (4 * s) = 0 := by
    apply Int.ediv_eq_zero_of_lt
    · have : 0 ≤ m % 4 := Int.emod_nonneg m (by norm_num)
      positivity
    · have : m % 4 < 4 := Int.emod_lt_of_pos m (by norm_num)
      nlinarith [Int.emod_nonneg m (show (4:ℤ) ≠ 0 by norm_num)]
  omega

theorem halfAxisLoop_spec (k : ℕ) : ∀ (fuel : ℕ), k < fuel → ∀ (d : ℤ), 0 < d →
    ∀ (tc : bccTetCentroid) (t : ℕ), t < 3 →
    (∃ a : ℤ, cGet tc t = d * 2 ^ k * (2 * a + 1)) →
    (∀ i, i < 3 → i ≠ t → ∃ b : ℤ, cGet tc i = d * 2 ^ (k + 1) * b) →
    halfAxisLoop tc d fuel = (t, d * 2 ^ k) := by
  induction k with
  | zero =>
    intro fuel hfuel d hd tc t ht ⟨a, ha⟩ hother
    obtain ⟨f, rfl⟩ : ∃ f, fuel = f + 1 := ⟨fuel - 1, by omega⟩
    have hbit : ∀ i, i < 3 → i ≠ t → cGet tc i / d % 2 = 0 := by
      intro i hi hne
      obtain ⟨b, hb⟩ := hother i hi hne
      have hb' : cGet tc i = d * (2 * b) := by rw [hb]; ring
      rw [hb', Int.mul_ediv_cancel_left _ (by omega : d ≠ 0)]
      omega
    have htbit : cGet tc t / d % 2 = 1 := by
      have ht' : cGet tc t = d * (2 * a + 1) := by rw [ha]; ring
      rw [ht', Int.mul_ediv_cancel_left _ (by omega : d ≠ 0)]
      omega
    interval_cases t
    · simp only [cGet, if_pos] at htbit
      simp only [halfAxisLoop]
      rw [if_pos (by simpa using htbit)]
      norm_num
    · have b0 := hbit 0 (by norm_num) (by norm_num)
      simp only [cGet] at htbit b0
      norm_num at htbit b0
      simp only [halfAxisLoop]
      rw [if_neg (by omega), if_pos (by omega)]
      norm_num
    · have b0 := hbit 0 (by norm_num) (by norm_num)
      have b1 := hbit 1 (by norm_num) (by norm_num)
      simp only [cGet] at htbit b0 b1
      norm_num at htbit b0 b1
      simp only [halfAxisLoop]
      rw [if_neg (by omega), if_neg (by omega), if_pos (by omega)]
      norm_num
  | succ k ih =>
    intro fuel hfuel d hd tc t ht ⟨a, ha⟩ hother
    obtain ⟨f, rfl⟩ : ∃ f, fuel = f + 1 := ⟨fuel - 1, by omega⟩
    have hall : ∀ i, i < 3 → cGet tc i / d % 2 = 0 := by
      intro i hi
      by_cases hne : i = t
      · subst hne
        have h' : cGet tc i = d * (2 * (2 ^ k * (2 * a + 1))) := by rw [ha]; ring
        rw [h', Int.mul_ediv_cancel_left _ (by omega : d ≠ 0)]
        omega
      · obtain ⟨b, hb⟩ := hother i hi hne
        have h' : cGet tc i = d * (2 * (2 ^ (k + 1) * b)) := by rw [hb]; ring
        rw [h', Int.mul_ediv_cancel_left _ (by omega : d ≠ 0)]
        omega
    have h0 := hall 0 (by norm_num)
    have h1 := hall 1 (by norm_num)
    have h2 := hall 2 (by norm_num)
    simp only [cGet] at h0 h1 h2
    norm_num at h0 h1 h2
    have step : halfAxisLoop tc d (f + 1) = halfAxisLoop tc (2 * d) f := by
      simp only [halfAxisLoop]
      rw [if_neg (by omega), if_neg (by omega), if_neg (by omega)]
    rw [step]
    have hrec := ih f (by omega) (2 * d) (by omega) tc t ht
      ⟨a, by rw [ha]; ring⟩
      (by
        intro i hi hne
        obtain ⟨b, hb⟩ := hother i hi hne
        exact ⟨b, by rw [hb]; ring⟩)
    rw [hrec]
    simp only [Prod.mk.injEq]
    exact ⟨trivial, by ring⟩

/-- Decoding a valid centroid yields its half axis and size. -/
theorem centroidHalfAxisSize_valid (tc : bccTetCentroid) (hc k : ℕ) (a b c : ℤ)
    (h : ValidAt tc hc k a b c) : centroidHalfAxisSize tc = (hc, 2 ^ k) := by
  obtain ⟨h3, h15, _, _, _, hhc, hb, hc2, _⟩ := h
  have := halfAxisLoop_spec k 16 (by omega) 1 (by norm_num) tc hc h3
    ⟨a, by rw [hhc]; ring⟩
    (by
      intro i hi hne
      have : i = (hc + 1) % 3 ∨ i = (hc + 2) % 3 := by omega
      rcases this with h | h
      · exact ⟨b, by rw [h, hb]; ring⟩
      · exact ⟨c, by rw [h, hc2]; ring⟩)
  unfold centroidHalfAxisSize
  rw [this]
  norm_num

/-- The half-axis picker for finest-level centroids (source line 310:
`ha = tc[0] & 1 ? 0 : (tc[1] & 1 ? 1 : 2)`). -/
def microHalfAxis (tc : bccTetCentroid) : ℕ :=
  if tc.x % 2 = 1 then 0 else if tc.y % 2 = 1 then 1 else 2

theorem microHalfAxis_zero (x y z : ℤ) (h : x % 2 = 1) :
    microHalfAxis ⟨x, y, z⟩ = 0 := by simp [microHalfAxis, h]

theorem microHalfAxis_one (x y z : ℤ) (h : x % 2 ≠ 1) (h2 : y % 2 = 1) :
    microHalfAxis ⟨x, y, z⟩ = 1 := by simp [microHalfAxis, h, h2]

theorem microHalfAxis_two (x y z : ℤ) (h : x % 2 ≠ 1) (h2 : y % 2 ≠ 1) :
    microHalfAxis ⟨x, y, z⟩ = 2 := by simp [microHalfAxis, h, h2]

/-- `vnBccTetrahedra::faceAdjacentMicrotet` (source lines 300-351).  Returns
the adjacent face index (or `-1` when the adjacent centroid would leave the
positive octant) together with the adjacent centroid out-parameter `tcAdj` as
the source leaves it (partially updated on the `-1` paths, exactly as the C++
early returns do). -/
def faceAdjacentMicrotet (tc : bccTetCentroid) (face : ℤ) : ℤ × bccTetCentroid :=
  let ha : ℕ := microHalfAxis tc
  let aha : ℕ := (ha + 1) % 3
  if (cGet tc ha + cGet tc aha) / 2 % 2 = 1 then
    if face < 1 ∨ 2 < face then
      if cGet tc ha < 1 then (-1, tc)
      else
        let t1 := cSet tc ha (cGet tc ha - 1)
        let aha2 : ℕ := (ha + 2) % 3
        if 2 < face ∧ cGet t1 aha2 < 1 then (-1, t1)
        else (1, cSet t1 aha2 (cGet t1 aha2 + if face < 1 then 1 else -1))
    else
      let t1 := cSet tc ha (cGet tc ha + 1)
      if 1 < face ∧ cGet t1 aha < 1 then (-1, t1)
      else ((if face < 2 then 3 else 0),
        cSet t1 aha (cGet t1 aha + if face < 2 then 1 else -1))
  else
    if face < 1 ∨ 2 < face then
      let t1 := cSet tc ha (cGet tc ha + 1)
      let aha2 : ℕ := (ha + 2) % 3
      if face < 1 ∧ cGet t1 aha2 < 1 then (-1, t1)
      else (2, cSet t1 aha2 (cGet t1 aha2 + if face < 1 then -1 else 1))
    else
      if cGet tc ha < 1 then (-1, tc)
      else
        let t1 := cSet tc ha (cGet tc ha - 1)
        if 1 < face ∧ cGet t1 aha < 1 then (-1, t1)
        else ((if face < 2 then 0 else 3),
          cSet t1 aha (cGet t1 aha + if face < 2 then 1 else -1))

/-- Involution of `faceAdjacentMicrotet`, half axis 0 case. -/
theorem fam_involution_hc0 (a b c : ℤ) (ha0 : 0 ≤ a) (hb0 : 0 ≤ b) (hc0 : 0 ≤ c)
    (hbc : (b + c) % 2 = 1) (f f2 : ℤ) (tc2 : bccTetCentroid)
    (h0 : 0 ≤ f) (h4 : f < 4)
    (heq : faceAdjacentMicrotet ⟨2 * a + 1, 2 * b, 2 * c⟩ f = (f2, tc2))
    (hnb : f2 ≠ -1) :
    faceAdjacentMicrotet tc2 f2 = (f, ⟨2 * a + 1, 2 * b, 2 * c⟩) := by
  interval_cases f <;>
    (rw [faceAdjacentMicrotet] at heq
     rw [microHalfAxis_zero _ _ _ (by omega)] at heq
     simp only [cGet, cSet] at heq
     norm_num at heq
     split_ifs at heq <;>
       (try (exfalso; omega)) <;>
       (injection heq with e1 e2; subst e1; subst e2) <;>
       (try (exfalso; omega)) <;>
       (rw [faceAdjacentMicrotet]
        first
          | rw [microHalfAxis_zero _ _ _ (by omega)]
          | rw [microHalfAxis_one _ _ _ (by omega) (by omega)]
          | rw [microHalfAxis_two _ _ _ (by omega) (by omega)]
        simp only [cGet, cSet]
        all_goals norm_num
        all_goals try split_ifs
        all_goals try simp only [Prod.mk.injEq, bccTetCentroid.mk.injEq]
        all_goals omega))

/-- Involution of `faceAdjacentMicrotet`, half axis 1 case. -/
theorem fam_involution_hc1 (a b c : ℤ) (ha0 : 0 ≤ a) (hb0 : 0 ≤ b) (hc0 : 0 ≤ c)
    (hbc : (b + c) % 2 = 1) (f f2 : ℤ) (tc2 : bccTetCentroid)
    (h0 : 0 ≤ f) (h4 : f < 4)
    (heq : faceAdjacentMicrotet ⟨2 * c, 2 * a + 1, 2 * b⟩ f = (f2, tc2))
    (hnb : f2 ≠ -1) :
    faceAdjacentMicrotet tc2 f2 = (f, ⟨2 * c, 2 * a + 1, 2 * b⟩) := by
  interval_cases f <;>
    (rw [faceAdjacentMicrotet] at heq
     rw [microHalfAxis_one _ _ _ (by omega) (by omega)] at heq
     simp only [cGet, cSet] at heq
     norm_num at heq
     split_ifs at heq <;>
       (try (exfalso; omega)) <;>
       (injection heq with e1 e2; subst e1; subst e2) <;>
       (try (exfalso; omega)) <;>
       (rw [faceAdjacentMicrotet]
        first
          | rw [microHalfAxis_zero _ _ _ (by omega)]
          | rw [microHalfAxis_one _ _ _ (by omega) (by omega)]
          | rw [microHalfAxis_two _ _ _ (by omega) (by omega)]
        simp only [cGet, cSet]
        all_goals norm_num
        all_goals try split_ifs
        all_goals try simp only [Prod.mk.injEq, bccTetCentroid.mk.injEq]
        all_goals omega))

/-- Involution of `faceAdjacentMicrotet`, half axis 2 case. -/
theorem fam_involution_hc2 (a b c : ℤ) (ha0 : 0 ≤ a) (hb0 : 0 ≤ b) (hc0 : 0 ≤ c)
    (hbc : (b + c) % 2 = 1) (f f2 : ℤ) (tc2 : bccTetCentroid)
    (h0 : 0 ≤ f) (h4 : f < 4)
    (heq : faceAdjacentMicrotet ⟨2 * b, 2 * c, 2 * a + 1⟩ f = (f2, tc2))
    (hnb : f2 ≠ -1) :
    faceAdjacentMicrotet tc2 f2 = (f, ⟨2 * b, 2 * c, 2 * a + 1⟩) := by
  interval_cases f <;>
    (rw [faceAdjacentMicrotet] at heq
     rw [microHalfAxis_two _ _ _ (by omega) (by omega)] at heq
     simp only [cGet, cSet] at heq
     norm_num at heq
     split_ifs at heq <;>
       (try (exfalso; omega)) <;>
       (injection heq with e1 e2; subst e1; subst e2) <;>
       (try (exfalso; omega)) <;>
       (rw [faceAdjacentMicrotet]
        first
          | rw [microHalfAxis_zero _ _ _ (by omega)]
          | rw [microHalfAxis_one _ _ _ (by omega) (by omega)]
          | rw [microHalfAxis_two _ _ _ (by omega) (by omega)]
        simp only [cGet, cSet]
        all_goals norm_num
        all_goals try split_ifs
        all_goals try simp only [Prod.mk.injEq, bccTetCentroid.mk.injEq]
        all_goals omega))

/-- C2: face adjacency at the finest level is an involution.  For every valid
microtet centroid `tc` and face `f ∈ {0,1,2,3}` for which
`faceAdjacentMicrotet` does not report the boundary sentinel `-1`, applying
`faceAdjacentMicrotet` to the returned neighbour centroid and returned face
yields the original pair `(f, tc)` again. -/
theorem C2_microtet_face_involution (tc : bccTetCentroid) (hc : ℕ) (a b c : ℤ)
    (h : ValidAt tc hc 0 a b c) (f f2 : ℤ) (tc2 : bccTetCentroid)
    (h0 : 0 ≤ f) (h4 : f < 4)
    (heq : faceAdjacentMicrotet tc f = (f2, tc2)) (hnb : f2 ≠ -1) :
    faceAdjacentMicrotet tc2 f2 = (f, tc) := by
  obtain ⟨h3, -, ha0, hb0, hc0, hhc, hbv, hcv, hbc⟩ := h
  obtain ⟨x, y, z⟩ := tc
  interval_cases hc <;>
    (simp only [cGet] at hhc hbv hcv
     norm_num at hhc hbv hcv
     subst hhc; subst hbv; subst hcv)
  · exact fam_involution_hc0 a b c ha0 hb0 hc0 hbc f f2 tc2 h0 h4 heq hnb
  · exact fam_involution_hc1 a b c ha0 hb0 hc0 hbc f f2 tc2 h0 h4 heq hnb
  · exact fam_involution_hc2 a b c ha0 hb0 hc0 hbc f f2 tc2 h0 h4 heq hnb

/-- Witness for C2 at the concrete valid microtet centroid `(1,2,0)`,
face 1: the neighbour is `((2,3,0), face 3)` and crossing back returns. -/
theorem C2_microtet_face_involution_witness :
    faceAdjacentMicrotet ⟨2, 3, 0⟩ 3 = (1, ⟨1, 2, 0⟩) :=
  C2_microtet_face_involution ⟨1, 2, 0⟩ 0 0 1 0 (by decide) 1 3 ⟨2, 3, 0⟩
    (by decide) (by decide) (by decide) (by decide)

/-- All three coordinates of a centroid are non-negative (the octant
invariant of spec §3). -/
def cNonneg (t : bccTetCentroid) : Prop := 0 ≤ t.x ∧ 0 ≤ t.y ∧ 0 ≤ t.z

instance (t : bccTetCentroid) : Decidable (cNonneg t) := by
  unfold cNonneg; infer_instance

/-- `vnBccTetrahedra::faceAdjacentCentroid` (source lines 1234-1279): the
multi-resolution analogue of `faceAdjacentMicrotet`, parameterised by the
decoded tet `size`.  Returns the adjacent face (or `-1` at the octant
boundary) and the out-parameter `tcAdj` as the source leaves it. -/
def faceAdjacentCentroid (tc : bccTetCentroid) (face : ℤ) : ℤ × bccTetCentroid :=
  let p := centroidHalfAxisSize tc
  let ha : ℕ := p.1
  let size : ℤ := p.2
  let t0 := cSet tc ha (cGet tc ha - size)
  if face < 1 ∨ 2 < face then
    let aha : ℕ := (ha + 2) % 3
    let t1 := cSet t0 aha (cGet t0 aha + size)
    if (cGet tc ha + cGet tc aha) / 2 / size % 2 = 1 then
      let t2 := cSet t1 ha (cGet t1 ha + 2 * size)
      if face < size then
        if cGet t2 aha < 2 * size then (-1, t2)
        else (2, cSet t2 aha (cGet t2 aha - 2 * size))
      else (2, t2)
    else
      if 2 < face then
        if cGet t1 aha < 2 * size then (-1, t1)
        else (1, cSet t1 aha (cGet t1 aha - 2 * size))
      else (1, t1)
  else
    let aha : ℕ := (ha + 1) % 3
    let t1 := cSet t0 aha (cGet t0 aha + size)
    if 1 < face then
      if cGet t1 aha < 2 * size then (-1, t1)
      else
        let t2 := cSet t1 aha (cGet t1 aha - 2 * size)
        if (cGet tc ha + cGet tc aha) / 2 / size % 2 = 1 then
          (0, cSet t2 ha (cGet t2 ha + 2 * size))
        else (3, t2)
    else
      if (cGet tc ha + cGet tc aha) / 2 / size % 2 = 1 then
        (3, cSet t1 ha (cGet t1 ha + 2 * size))
      else (0, t1)

/-- The coordinate shifts of `faceAdjacentMicrotet` with the early-return
boundary guards removed: the ideal neighbour centroid the shift rules would
produce if coordinates were not protected.  Used to state that the `-1`
sentinel is returned exactly when this unguarded neighbour leaves the
non-negative octant. -/
def faceAdjacentMicrotetU (tc : bccTetCentroid) (face : ℤ) : bccTetCentroid :=
  let ha : ℕ := microHalfAxis tc
  let aha : ℕ := (ha + 1) % 3
  if (cGet tc ha + cGet tc aha) / 2 % 2 = 1 then
    if face < 1 ∨ 2 < face then
      let t1 := cSet tc ha (cGet tc ha - 1)
      let aha2 : ℕ := (ha + 2) % 3
      cSet t1 aha2 (cGet t1 aha2 + if face < 1 then 1 else -1)
    else
      let t1 := cSet tc ha (cGet tc ha + 1)
      cSet t1 aha (cGet t1 aha + if face < 2 then 1 else -1)
  else
    if face < 1 ∨ 2 < face then
      let t1 := cSet tc ha (cGet tc ha + 1)
      let aha2 : ℕ := (ha + 2) % 3
      cSet t1 aha2 (cGet t1 aha2 + if face < 1 then -1 else 1)
    else
      let t1 := cSet tc ha (cGet tc ha - 1)
      cSet t1 aha (cGet t1 aha + if face < 2 then 1 else -1)

/-- The coordinate shifts of `faceAdjacentCentroid` with the early-return
boundary guards removed (see `faceAdjacentMicrotetU`). -/
def faceAdjacentCentroidU (tc : bccTetCentroid) (face : ℤ) : bccTetCentroid :=
  let p := centroidHalfAxisSize tc
  let ha : ℕ := p.1
  let size : ℤ := p.2
  let t0 := cSet tc ha (cGet tc ha - size)
  if face < 1 ∨ 2 < face then
    let aha : ℕ := (ha + 2) % 3
    let t1 := cSet t0 aha (cGet t0 aha + size)
    if (cGet tc ha + cGet tc aha) / 2 / size % 2 = 1 then
      let t2 := cSet t1 ha (cGet t1 ha + 2 * size)
      if face < size then cSet t2 aha (cGet t2 aha - 2 * size)
      else t2
    else
      if 2 < face then cSet t1 aha (cGet t1 aha - 2 * size)
      else t1
  else
    let aha : ℕ := (ha + 1) % 3
    let t1 := cSet t0 aha (cGet t0 aha + size)
    if 1 < face then
      let t2 := cSet t1 aha (cGet t1 aha - 2 * size)
      if (cGet tc ha + cGet tc aha) / 2 / size % 2 = 1 then
        cSet t2 ha (cGet t2 ha + 2 * size)
      else t2
    else
      if (cGet tc ha + cGet tc aha) / 2 / size % 2 = 1 then
        cSet t1 ha (cGet t1 ha + 2 * size)
      else t1

/-- Size-1 agreement of the macro and micro face-adjacency routines, half
axis 0 case. -/
theorem fac_eq_fam_hc0 (a b c : ℤ) (ha0 : 0 ≤ a) (hb0 : 0 ≤ b) (hc0 : 0 ≤ c)
    (hbc : (b + c) % 2 = 1) (f : ℤ) (h0 : 0 ≤ f) (h4 : f < 4) :
    (faceAdjacentCentroid ⟨2 * a + 1, 2 * b, 2 * c⟩ f).1 =
      (faceAdjacentMicrotet ⟨2 * a + 1, 2 * b, 2 * c⟩ f).1 ∧
    ((faceAdjacentMicrotet ⟨2 * a + 1, 2 * b, 2 * c⟩ f).1 ≠ -1 →
      (faceAdjacentCentroid ⟨2 * a + 1, 2 * b, 2 * c⟩ f).2 =
        (faceAdjacentMicrotet ⟨2 * a + 1, 2 * b, 2 * c⟩ f).2) := by
  have hdec : centroidHalfAxisSize ⟨2 * a + 1, 2 * b, 2 * c⟩ = (0, 1) := by
    have h := centroidHalfAxisSize_valid ⟨2 * a + 1, 2 * b, 2 * c⟩ 0 0 a b c
      (by
        refine ⟨by norm_num, by norm_num, ha0, hb0, hc0, ?_, ?_, ?_, hbc⟩ <;>
          (simp [cGet]; try ring))
    simpa using h
  interval_cases f <;>
    (rw [faceAdjacentCentroid, faceAdjacentMicrotet, hdec,
        microHalfAxis_zero _ _ _ (by omega)]
     simp only [cGet, cSet]
     norm_num
     split_ifs <;>
       (try simp only [Prod.mk.injEq, bccTetCentroid.mk.injEq]) <;>
       (first | omega | (norm_num <;> omega)))

/-- Size-1 agreement of the macro and micro face-adjacency routines, half
axis 1 case. -/
theorem fac_eq_fam_hc1 (a b c : ℤ) (ha0 : 0 ≤ a) (hb0 : 0 ≤ b) (hc0 : 0 ≤ c)
    (hbc : (b + c) % 2 = 1) (f : ℤ) (h0 : 0 ≤ f) (h4 : f < 4) :
    (faceAdjacentCentroid ⟨2 * c, 2 * a + 1, 2 * b⟩ f).1 =
      (faceAdjacentMicrotet ⟨2 * c, 2 * a + 1, 2 * b⟩ f).1 ∧
    ((faceAdjacentMicrotet ⟨2 * c, 2 * a + 1, 2 * b⟩ f).1 ≠ -1 →
      (faceAdjacentCentroid ⟨2 * c, 2 * a + 1, 2 * b⟩ f).2 =
        (faceAdjacentMicrotet ⟨2 * c, 2 * a + 1, 2 * b⟩ f).2) := by
  have hdec : centroidHalfAxisSize ⟨2 * c, 2 * a + 1, 2 * b⟩ = (1, 1) := by
    have h := centroidHalfAxisSize_valid ⟨2 * c, 2 * a + 1, 2 * b⟩ 1 0 a b c
      (by
        refine ⟨by norm_num, by norm_num, ha0, hb0, hc0, ?_, ?_, ?_, hbc⟩ <;>
          (simp [cGet]; try ring))
    simpa using h
  interval_cases f <;>
    (rw [faceAdjacentCentroid, faceAdjacentMicrotet, hdec,
        microHalfAxis_one _ _ _ (by omega) (by omega)]
     simp only [cGet, cSet]
     norm_num
     split_ifs <;>
       (try simp only [Prod.mk.injEq, bccTetCentroid.mk.injEq]) <;>
       (first | omega | (norm_num <;> omega)))

/-- Size-1 agreement of the macro and micro face-adjacency routines, half
axis 2 case. -/
theorem fac_eq_fam_hc2 (a b c : ℤ) (ha0 : 0 ≤ a) (hb0 : 0 ≤ b) (hc0 : 0 ≤ c)
    (hbc : (b + c) % 2 = 1) (f : ℤ) (h0 : 0 ≤ f) (h4 : f < 4) :
    (faceAdjacentCentroid ⟨2 * b, 2 * c, 2 * a + 1⟩ f).1 =
      (faceAdjacentMicrotet ⟨2 * b, 2 * c, 2 * a + 1⟩ f).1 ∧
    ((faceAdjacentMicrotet ⟨2 * b, 2 * c, 2 * a + 1⟩ f).1 ≠ -1 →
      (faceAdjacentCentroid ⟨2 * b, 2 * c, 2 * a + 1⟩ f).2 =
        (faceAdjacentMicrotet ⟨2 * b, 2 * c, 2 * a + 1⟩ f).2) := by
  have hdec : centroidHalfAxisSize ⟨2 * b, 2 * c, 2 * a + 1⟩ = (2, 1) := by
    have h := centroidHalfAxisSize_valid ⟨2 * b, 2 * c, 2 * a + 1⟩ 2 0 a b c
      (by
        refine ⟨by norm_num, by norm_num, ha0, hb0, hc0, ?_, ?_, ?_, hbc⟩ <;>
          (simp [cGet]; try ring))
    simpa using h
  interval_cases f <;>
    (rw [faceAdjacentCentroid, faceAdjacentMicrotet, hdec,
        microHalfAxis_two _ _ _ (by omega) (by omega)]
     simp only [cGet, cSet]
     norm_num
     split_ifs <;>
       (try simp only [Prod.mk.injEq, bccTetCentroid.mk.injEq]) <;>
       (first | omega | (norm_num <;> omega)))

/-- C9: for every valid finest-level (size 1) centroid and every face
`f ∈ {0,1,2,3}`, `faceAdjacentCentroid` returns the same adjacent-face index
as `faceAdjacentMicrotet` (so in particular the two agree on when the boundary
sentinel `-1` is reported), and whenever the result is not the sentinel the
two compute the same adjacent centroid. -/
theorem C9_faceAdjacentCentroid_micro_agreement (tc : bccTetCentroid)
    (hc : ℕ) (a b c : ℤ) (h : ValidAt tc hc 0 a b c) (f : ℤ)
    (h0 : 0 ≤ f) (h4 : f < 4) :
    (faceAdjacentCentroid tc f).1 = (faceAdjacentMicrotet tc f).1 ∧
    ((faceAdjacentMicrotet tc f).1 ≠ -1 →
      (faceAdjacentCentroid tc f).2 = (faceAdjacentMicrotet tc f).2) := by
  obtain ⟨h3, -, ha0, hb0, hc0, hhc, hbv, hcv, hbc⟩ := h
  obtain ⟨x, y, z⟩ := tc
  interval_cases hc <;>
    (simp only [cGet] at hhc hbv hcv
     norm_num at hhc hbv hcv
     subst hhc; subst hbv; subst hcv)
  · exact fac_eq_fam_hc0 a b c ha0 hb0 hc0 hbc f h0 h4
  · exact fac_eq_fam_hc1 a b c ha0 hb0 hc0 hbc f h0 h4
  · exact fac_eq_fam_hc2 a b c ha0 hb0 hc0 hbc f h0 h4

/-- Witness for C9 at the concrete valid microtet centroid `(1,2,0)`,
face 2 (a face whose neighbour computation subtracts). -/
theorem C9_faceAdjacentCentroid_micro_agreement_witness :
    (faceAdjacentCentroid ⟨1, 2, 0⟩ 2).1 = (faceAdjacentMicrotet ⟨1, 2, 0⟩ 2).1 ∧
    ((faceAdjacentMicrotet ⟨1, 2, 0⟩ 2).1 ≠ -1 →
      (faceAdjacentCentroid ⟨1, 2, 0⟩ 2).2 = (faceAdjacentMicrotet ⟨1, 2, 0⟩ 2).2) :=
  C9_faceAdjacentCentroid_micro_agreement ⟨1, 2, 0⟩ 0 0 1 0 (by decide) 2
    (by decide) (by decide)

/-- Octant-boundary behaviour of `faceAdjacentCentroid`, half axis 0. -/
theorem fac_bound_hc0 (s X Y Z : ℤ) (hs : 0 < s) (hXs : s ≤ X) (hY0 : 0 ≤ Y)
    (hZ0 : 0 ≤ Z) (hdec : centroidHalfAxisSize ⟨X, Y, Z⟩ = (0, s))
    (f : ℤ) (h0 : 0 ≤ f) (h4 : f < 4) :
    ((faceAdjacentCentroid ⟨X, Y, Z⟩ f).1 = -1 →
      ¬ cNonneg (faceAdjacentCentroidU ⟨X, Y, Z⟩ f)) ∧
    ((faceAdjacentCentroid ⟨X, Y, Z⟩ f).1 ≠ -1 →
      (faceAdjacentCentroid ⟨X, Y, Z⟩ f).2 = faceAdjacentCentroidU ⟨X, Y, Z⟩ f ∧
      cNonneg ((faceAdjacentCentroid ⟨X, Y, Z⟩ f).2)) := by
  interval_cases f <;>
    (simp only [faceAdjacentCentroid, faceAdjacentCentroidU, hdec]
     simp only [cGet, cSet]
     norm_num
     split_ifs <;>
       (first
         | omega
         | (simp only [cNonneg]; omega)
         | (norm_num [cNonneg] <;> omega)
         | (simp only [cNonneg, Prod.mk.injEq, bccTetCentroid.mk.injEq]
            norm_num <;> omega)))

/-- Octant-boundary behaviour of `faceAdjacentCentroid`, half axis 1. -/
theorem fac_bound_hc1 (s X Y Z : ℤ) (hs : 0 < s) (hX0 : 0 ≤ X) (hYs : s ≤ Y)
    (hZ0 : 0 ≤ Z) (hdec : centroidHalfAxisSize ⟨X, Y, Z⟩ = (1, s))
    (f : ℤ) (h0 : 0 ≤ f) (h4 : f < 4) :
    ((faceAdjacentCentroid ⟨X, Y, Z⟩ f).1 = -1 →
      ¬ cNonneg (faceAdjacentCentroidU ⟨X, Y, Z⟩ f)) ∧
    ((faceAdjacentCentroid ⟨X, Y, Z⟩ f).1 ≠ -1 →
      (faceAdjacentCentroid ⟨X, Y, Z⟩ f).2 = faceAdjacentCentroidU ⟨X, Y, Z⟩ f ∧
      cNonneg ((faceAdjacentCentroid ⟨X, Y, Z⟩ f).2)) := by
  interval_cases f <;>
    (simp only [faceAdjacentCentroid, faceAdjacentCentroidU, hdec]
     simp only [cGet, cSet]
     norm_num
     split_ifs <;>
       (first
         | omega
         | (simp only [cNonneg]; omega)
         | (norm_num [cNonneg] <;> omega)
         | (simp only [cNonneg, Prod.mk.injEq, bccTetCentroid.mk.injEq]
            norm_num <;> omega)))

/-- Octant-boundary behaviour of `faceAdjacentCentroid`, half axis 2. -/
theorem fac_bound_hc2 (s X Y Z : ℤ) (hs : 0 < s) (hX0 : 0 ≤ X) (hY0 : 0 ≤ Y)
    (hZs : s ≤ Z) (hdec : centroidHalfAxisSize ⟨X, Y, Z⟩ = (2, s))
    (f : ℤ) (h0 : 0 ≤ f) (h4 : f < 4) :
    ((faceAdjacentCentroid ⟨X, Y, Z⟩ f).1 = -1 →
      ¬ cNonneg (faceAdjacentCentroidU ⟨X, Y, Z⟩ f)) ∧
    ((faceAdjacentCentroid ⟨X, Y, Z⟩ f).1 ≠ -1 →
      (faceAdjacentCentroid ⟨X, Y, Z⟩ f).2 = faceAdjacentCentroidU ⟨X, Y, Z⟩ f ∧
      cNonneg ((faceAdjacentCentroid ⟨X, Y, Z⟩ f).2)) := by
  interval_cases f <;>
    (simp only [faceAdjacentCentroid, faceAdjacentCentroidU, hdec]
     simp only [cGet, cSet]
     norm_num
     split_ifs <;>
       (first
         | omega
         | (simp only [cNonneg]; omega)
         | (norm_num [cNonneg] <;> omega)
         | (simp only [cNonneg, Prod.mk.injEq, bccTetCentroid.mk.injEq]
            norm_num <;> omega)))

/-- Octant-boundary behaviour of `faceAdjacentMicrotet`, half axis 0. -/
theorem fam_bound_hc0 (X Y Z : ℤ) (hX0 : 0 ≤ X) (hY0 : 0 ≤ Y) (hZ0 : 0 ≤ Z)
    (hX2 : X % 2 = 1) (hY2 : Y % 2 = 0) (hZ2 : Z % 2 = 0)
    (f : ℤ) (h0 : 0 ≤ f) (h4 : f < 4) :
    ((faceAdjacentMicrotet ⟨X, Y, Z⟩ f).1 = -1 →
      ¬ cNonneg (faceAdjacentMicrotetU ⟨X, Y, Z⟩ f)) ∧
    ((faceAdjacentMicrotet ⟨X, Y, Z⟩ f).1 ≠ -1 →
      (faceAdjacentMicrotet ⟨X, Y, Z⟩ f).2 = faceAdjacentMicrotetU ⟨X, Y, Z⟩ f ∧
      cNonneg ((faceAdjacentMicrotet ⟨X, Y, Z⟩ f).2)) := by
  interval_cases f <;>
    (simp only [faceAdjacentMicrotet, faceAdjacentMicrotetU]
     rw [microHalfAxis_zero _ _ _ hX2]
     simp only [cGet, cSet]
     norm_num
     split_ifs <;>
       (first
         | omega
         | (simp only [cNonneg]; omega)
         | (norm_num [cNonneg] <;> omega)
         | (simp only [cNonneg, Prod.mk.injEq, bccTetCentroid.mk.injEq]
            norm_num <;> omega)))

/-- Octant-boundary behaviour of `faceAdjacentMicrotet`, half axis 1. -/
theorem fam_bound_hc1 (X Y Z : ℤ) (hX0 : 0 ≤ X) (hY0 : 0 ≤ Y) (hZ0 : 0 ≤ Z)
    (hX2 : X % 2 = 0) (hY2 : Y % 2 = 1) (hZ2 : Z % 2 = 0)
    (f : ℤ) (h0 : 0 ≤ f) (h4 : f < 4) :
    ((faceAdjacentMicrotet ⟨X, Y, Z⟩ f).1 = -1 →
      ¬ cNonneg (faceAdjacentMicrotetU ⟨X, Y, Z⟩ f)) ∧
    ((faceAdjacentMicrotet ⟨X, Y, Z⟩ f).1 ≠ -1 →
      (faceAdjacentMicrotet ⟨X, Y, Z⟩ f).2 = faceAdjacentMicrotetU ⟨X, Y, Z⟩ f ∧
      cNonneg ((faceAdjacentMicrotet ⟨X, Y, Z⟩ f).2)) := by
  interval_cases f <;>
    (simp only [faceAdjacentMicrotet, faceAdjacentMicrotetU]
     rw [microHalfAxis_one _ _ _ (by omega) (by omega)]
     simp only [cGet, cSet]
     norm_num
     split_ifs <;>
       (first
         | omega
         | (simp only [cNonneg]; omega)
         | (norm_num [cNonneg] <;> omega)
         | (simp only [cNonneg, Prod.mk.injEq, bccTetCentroid.mk.injEq]
            norm_num <;> omega)))

/-- Octant-boundary behaviour of `faceAdjacentMicrotet`, half axis 2. -/
theorem fam_bound_hc2 (X Y Z : ℤ) (hX0 : 0 ≤ X) (hY0 : 0 ≤ Y) (hZ0 : 0 ≤ Z)
    (hX2 : X % 2 = 0) (hY2 : Y % 2 = 0) (hZ2 : Z % 2 = 1)
    (f : ℤ) (h0 : 0 ≤ f) (h4 : f < 4) :
    ((faceAdjacentMicrotet ⟨X, Y, Z⟩ f).1 = -1 →
      ¬ cNonneg (faceAdjacentMicrotetU ⟨X, Y, Z⟩ f)) ∧
    ((faceAdjacentMicrotet ⟨X, Y, Z⟩ f).1 ≠ -1 →
      (faceAdjacentMicrotet ⟨X, Y, Z⟩ f).2 = faceAdjacentMicrotetU ⟨X, Y, Z⟩ f ∧
      cNonneg ((faceAdjacentMicrotet ⟨X, Y, Z⟩ f).2)) := by
  interval_cases f <;>
    (simp only [faceAdjacentMicrotet, faceAdjacentMicrotetU]
     rw [microHalfAxis_two _ _ _ (by omega) (by omega)]
     simp only [cGet, cSet]
     norm_num
     split_ifs <;>
       (first
         | omega
         | (simp only [cNonneg]; omega)
         | (norm_num [cNonneg] <;> omega)
         | (simp only [cNonneg, Prod.mk.injEq, bccTetCentroid.mk.injEq]
            norm_num <;> omega)))

/-- C1..C10 share this fact: the size of a valid centroid is positive. -/
theorem pow2_pos (k : ℕ) : (0 : ℤ) < 2 ^ k := by positivity

/-- C5: for every valid centroid `tc` and face `f ∈ {0,1,2,3}`, whenever the
coordinate shifts would make a coordinate of the neighbour centroid negative,
`faceAdjacentMicrotet` (on the finest level, where it applies) and
`faceAdjacentCentroid` report the `-1` boundary sentinel; and every
non-sentinel result equals the plain (unwrapped) integer shift with all three
coordinates `≥ 0`.  The converse of the first conjunct follows from the
second, so sentinel is reported exactly when a coordinate would go negative,
and no modular wrap-around can reach a caller. -/
theorem C5_boundary_sentinel_nonneg (tc : bccTetCentroid) (hc k : ℕ)
    (a b c : ℤ) (h : ValidAt tc hc k a b c) (f : ℤ) (h0 : 0 ≤ f) (h4 : f < 4) :
    (k = 0 →
      ((faceAdjacentMicrotet tc f).1 = -1 →
        ¬ cNonneg (faceAdjacentMicrotetU tc f)) ∧
      ((faceAdjacentMicrotet tc f).1 ≠ -1 →
        (faceAdjacentMicrotet tc f).2 = faceAdjacentMicrotetU tc f ∧
        cNonneg (faceAdjacentMicrotet tc f).2)) ∧
    (((faceAdjacentCentroid tc f).1 = -1 →
        ¬ cNonneg (faceAdjacentCentroidU tc f)) ∧
     ((faceAdjacentCentroid tc f).1 ≠ -1 →
        (faceAdjacentCentroid tc f).2 = faceAdjacentCentroidU tc f ∧
        cNonneg (faceAdjacentCentroid tc f).2)) := by
  have hdec := centroidHalfAxisSize_valid tc hc k a b c h
  obtain ⟨h3, h15, ha0, hb0, hc0, hhc, hbv, hcv, hbc⟩ := h
  have hs : (0 : ℤ) < 2 ^ k := pow2_pos k
  have hs2 : (0 : ℤ) ≤ 2 ^ k * a := by positivity
  have hs3 : (0 : ℤ) ≤ 2 ^ (k + 1) * b := by
    exact mul_nonneg (by positivity) hb0
  have hs4 : (0 : ℤ) ≤ 2 ^ (k + 1) * c := by
    exact mul_nonneg (by positivity) hc0
  obtain ⟨x, y, z⟩ := tc
  interval_cases hc <;>
    (simp only [cGet] at hhc hbv hcv
     norm_num at hhc hbv hcv
     subst hhc; subst hbv; subst hcv
     constructor)
  · intro hk; subst hk
    norm_num at hdec hs2 hs3 hs4 ⊢
    exact fam_bound_hc0 _ _ _ (by omega) (by omega) (by omega)
      (by omega) (by omega) (by omega) f h0 h4
  · exact fac_bound_hc0 (2 ^ k) _ _ _ hs (by nlinarith) (by omega) (by omega)
      hdec f h0 h4
  · intro hk; subst hk
    norm_num at hdec hs2 hs3 hs4 ⊢
    exact fam_bound_hc1 _ _ _ (by omega) (by omega) (by omega)
      (by omega) (by omega) (by omega) f h0 h4
  · exact fac_bound_hc1 (2 ^ k) _ _ _ hs (by omega) (by nlinarith) (by omega)
      hdec f h0 h4
  · intro hk; subst hk
    norm_num at hdec hs2 hs3 hs4 ⊢
    exact fam_bound_hc2 _ _ _ (by omega) (by omega) (by omega)
      (by omega) (by omega) (by omega) f h0 h4
  · exact fac_bound_hc2 (2 ^ k) _ _ _ hs (by omega) (by omega) (by nlinarith)
      hdec f h0 h4

/-- Witness for C5 at the valid microtet centroid `(1,2,0)` and face 3,
where the neighbour computation would drive the z coordinate to `-1`: both
routines report the sentinel. -/
theorem C5_boundary_sentinel_nonneg_witness :
    (((faceAdjacentMicrotet ⟨1, 2, 0⟩ 3).1 = -1 →
        ¬ cNonneg (faceAdjacentMicrotetU ⟨1, 2, 0⟩ 3)) ∧
      ((faceAdjacentMicrotet ⟨1, 2, 0⟩ 3).1 ≠ -1 →
        (faceAdjacentMicrotet ⟨1, 2, 0⟩ 3).2 = faceAdjacentMicrotetU ⟨1, 2, 0⟩ 3 ∧
        cNonneg (faceAdjacentMicrotet ⟨1, 2, 0⟩ 3).2)) ∧
    (((faceAdjacentCentroid ⟨1, 2, 0⟩ 3).1 = -1 →
        ¬ cNonneg (faceAdjacentCentroidU ⟨1, 2, 0⟩ 3)) ∧
     ((faceAdjacentCentroid ⟨1, 2, 0⟩ 3).1 ≠ -1 →
        (faceAdjacentCentroid ⟨1, 2, 0⟩ 3).2 = faceAdjacentCentroidU ⟨1, 2, 0⟩ 3 ∧
        cNonneg (faceAdjacentCentroid ⟨1, 2, 0⟩ 3).2)) :=
  (C5_boundary_sentinel_nonneg ⟨1, 2, 0⟩ 0 0 0 1 0 (by decide) 3
    (by decide) (by decide)).imp (fun h => h rfl) id

/-- The invalid-child sentinel of `subtetCentroids` (source `markInvalid`,
lines 1136-1139: all three coordinates set to `USHRT_MAX`). -/
def invalidC : bccTetCentroid := ⟨65535, 65535, 65535⟩

/-- `vnBccTetrahedra::subtetCentroids` (source lines 1124-1181): the 8 child
centroids of a macro centroid, children 0-3 the corner subtets sharing the
parent half axis, 4-7 the core ring.  The source computes the `up` orientation
flag once (line 1132) and reads it in the corner children; here the defining
comparison is inlined at each read, which is the same value.  `none` models the `logic_error` thrown
on a level-1 input; a child whose secondary coordinate would go negative is
the `invalidC` sentinel. -/
def subtetCentroids (tc : bccTetCentroid) : Option (ℕ → bccTetCentroid) :=
  let p := centroidHalfAxisSize tc
  let hc : ℕ := p.1
  let level : ℤ := p.2
  if level < 2 then none
  else
    let levelUp : ℤ := 2 * level
    let levelDown : ℤ := level / 2
    let c1 : ℕ := (hc + 1) % 3
    let c2 : ℕ := (hc + 2) % 3
    some (fun i =>
      if i = 0 then
        let t := cSet tc hc (cGet tc hc +
          (if cGet tc hc / levelUp % 2 = cGet tc c2 / levelUp % 2 then -levelDown
           else levelDown))
        if cGet t c1 < level then invalidC else cSet t c1 (cGet t c1 - level)
      else if i = 1 then
        let t := cSet tc hc (cGet tc hc +
          (if cGet tc hc / levelUp % 2 = cGet tc c2 / levelUp % 2 then -levelDown
           else levelDown))
        cSet t c1 (cGet t c1 + level)
      else if i = 2 then
        let t := cSet tc hc (cGet tc hc +
          (if cGet tc hc / levelUp % 2 = cGet tc c2 / levelUp % 2 then levelDown
           else -levelDown))
        if cGet tc hc / levelUp % 2 = cGet tc c2 / levelUp % 2 then
          cSet t c2 (cGet t c2 + level)
        else if cGet t c2 < level then invalidC else cSet t c2 (cGet t c2 - level)
      else if i = 3 then
        let t := cSet tc hc (cGet tc hc +
          (if cGet tc hc / levelUp % 2 = cGet tc c2 / levelUp % 2 then levelDown
           else -levelDown))
        if cGet tc hc / levelUp % 2 = cGet tc c2 / levelUp % 2 then
          (if cGet t c2 < level then invalidC else cSet t c2 (cGet t c2 - level))
        else cSet t c2 (cGet t c2 + level)
      else if i = 4 then
        if cGet tc c1 < levelDown then invalidC else cSet tc c1 (cGet tc c1 - levelDown)
      else if i = 5 then cSet tc c1 (cGet tc c1 + levelDown)
      else if i = 6 then
        if cGet tc c2 < levelDown then invalidC else cSet tc c2 (cGet tc c2 - levelDown)
      else if i = 7 then cSet tc c2 (cGet tc c2 + levelDown)
      else invalidC)

/-- `vnBccTetrahedra::centroidUpOneLevel` (source lines 1183-1232): the
centroid of the unique parent tet one resolution level up. -/
def centroidUpOneLevel (tcIn : bccTetCentroid) : bccTetCentroid :=
  let p := centroidHalfAxisSize tcIn
  let hc : ℕ := p.1
  let levelBit : ℤ := p.2
  let levelX2 : ℤ := 2 * levelBit
  let levelX4 : ℤ := 2 * levelX2
  let c1 : ℕ := (hc + 1) % 3
  let c2 : ℕ := (hc + 2) % 3
  let t0 := cSet tcIn hc (cGet tcIn hc +
    (if cGet tcIn hc / levelX2 % 2 = 1 then levelBit else -levelBit))
  if cGet t0 c1 / levelX2 % 2 = 1 ∧
      cGet t0 hc / levelX4 % 2 ≠ cGet t0 c2 / levelX4 % 2 then t0
  else if cGet t0 c2 / levelX2 % 2 = 1 ∧
      cGet t0 hc / levelX4 % 2 ≠ cGet t0 c1 / levelX4 % 2 then t0
  else
    let t1 := cSet t0 hc (cGet tcIn hc +
      (if cGet tcIn hc / levelX2 % 2 = 1 then -levelBit else levelBit))
    if cGet t1 c1 / levelX2 % 2 = 1 then
      if cGet t1 c2 / levelX4 % 2 = 1 then
        cSet t1 c1 (cGet t1 c1 + (if cGet t1 c1 / levelX4 % 2 = 1 then levelX2 else -levelX2))
      else
        cSet t1 c1 (cGet t1 c1 + (if cGet t1 c1 / levelX4 % 2 = 1 then -levelX2 else levelX2))
    else
      if cGet t1 c1 / levelX4 % 2 = 1 then
        cSet t1 c2 (cGet t1 c2 + (if cGet t1 c2 / levelX4 % 2 = 1 then levelX2 else -levelX2))
      else
        cSet t1 c2 (cGet t1 c2 + (if cGet t1 c2 / levelX4 % 2 = 1 then -levelX2 else levelX2))


/-- Promotion of corner children 0 and 1, half axis 0. -/
theorem cUOL_c01_hc0 (s a b c m p : ℤ) (hs : 0 < s)
    (hm : (m = 4 * a + 1 ∧ a % 2 = c % 2) ∨ (m = 4 * a + 3 ∧ ¬ a % 2 = c % 2))
    (hpv : p = 2 * b - 1 ∨ p = 2 * b + 1)
    (hbc : (b + c) % 2 = 1)
    (hd0 : ∀ mq pq qq : ℤ, mq % 2 = 1 →
      centroidHalfAxisSize ⟨s * mq, 2 * s * pq, 2 * s * qq⟩ = (0, s)) :
    centroidUpOneLevel ⟨s * m, 2 * s * p, 2 * s * (2 * c)⟩ = ⟨2 * s * (2 * a + 1), 2 * s * (2 * b), 2 * s * (2 * c)⟩ := by
  have hmodd : m % 2 = 1 := by rcases hm with ⟨rfl, -⟩ | ⟨rfl, -⟩ <;> omega
  have hdecC := hd0 m p (2 * c) hmodd
  have hX4 : (2 * (2 * s) : ℤ) = 4 * s := by ring
  have Hplus : ∀ v : ℤ, s * v + s = s * (v + 1) := fun v => by ring
  have Hminus : ∀ v : ℤ, s * v + -s = s * (v - 1) := fun v => by ring
  have H2 : ∀ v : ℤ, s * v / (2 * s) = v / 2 := fun v => ediv_two_mul s v hs
  have H2b : ∀ v : ℤ, 2 * s * v / (2 * s) = v := fun v => by
    rw [mul_comm (2 * s) v, Int.mul_ediv_cancel _ (by omega)]
  have H4 : ∀ v : ℤ, s * v / (4 * s) = v / 4 := fun v => ediv_four_mul s v hs
  have H4b : ∀ v : ℤ, 2 * s * v / (4 * s) = v / 2 := fun v => by
    rw [show 2 * s * v = s * (2 * v) by ring, ediv_four_mul s (2 * v) hs]
    omega
  simp only [centroidUpOneLevel, hdecC]
  simp only [cGet, cSet]
  norm_num
  simp only [hX4, Hplus, Hminus, H2, H2b, H4, H4b]
  rcases hm with ⟨rfl, hac⟩ | ⟨rfl, hac⟩ <;> rcases hpv with rfl | rfl <;>
     (first
       | simp only [if_neg (show ¬((4 * a + 1) / 2 % 2 = 1) by omega)]
       | simp only [if_pos (show ((4 * a + 3) / 2 % 2 = 1) by omega)]
       | simp only [if_pos (show ((4 * b - 1) / 2 % 2 = 1) by omega)]
       | simp only [if_neg (show ¬((4 * b + 1) / 2 % 2 = 1) by omega)]
       | simp only [if_pos (show ((4 * c - 1) / 2 % 2 = 1) by omega)]
       | simp only [if_neg (show ¬((4 * c + 1) / 2 % 2 = 1) by omega)]
      simp only [hX4, Hplus, Hminus, H2, H2b, H4, H4b]
      split_ifs <;>
        first
          | omega
          | (simp only [bccTetCentroid.mk.injEq]
             refine ⟨by ring, by ring, by ring⟩))


/-- Promotion of corner children 2 and 3, half axis 0. -/
theorem cUOL_c23_hc0 (s a b c m q : ℤ) (hs : 0 < s)
    (hm : (m = 4 * a + 3 ∧ a % 2 = c % 2) ∨ (m = 4 * a + 1 ∧ ¬ a % 2 = c % 2))
    (hqv : q = 2 * c + 1 ∨ q = 2 * c - 1)
    (hbc : (b + c) % 2 = 1)
    (hd0 : ∀ mq pq qq : ℤ, mq % 2 = 1 →
      centroidHalfAxisSize ⟨s * mq, 2 * s * pq, 2 * s * qq⟩ = (0, s)) :
    centroidUpOneLevel ⟨s * m, 2 * s * (2 * b), 2 * s * q⟩ = ⟨2 * s * (2 * a + 1), 2 * s * (2 * b), 2 * s * (2 * c)⟩ := by
  have hmodd : m % 2 = 1 := by rcases hm with ⟨rfl, -⟩ | ⟨rfl, -⟩ <;> omega
  have hdecC := hd0 m (2 * b) q hmodd
  have hX4 : (2 * (2 * s) : ℤ) = 4 * s := by ring
  have Hplus : ∀ v : ℤ, s * v + s = s * (v + 1) := fun v => by ring
  have Hminus : ∀ v : ℤ, s * v + -s = s * (v - 1) := fun v => by ring
  have H2 : ∀ v : ℤ, s * v / (2 * s) = v / 2 := fun v => ediv_two_mul s v hs
  have H2b : ∀ v : ℤ, 2 * s * v / (2 * s) = v := fun v => by
    rw [mul_comm (2 * s) v, Int.mul_ediv_cancel _ (by omega)]
  have H4 : ∀ v : ℤ, s * v / (4 * s) = v / 4 := fun v => ediv_four_mul s v hs
  have H4b : ∀ v : ℤ, 2 * s * v / (4 * s) = v / 2 := fun v => by
    rw [show 2 * s * v = s * (2 * v) by ring, ediv_four_mul s (2 * v) hs]
    omega
  simp only [centroidUpOneLevel, hdecC]
  simp only [cGet, cSet]
  norm_num
  simp only [hX4, Hplus, Hminus, H2, H2b, H4, H4b]
  rcases hm with ⟨rfl, hac⟩ | ⟨rfl, hac⟩ <;> rcases hqv with rfl | rfl <;>
     (first
       | simp only [if_neg (show ¬((4 * a + 1) / 2 % 2 = 1) by omega)]
       | simp only [if_pos (show ((4 * a + 3) / 2 % 2 = 1) by omega)]
       | simp only [if_pos (show ((4 * b - 1) / 2 % 2 = 1) by omega)]
       | simp only [if_neg (show ¬((4 * b + 1) / 2 % 2 = 1) by omega)]
       | simp only [if_pos (show ((4 * c - 1) / 2 % 2 = 1) by omega)]
       | simp only [if_neg (show ¬((4 * c + 1) / 2 % 2 = 1) by omega)]
      simp only [hX4, Hplus, Hminus, H2, H2b, H4, H4b]
      split_ifs <;>
        first
          | omega
          | (simp only [bccTetCentroid.mk.injEq]
             refine ⟨by ring, by ring, by ring⟩))


/-- Promotion of core children 4 and 5, half axis 0. -/
theorem cUOL_c45_hc0 (s a b c m : ℤ) (hs : 0 < s)
    (hm : m = 4 * b - 1 ∨ m = 4 * b + 1)
    (hbc : (b + c) % 2 = 1)
    (hd1 : ∀ mq pq qq : ℤ, mq % 2 = 1 →
      centroidHalfAxisSize ⟨2 * s * pq, s * mq, 2 * s * qq⟩ = (1, s)) :
    centroidUpOneLevel ⟨2 * s * (2 * a + 1), s * m, 2 * s * (2 * c)⟩ = ⟨2 * s * (2 * a + 1), 2 * s * (2 * b), 2 * s * (2 * c)⟩ := by
  have hmodd : m % 2 = 1 := by rcases hm with rfl | rfl <;> omega
  have hdecC := hd1 m (2 * a + 1) (2 * c) hmodd
  have hX4 : (2 * (2 * s) : ℤ) = 4 * s := by ring
  have Hplus : ∀ v : ℤ, s * v + s = s * (v + 1) := fun v => by ring
  have Hminus : ∀ v : ℤ, s * v + -s = s * (v - 1) := fun v => by ring
  have H2 : ∀ v : ℤ, s * v / (2 * s) = v / 2 := fun v => ediv_two_mul s v hs
  have H2b : ∀ v : ℤ, 2 * s * v / (2 * s) = v := fun v => by
    rw [mul_comm (2 * s) v, Int.mul_ediv_cancel _ (by omega)]
  have H4 : ∀ v : ℤ, s * v / (4 * s) = v / 4 := fun v => ediv_four_mul s v hs
  have H4b : ∀ v : ℤ, 2 * s * v / (4 * s) = v / 2 := fun v => by
    rw [show 2 * s * v = s * (2 * v) by ring, ediv_four_mul s (2 * v) hs]
    omega
  simp only [centroidUpOneLevel, hdecC]
  simp only [cGet, cSet]
  norm_num
  simp only [hX4, Hplus, Hminus, H2, H2b, H4, H4b]
  rcases hm with rfl | rfl <;>
     (first
       | simp only [if_neg (show ¬((4 * a + 1) / 2 % 2 = 1) by omega)]
       | simp only [if_pos (show ((4 * a + 3) / 2 % 2 = 1) by omega)]
       | simp only [if_pos (show ((4 * b - 1) / 2 % 2 = 1) by omega)]
       | simp only [if_neg (show ¬((4 * b + 1) / 2 % 2 = 1) by omega)]
       | simp only [if_pos (show ((4 * c - 1) / 2 % 2 = 1) by omega)]
       | simp only [if_neg (show ¬((4 * c + 1) / 2 % 2 = 1) by omega)]
      simp only [hX4, Hplus, Hminus, H2, H2b, H4, H4b]
      split_ifs <;>
        first
          | omega
          | (simp only [bccTetCentroid.mk.injEq]
             refine ⟨by ring, by ring, by ring⟩))


/-- Promotion of core children 6 and 7, half axis 0. -/
theorem cUOL_c67_hc0 (s a b c m : ℤ) (hs : 0 < s)
    (hm : m = 4 * c - 1 ∨ m = 4 * c + 1)
    (hbc : (b + c) % 2 = 1)
    (hd2 : ∀ mq pq qq : ℤ, mq % 2 = 1 →
      centroidHalfAxisSize ⟨2 * s * pq, 2 * s * qq, s * mq⟩ = (2, s)) :
    centroidUpOneLevel ⟨2 * s * (2 * a + 1), 2 * s * (2 * b), s * m⟩ = ⟨2 * s * (2 * a + 1), 2 * s * (2 * b), 2 * s * (2 * c)⟩ := by
  have hmodd : m % 2 = 1 := by rcases hm with rfl | rfl <;> omega
  have hdecC := hd2 m (2 * a + 1) (2 * b) hmodd
  have hX4 : (2 * (2 * s) : ℤ) = 4 * s := by ring
  have Hplus : ∀ v : ℤ, s * v + s = s * (v + 1) := fun v => by ring
  have Hminus : ∀ v : ℤ, s * v + -s = s * (v - 1) := fun v => by ring
  have H2 : ∀ v : ℤ, s * v / (2 * s) = v / 2 := fun v => ediv_two_mul s v hs
  have H2b : ∀ v : ℤ, 2 * s * v / (2 * s) = v := fun v => by
    rw [mul_comm (2 * s) v, Int.mul_ediv_cancel _ (by omega)]
  have H4 : ∀ v : ℤ, s * v / (4 * s) = v / 4 := fun v => ediv_four_mul s v hs
  have H4b : ∀ v : ℤ, 2 * s * v / (4 * s) = v / 2 := fun v => by
    rw [show 2 * s * v = s * (2 * v) by ring, ediv_four_mul s (2 * v) hs]
    omega
  simp only [centroidUpOneLevel, hdecC]
  simp only [cGet, cSet]
  norm_num
  simp only [hX4, Hplus, Hminus, H2, H2b, H4, H4b]
  rcases hm with rfl | rfl <;>
     (first
       | simp only [if_neg (show ¬((4 * a + 1) / 2 % 2 = 1) by omega)]
       | simp only [if_pos (show ((4 * a + 3) / 2 % 2 = 1) by omega)]
       | simp only [if_pos (show ((4 * b - 1) / 2 % 2 = 1) by omega)]
       | simp only [if_neg (show ¬((4 * b + 1) / 2 % 2 = 1) by omega)]
       | simp only [if_pos (show ((4 * c - 1) / 2 % 2 = 1) by omega)]
       | simp only [if_neg (show ¬((4 * c + 1) / 2 % 2 = 1) by omega)]
      simp only [hX4, Hplus, Hminus, H2, H2b, H4, H4b]
      split_ifs <;>
        first
          | omega
          | (simp only [bccTetCentroid.mk.injEq]
             refine ⟨by ring, by ring, by ring⟩))


/-- Promotion of corner children 0 and 1, half axis 1. -/
theorem cUOL_c01_hc1 (s a b c m p : ℤ) (hs : 0 < s)
    (hm : (m = 4 * a + 1 ∧ a % 2 = c % 2) ∨ (m = 4 * a + 3 ∧ ¬ a % 2 = c % 2))
    (hpv : p = 2 * b - 1 ∨ p = 2 * b + 1)
    (hbc : (b + c) % 2 = 1)
    (hd1 : ∀ mq pq qq : ℤ, mq % 2 = 1 →
      centroidHalfAxisSize ⟨2 * s * pq, s * mq, 2 * s * qq⟩ = (1, s)) :
    centroidUpOneLevel ⟨2 * s * (2 * c), s * m, 2 * s * p⟩ = ⟨2 * s * (2 * c), 2 * s * (2 * a + 1), 2 * s * (2 * b)⟩ := by
  have hmodd : m % 2 = 1 := by rcases hm with ⟨rfl, -⟩ | ⟨rfl, -⟩ <;> omega
  have hdecC := hd1 m (2 * c) p hmodd
  have hX4 : (2 * (2 * s) : ℤ) = 4 * s := by ring
  have Hplus : ∀ v : ℤ, s * v + s = s * (v + 1) := fun v => by ring
  have Hminus : ∀ v : ℤ, s * v + -s = s * (v - 1) := fun v => by ring
  have H2 : ∀ v : ℤ, s * v / (2 * s) = v / 2 := fun v => ediv_two_mul s v hs
  have H2b : ∀ v : ℤ, 2 * s * v / (2 * s) = v := fun v => by
    rw [mul_comm (2 * s) v, Int.mul_ediv_cancel _ (by omega)]
  have H4 : ∀ v : ℤ, s * v / (4 * s) = v / 4 := fun v => ediv_four_mul s v hs
  have H4b : ∀ v : ℤ, 2 * s * v / (4 * s) = v / 2 := fun v => by
    rw [show 2 * s * v = s * (2 * v) by ring, ediv_four_mul s (2 * v) hs]
    omega
  simp only [centroidUpOneLevel, hdecC]
  simp only [cGet, cSet]
  norm_num
  simp only [hX4, Hplus, Hminus, H2, H2b, H4, H4b]
  rcases hm with ⟨rfl, hac⟩ | ⟨rfl, hac⟩ <;> rcases hpv with rfl | rfl <;>
     (first
       | simp only [if_neg (show ¬((4 * a + 1) / 2 % 2 = 1) by omega)]
       | simp only [if_pos (show ((4 * a + 3) / 2 % 2 = 1) by omega)]
       | simp only [if_pos (show ((4 * b - 1) / 2 % 2 = 1) by omega)]
       | simp only [if_neg (show ¬((4 * b + 1) / 2 % 2 = 1) by omega)]
       | simp only [if_pos (show ((4 * c - 1) / 2 % 2 = 1) by omega)]
       | simp only [if_neg (show ¬((4 * c + 1) / 2 % 2 = 1) by omega)]
      simp only [hX4, Hplus, Hminus, H2, H2b, H4, H4b]
      split_ifs <;>
        first
          | omega
          | (simp only [bccTetCentroid.mk.injEq]
             refine ⟨by ring, by ring, by ring⟩))


/-- Promotion of corner children 2 and 3, half axis 1. -/
theorem cUOL_c23_hc1 (s a b c m q : ℤ) (hs : 0 < s)
    (hm : (m = 4 * a + 3 ∧ a % 2 = c % 2) ∨ (m = 4 * a + 1 ∧ ¬ a % 2 = c % 2))
    (hqv : q = 2 * c + 1 ∨ q = 2 * c - 1)
    (hbc : (b + c) % 2 = 1)
    (hd1 : ∀ mq pq qq : ℤ, mq % 2 = 1 →
      centroidHalfAxisSize ⟨2 * s * pq, s * mq, 2 * s * qq⟩ = (1, s)) :
    centroidUpOneLevel ⟨2 * s * q, s * m, 2 * s * (2 * b)⟩ = ⟨2 * s * (2 * c), 2 * s * (2 * a + 1), 2 * s * (2 * b)⟩ := by
  have hmodd : m % 2 = 1 := by rcases hm with ⟨rfl, -⟩ | ⟨rfl, -⟩ <;> omega
  have hdecC := hd1 m q (2 * b) hmodd
  have hX4 : (2 * (2 * s) : ℤ) = 4 * s := by ring
  have Hplus : ∀ v : ℤ, s * v + s = s * (v + 1) := fun v => by ring
  have Hminus : ∀ v : ℤ, s * v + -s = s * (v - 1) := fun v => by ring
  have H2 : ∀ v : ℤ, s * v / (2 * s) = v / 2 := fun v => ediv_two_mul s v hs
  have H2b : ∀ v : ℤ, 2 * s * v / (2 * s) = v := fun v => by
    rw [mul_comm (2 * s) v, Int.mul_ediv_cancel _ (by omega)]
  have H4 : ∀ v : ℤ, s * v / (4 * s) = v / 4 := fun v => ediv_four_mul s v hs
  have H4b : ∀ v : ℤ, 2 * s * v / (4 * s) = v / 2 := fun v => by
    rw [show 2 * s * v = s * (2 * v) by ring, ediv_four_mul s (2 * v) hs]
    omega
  simp only [centroidUpOneLevel, hdecC]
  simp only [cGet, cSet]
  norm_num
  simp only [hX4, Hplus, Hminus, H2, H2b, H4, H4b]
  rcases hm with ⟨rfl, hac⟩ | ⟨rfl, hac⟩ <;> rcases hqv with rfl | rfl <;>
     (first
       | simp only [if_neg (show ¬((4 * a + 1) / 2 % 2 = 1) by omega)]
       | simp only [if_pos (show ((4 * a + 3) / 2 % 2 = 1) by omega)]
       | simp only [if_pos (show ((4 * b - 1) / 2 % 2 = 1) by omega)]
       | simp only [if_neg (show ¬((4 * b + 1) / 2 % 2 = 1) by omega)]
       | simp only [if_pos (show ((4 * c - 1) / 2 % 2 = 1) by omega)]
       | simp only [if_neg (show ¬((4 * c + 1) / 2 % 2 = 1) by omega)]
      simp only [hX4, Hplus, Hminus, H2, H2b, H4, H4b]
      split_ifs <;>
        first
          | omega
          | (simp only [bccTetCentroid.mk.injEq]
             refine ⟨by ring, by ring, by ring⟩))


/-- Promotion of core children 4 and 5, half axis 1. -/
theorem cUOL_c45_hc1 (s a b c m : ℤ) (hs : 0 < s)
    (hm : m = 4 * b - 1 ∨ m = 4 * b + 1)
    (hbc : (b + c) % 2 = 1)
    (hd2 : ∀ mq pq qq : ℤ, mq % 2 = 1 →
      centroidHalfAxisSize ⟨2 * s * pq, 2 * s * qq, s * mq⟩ = (2, s)) :
    centroidUpOneLevel ⟨2 * s * (2 * c), 2 * s * (2 * a + 1), s * m⟩ = ⟨2 * s * (2 * c), 2 * s * (2 * a + 1), 2 * s * (2 * b)⟩ := by
  have hmodd : m % 2 = 1 := by rcases hm with rfl | rfl <;> omega
  have hdecC := hd2 m (2 * c) (2 * a + 1) hmodd
  have hX4 : (2 * (2 * s) : ℤ) = 4 * s := by ring
  have Hplus : ∀ v : ℤ, s * v + s = s * (v + 1) := fun v => by ring
  have Hminus : ∀ v : ℤ, s * v + -s = s * (v - 1) := fun v => by ring
  have H2 : ∀ v : ℤ, s * v / (2 * s) = v / 2 := fun v => ediv_two_mul s v hs
  have H2b : ∀ v : ℤ, 2 * s * v / (2 * s) = v := fun v => by
    rw [mul_comm (2 * s) v, Int.mul_ediv_cancel _ (by omega)]
  have H4 : ∀ v : ℤ, s * v / (4 * s) = v / 4 := fun v => ediv_four_mul s v hs
  have H4b : ∀ v : ℤ, 2 * s * v / (4 * s) = v / 2 := fun v => by
    rw [show 2 * s * v = s * (2 * v) by ring, ediv_four_mul s (2 * v) hs]
    omega
  simp only [centroidUpOneLevel, hdecC]
  simp only [cGet, cSet]
  norm_num
  simp only [hX4, Hplus, Hminus, H2, H2b, H4, H4b]
  rcases hm with rfl | rfl <;>
     (first
       | simp only [if_neg (show ¬((4 * a + 1) / 2 % 2 = 1) by omega)]
       | simp only [if_pos (show ((4 * a + 3) / 2 % 2 = 1) by omega)]
       | simp only [if_pos (show ((4 * b - 1) / 2 % 2 = 1) by omega)]
       | simp only [if_neg (show ¬((4 * b + 1) / 2 % 2 = 1) by omega)]
       | simp only [if_pos (show ((4 * c - 1) / 2 % 2 = 1) by omega)]
       | simp only [if_neg (show ¬((4 * c + 1) / 2 % 2 = 1) by omega)]
      simp only [hX4, Hplus, Hminus, H2, H2b, H4, H4b]
      split_ifs <;>
        first
          | omega
          | (simp only [bccTetCentroid.mk.injEq]
             refine ⟨by ring, by ring, by ring⟩))


/-- Promotion of core children 6 and 7, half axis 1. -/
theorem cUOL_c67_hc1 (s a b c m : ℤ) (hs : 0 < s)
    (hm : m = 4 * c - 1 ∨ m = 4 * c + 1)
    (hbc : (b + c) % 2 = 1)
    (hd0 : ∀ mq pq qq : ℤ, mq % 2 = 1 →
      centroidHalfAxisSize ⟨s * mq, 2 * s * pq, 2 * s * qq⟩ = (0, s)) :
    centroidUpOneLevel ⟨s * m, 2 * s * (2 * a + 1), 2 * s * (2 * b)⟩ = ⟨2 * s * (2 * c), 2 * s * (2 * a + 1), 2 * s * (2 * b)⟩ := by
  have hmodd : m % 2 = 1 := by rcases hm with rfl | rfl <;> omega
  have hdecC := hd0 m (2 * a + 1) (2 * b) hmodd
  have hX4 : (2 * (2 * s) : ℤ) = 4 * s := by ring
  have Hplus : ∀ v : ℤ, s * v + s = s * (v + 1) := fun v => by ring
  have Hminus : ∀ v : ℤ, s * v + -s = s * (v - 1) := fun v => by ring
  have H2 : ∀ v : ℤ, s * v / (2 * s) = v / 2 := fun v => ediv_two_mul s v hs
  have H2b : ∀ v : ℤ, 2 * s * v / (2 * s) = v := fun v => by
    rw [mul_comm (2 * s) v, Int.mul_ediv_cancel _ (by omega)]
  have H4 : ∀ v : ℤ, s * v / (4 * s) = v / 4 := fun v => ediv_four_mul s v hs
  have H4b : ∀ v : ℤ, 2 * s * v / (4 * s) = v / 2 := fun v => by
    rw [show 2 * s * v = s * (2 * v) by ring, ediv_four_mul s (2 * v) hs]
    omega
  simp only [centroidUpOneLevel, hdecC]
  simp only [cGet, cSet]
  norm_num
  simp only [hX4, Hplus, Hminus, H2, H2b, H4, H4b]
  rcases hm with rfl | rfl <;>
     (first
       | simp only [if_neg (show ¬((4 * a + 1) / 2 % 2 = 1) by omega)]
       | simp only [if_pos (show ((4 * a + 3) / 2 % 2 = 1) by omega)]
       | simp only [if_pos (show ((4 * b - 1) / 2 % 2 = 1) by omega)]
       | simp only [if_neg (show ¬((4 * b + 1) / 2 % 2 = 1) by omega)]
       | simp only [if_pos (show ((4 * c - 1) / 2 % 2 = 1) by omega)]
       | simp only [if_neg (show ¬((4 * c + 1) / 2 % 2 = 1) by omega)]
      simp only [hX4, Hplus, Hminus, H2, H2b, H4, H4b]
      split_ifs <;>
        first
          | omega
          | (simp only [bccTetCentroid.mk.injEq]
             refine ⟨by ring, by ring, by ring⟩))


/-- Promotion of corner children 0 and 1, half axis 2. -/
theorem cUOL_c01_hc2 (s a b c m p : ℤ) (hs : 0 < s)
    (hm : (m = 4 * a + 1 ∧ a % 2 = c % 2) ∨ (m = 4 * a + 3 ∧ ¬ a % 2 = c % 2))
    (hpv : p = 2 * b - 1 ∨ p = 2 * b + 1)
    (hbc : (b + c) % 2 = 1)
    (hd2 : ∀ mq pq qq : ℤ, mq % 2 = 1 →
      centroidHalfAxisSize ⟨2 * s * pq, 2 * s * qq, s * mq⟩ = (2, s)) :
    centroidUpOneLevel ⟨2 * s * p, 2 * s * (2 * c), s * m⟩ = ⟨2 * s * (2 * b), 2 * s * (2 * c), 2 * s * (2 * a + 1)⟩ := by
  have hmodd : m % 2 = 1 := by rcases hm with ⟨rfl, -⟩ | ⟨rfl, -⟩ <;> omega
  have hdecC := hd2 m p (2 * c) hmodd
  have hX4 : (2 * (2 * s) : ℤ) = 4 * s := by ring
  have Hplus : ∀ v : ℤ, s * v + s = s * (v + 1) := fun v => by ring
  have Hminus : ∀ v : ℤ, s * v + -s = s * (v - 1) := fun v => by ring
  have H2 : ∀ v : ℤ, s * v / (2 * s) = v / 2 := fun v => ediv_two_mul s v hs
  have H2b : ∀ v : ℤ, 2 * s * v / (2 * s) = v := fun v => by
    rw [mul_comm (2 * s) v, Int.mul_ediv_cancel _ (by omega)]
  have H4 : ∀ v : ℤ, s * v / (4 * s) = v / 4 := fun v => ediv_four_mul s v hs
  have H4b : ∀ v : ℤ, 2 * s * v / (4 * s) = v / 2 := fun v => by
    rw [show 2 * s * v = s * (2 * v) by ring, ediv_four_mul s (2 * v) hs]
    omega
  simp only [centroidUpOneLevel, hdecC]
  simp only [cGet, cSet]
  norm_num
  simp only [hX4, Hplus, Hminus, H2, H2b, H4, H4b]
  rcases hm with ⟨rfl, hac⟩ | ⟨rfl, hac⟩ <;> rcases hpv with rfl | rfl <;>
     (first
       | simp only [if_neg (show ¬((4 * a + 1) / 2 % 2 = 1) by omega)]
       | simp only [if_pos (show ((4 * a + 3) / 2 % 2 = 1) by omega)]
       | simp only [if_pos (show ((4 * b - 1) / 2 % 2 = 1) by omega)]
       | simp only [if_neg (show ¬((4 * b + 1) / 2 % 2 = 1) by omega)]
       | simp only [if_pos (show ((4 * c - 1) / 2 % 2 = 1) by omega)]
       | simp only [if_neg (show ¬((4 * c + 1) / 2 % 2 = 1) by omega)]
      simp only [hX4, Hplus, Hminus, H2, H2b, H4, H4b]
      split_ifs <;>
        first
          | omega
          | (simp only [bccTetCentroid.mk.injEq]
             refine ⟨by ring, by ring, by ring⟩))


/-- Promotion of corner children 2 and 3, half axis 2. -/
theorem cUOL_c23_hc2 (s a b c m q : ℤ) (hs : 0 < s)
    (hm : (m = 4 * a + 3 ∧ a % 2 = c % 2) ∨ (m = 4 * a + 1 ∧ ¬ a % 2 = c % 2))
    (hqv : q = 2 * c + 1 ∨ q = 2 * c - 1)
    (hbc : (b + c) % 2 = 1)
    (hd2 : ∀ mq pq qq : ℤ, mq % 2 = 1 →
      centroidHalfAxisSize ⟨2 * s * pq, 2 * s * qq, s * mq⟩ = (2, s)) :
    centroidUpOneLevel ⟨2 * s * (2 * b), 2 * s * q, s * m⟩ = ⟨2 * s * (2 * b), 2 * s * (2 * c), 2 * s * (2 * a + 1)⟩ := by
  have hmodd : m % 2 = 1 := by rcases hm with ⟨rfl, -⟩ | ⟨rfl, -⟩ <;> omega
  have hdecC := hd2 m (2 * b) q hmodd
  have hX4 : (2 * (2 * s) : ℤ) = 4 * s := by ring
  have Hplus : ∀ v : ℤ, s * v + s = s * (v + 1) := fun v => by ring
  have Hminus : ∀ v : ℤ, s * v + -s = s * (v - 1) := fun v => by ring
  have H2 : ∀ v : ℤ, s * v / (2 * s) = v / 2 := fun v => ediv_two_mul s v hs
  have H2b : ∀ v : ℤ, 2 * s * v / (2 * s) = v := fun v => by
    rw [mul_comm (2 * s) v, Int.mul_ediv_cancel _ (by omega)]
  have H4 : ∀ v : ℤ, s * v / (4 * s) = v / 4 := fun v => ediv_four_mul s v hs
  have H4b : ∀ v : ℤ, 2 * s * v / (4 * s) = v / 2 := fun v => by
    rw [show 2 * s * v = s * (2 * v) by ring, ediv_four_mul s (2 * v) hs]
    omega
  simp only [centroidUpOneLevel, hdecC]
  simp only [cGet, cSet]
  norm_num
  simp only [hX4, Hplus, Hminus, H2, H2b, H4, H4b]
  rcases hm with ⟨rfl, hac⟩ | ⟨rfl, hac⟩ <;> rcases hqv with rfl | rfl <;>
     (first
       | simp only [if_neg (show ¬((4 * a + 1) / 2 % 2 = 1) by omega)]
       | simp only [if_pos (show ((4 * a + 3) / 2 % 2 = 1) by omega)]
       | simp only [if_pos (show ((4 * b - 1) / 2 % 2 = 1) by omega)]
       | simp only [if_neg (show ¬((4 * b + 1) / 2 % 2 = 1) by omega)]
       | simp only [if_pos (show ((4 * c - 1) / 2 % 2 = 1) by omega)]
       | simp only [if_neg (show ¬((4 * c + 1) / 2 % 2 = 1) by omega)]
      simp only [hX4, Hplus, Hminus, H2, H2b, H4, H4b]
      split_ifs <;>
        first
          | omega
          | (simp only [bccTetCentroid.mk.injEq]
             refine ⟨by ring, by ring, by ring⟩))


/-- Promotion of core children 4 and 5, half axis 2. -/
theorem cUOL_c45_hc2 (s a b c m : ℤ) (hs : 0 < s)
    (hm : m = 4 * b - 1 ∨ m = 4 * b + 1)
    (hbc : (b + c) % 2 = 1)
    (hd0 : ∀ mq pq qq : ℤ, mq % 2 = 1 →
      centroidHalfAxisSize ⟨s * mq, 2 * s * pq, 2 * s * qq⟩ = (0, s)) :
    centroidUpOneLevel ⟨s * m, 2 * s * (2 * c), 2 * s * (2 * a + 1)⟩ = ⟨2 * s * (2 * b), 2 * s * (2 * c), 2 * s * (2 * a + 1)⟩ := by
  have hmodd : m % 2 = 1 := by rcases hm with rfl | rfl <;> omega
  have hdecC := hd0 m (2 * c) (2 * a + 1) hmodd
  have hX4 : (2 * (2 * s) : ℤ) = 4 * s := by ring
  have Hplus : ∀ v : ℤ, s * v + s = s * (v + 1) := fun v => by ring
  have Hminus : ∀ v : ℤ, s * v + -s = s * (v - 1) := fun v => by ring
  have H2 : ∀ v : ℤ, s * v / (2 * s) = v / 2 := fun v => ediv_two_mul s v hs
  have H2b : ∀ v : ℤ, 2 * s * v / (2 * s) = v := fun v => by
    rw [mul_comm (2 * s) v, Int.mul_ediv_cancel _ (by omega)]
  have H4 : ∀ v : ℤ, s * v / (4 * s) = v / 4 := fun v => ediv_four_mul s v hs
  have H4b : ∀ v : ℤ, 2 * s * v / (4 * s) = v / 2 := fun v => by
    rw [show 2 * s * v = s * (2 * v) by ring, ediv_four_mul s (2 * v) hs]
    omega
  simp only [centroidUpOneLevel, hdecC]
  simp only [cGet, cSet]
  norm_num
  simp only [hX4, Hplus, Hminus, H2, H2b, H4, H4b]
  rcases hm with rfl | rfl <;>
     (first
       | simp only [if_neg (show ¬((4 * a + 1) / 2 % 2 = 1) by omega)]
       | simp only [if_pos (show ((4 * a + 3) / 2 % 2 = 1) by omega)]
       | simp only [if_pos (show ((4 * b - 1) / 2 % 2 = 1) by omega)]
       | simp only [if_neg (show ¬((4 * b + 1) / 2 % 2 = 1) by omega)]
       | simp only [if_pos (show ((4 * c - 1) / 2 % 2 = 1) by omega)]
       | simp only [if_neg (show ¬((4 * c + 1) / 2 % 2 = 1) by omega)]
      simp only [hX4, Hplus, Hminus, H2, H2b, H4, H4b]
      split_ifs <;>
        first
          | omega
          | (simp only [bccTetCentroid.mk.injEq]
             refine ⟨by ring, by ring, by ring⟩))


/-- Promotion of core children 6 and 7, half axis 2. -/
theorem cUOL_c67_hc2 (s a b c m : ℤ) (hs : 0 < s)
    (hm : m = 4 * c - 1 ∨ m = 4 * c + 1)
    (hbc : (b + c) % 2 = 1)
    (hd1 : ∀ mq pq qq : ℤ, mq % 2 = 1 →
      centroidHalfAxisSize ⟨2 * s * pq, s * mq, 2 * s * qq⟩ = (1, s)) :
    centroidUpOneLevel ⟨2 * s * (2 * b), s * m, 2 * s * (2 * a + 1)⟩ = ⟨2 * s * (2 * b), 2 * s * (2 * c), 2 * s * (2 * a + 1)⟩ := by
  have hmodd : m % 2 = 1 := by rcases hm with rfl | rfl <;> omega
  have hdecC := hd1 m (2 * b) (2 * a + 1) hmodd
  have hX4 : (2 * (2 * s) : ℤ) = 4 * s := by ring
  have Hplus : ∀ v : ℤ, s * v + s = s * (v + 1) := fun v => by ring
  have Hminus : ∀ v : ℤ, s * v + -s = s * (v - 1) := fun v => by ring
  have H2 : ∀ v : ℤ, s * v / (2 * s) = v / 2 := fun v => ediv_two_mul s v hs
  have H2b : ∀ v : ℤ, 2 * s * v / (2 * s) = v := fun v => by
    rw [mul_comm (2 * s) v, Int.mul_ediv_cancel _ (by omega)]
  have H4 : ∀ v : ℤ, s * v / (4 * s) = v / 4 := fun v => ediv_four_mul s v hs
  have H4b : ∀ v : ℤ, 2 * s * v / (4 * s) = v / 2 := fun v => by
    rw [show 2 * s * v = s * (2 * v) by ring, ediv_four_mul s (2 * v) hs]
    omega
  simp only [centroidUpOneLevel, hdecC]
  simp only [cGet, cSet]
  norm_num
  simp only [hX4, Hplus, Hminus, H2, H2b, H4, H4b]
  rcases hm with rfl | rfl <;>
     (first
       | simp only [if_neg (show ¬((4 * a + 1) / 2 % 2 = 1) by omega)]
       | simp only [if_pos (show ((4 * a + 3) / 2 % 2 = 1) by omega)]
       | simp only [if_pos (show ((4 * b - 1) / 2 % 2 = 1) by omega)]
       | simp only [if_neg (show ¬((4 * b + 1) / 2 % 2 = 1) by omega)]
       | simp only [if_pos (show ((4 * c - 1) / 2 % 2 = 1) by omega)]
       | simp only [if_neg (show ¬((4 * c + 1) / 2 % 2 = 1) by omega)]
      simp only [hX4, Hplus, Hminus, H2, H2b, H4, H4b]
      split_ifs <;>
        first
          | omega
          | (simp only [bccTetCentroid.mk.injEq]
             refine ⟨by ring, by ring, by ring⟩))

/-- Round trip of `subtetCentroids` and `centroidUpOneLevel` for a parent of
half axis 0, stated over an opaque positive size `s` with the decode facts
supplied as hypotheses. -/

theorem c1_main_hc0 (s a b c : ℤ) (hs : 0 < s) (hbc : (b + c) % 2 = 1)
    (hdecP : centroidHalfAxisSize ⟨2 * s * (2 * a + 1), 2 * s * (2 * b), 2 * s * (2 * c)⟩ =
      (0, 2 * s))
    (hd0 : ∀ mq pq qq : ℤ, mq % 2 = 1 →
      centroidHalfAxisSize ⟨s * mq, 2 * s * pq, 2 * s * qq⟩ = (0, s))
    (hd1 : ∀ mq pq qq : ℤ, mq % 2 = 1 →
      centroidHalfAxisSize ⟨2 * s * pq, s * mq, 2 * s * qq⟩ = (1, s))
    (hd2 : ∀ mq pq qq : ℤ, mq % 2 = 1 →
      centroidHalfAxisSize ⟨2 * s * pq, 2 * s * qq, s * mq⟩ = (2, s))
    (ch : ℕ → bccTetCentroid)
    (hch : subtetCentroids ⟨2 * s * (2 * a + 1), 2 * s * (2 * b), 2 * s * (2 * c)⟩ = some ch)
    (i : ℕ) (hi : i < 8) (hni : ch i ≠ invalidC) :
    centroidUpOneLevel (ch i) = ⟨2 * s * (2 * a + 1), 2 * s * (2 * b), 2 * s * (2 * c)⟩ := by
  have hu1 : 2 * s * (2 * a + 1) / (2 * (2 * s)) % 2 = a % 2 := by
    rw [show 2 * s * (2 * a + 1) = s * (4 * a + 2) by ring,
      show (2 * (2 * s) : ℤ) = 4 * s by ring, ediv_four_mul _ _ hs]
    omega
  have hu2 : 2 * s * (2 * c) / (2 * (2 * s)) % 2 = c % 2 := by
    rw [show 2 * s * (2 * c) = s * (4 * c) by ring,
      show (2 * (2 * s) : ℤ) = 4 * s by ring, ediv_four_mul _ _ hs]
    omega
  simp only [subtetCentroids, hdecP] at hch
  rw [if_neg (show ¬((2 : ℤ) * s < 2) by omega)] at hch
  norm_num [cGet, cSet] at hch
  simp only [hu1, hu2] at hch
  subst hch
  interval_cases i <;> norm_num at hni ⊢
  · rw [if_neg (not_lt.mpr hni.1)]
    by_cases hud : a % 2 = c % 2
    · simp only [if_pos hud]
      refine Eq.trans (congrArg centroidUpOneLevel ?_)
        (cUOL_c01_hc0 s a b c (4 * a + 1) (2 * b - 1) hs (Or.inl ⟨rfl, hud⟩)
          (Or.inl rfl) hbc hd0)
      simp only [bccTetCentroid.mk.injEq]
      refine ⟨by ring, by ring, by ring⟩
    · simp only [if_neg hud]
      refine Eq.trans (congrArg centroidUpOneLevel ?_)
        (cUOL_c01_hc0 s a b c (4 * a + 3) (2 * b - 1) hs (Or.inr ⟨rfl, hud⟩)
          (Or.inl rfl) hbc hd0)
      simp only [bccTetCentroid.mk.injEq]
      refine ⟨by ring, by ring, by ring⟩
  · by_cases hud : a % 2 = c % 2
    · simp only [if_pos hud]
      refine Eq.trans (congrArg centroidUpOneLevel ?_)
        (cUOL_c01_hc0 s a b c (4 * a + 1) (2 * b + 1) hs (Or.inl ⟨rfl, hud⟩)
          (Or.inr rfl) hbc hd0)
      simp only [bccTetCentroid.mk.injEq]
      refine ⟨by ring, by ring, by ring⟩
    · simp only [if_neg hud]
      refine Eq.trans (congrArg centroidUpOneLevel ?_)
        (cUOL_c01_hc0 s a b c (4 * a + 3) (2 * b + 1) hs (Or.inr ⟨rfl, hud⟩)
          (Or.inr rfl) hbc hd0)
      simp only [bccTetCentroid.mk.injEq]
      refine ⟨by ring, by ring, by ring⟩
  · by_cases hud : a % 2 = c % 2
    · simp only [if_pos hud]
      refine Eq.trans (congrArg centroidUpOneLevel ?_)
        (cUOL_c23_hc0 s a b c (4 * a + 3) (2 * c + 1) hs (Or.inl ⟨rfl, hud⟩)
          (Or.inl rfl) hbc hd0)
      simp only [bccTetCentroid.mk.injEq]
      refine ⟨by ring, by ring, by ring⟩
    · simp only [if_neg hud] at hni ⊢
      by_cases hg : 2 * s * (2 * c) < 2 * s
      · rw [if_pos hg] at hni
        exact absurd rfl hni
      · simp only [if_neg hg]
        refine Eq.trans (congrArg centroidUpOneLevel ?_)
          (cUOL_c23_hc0 s a b c (4 * a + 1) (2 * c - 1) hs (Or.inr ⟨rfl, hud⟩)
            (Or.inr rfl) hbc hd0)
        simp only [bccTetCentroid.mk.injEq]
        refine ⟨by ring, by ring, by ring⟩
  · by_cases hud : a % 2 = c % 2
    · simp only [if_pos hud] at hni ⊢
      by_cases hg : 2 * s * (2 * c) < 2 * s
      · rw [if_pos hg] at hni
        exact absurd rfl hni
      · simp only [if_neg hg]
        refine Eq.trans (congrArg centroidUpOneLevel ?_)
          (cUOL_c23_hc0 s a b c (4 * a + 3) (2 * c - 1) hs (Or.inl ⟨rfl, hud⟩)
            (Or.inr rfl) hbc hd0)
        simp only [bccTetCentroid.mk.injEq]
        refine ⟨by ring, by ring, by ring⟩
    · simp only [if_neg hud]
      refine Eq.trans (congrArg centroidUpOneLevel ?_)
        (cUOL_c23_hc0 s a b c (4 * a + 1) (2 * c + 1) hs (Or.inr ⟨rfl, hud⟩)
          (Or.inl rfl) hbc hd0)
      simp only [bccTetCentroid.mk.injEq]
      refine ⟨by ring, by ring, by ring⟩
  · rw [if_neg (not_lt.mpr hni.1)]
    refine Eq.trans (congrArg centroidUpOneLevel ?_)
      (cUOL_c45_hc0 s a b c (4 * b - 1) hs (Or.inl rfl) hbc hd1)
    simp only [bccTetCentroid.mk.injEq]
    refine ⟨by ring, by ring, by ring⟩
  · refine Eq.trans (congrArg centroidUpOneLevel ?_)
      (cUOL_c45_hc0 s a b c (4 * b + 1) hs (Or.inr rfl) hbc hd1)
    simp only [bccTetCentroid.mk.injEq]
    refine ⟨by ring, by ring, by ring⟩
  · rw [if_neg (not_lt.mpr hni.1)]
    refine Eq.trans (congrArg centroidUpOneLevel ?_)
      (cUOL_c67_hc0 s a b c (4 * c - 1) hs (Or.inl rfl) hbc hd2)
    simp only [bccTetCentroid.mk.injEq]
    refine ⟨by ring, by ring, by ring⟩
  · refine Eq.trans (congrArg centroidUpOneLevel ?_)
      (cUOL_c67_hc0 s a b c (4 * c + 1) hs (Or.inr rfl) hbc hd2)
    simp only [bccTetCentroid.mk.injEq]
    refine ⟨by ring, by ring, by ring⟩
/-- Round trip of `subtetCentroids` and `centroidUpOneLevel` for a parent of
half axis 1, stated over an opaque positive size `s` with the decode facts
supplied as hypotheses. -/

theorem c1_main_hc1 (s a b c : ℤ) (hs : 0 < s) (hbc : (b + c) % 2 = 1)
    (hdecP : centroidHalfAxisSize ⟨2 * s * (2 * c), 2 * s * (2 * a + 1), 2 * s * (2 * b)⟩ =
      (1, 2 * s))
    (hd0 : ∀ mq pq qq : ℤ, mq % 2 = 1 →
      centroidHalfAxisSize ⟨s * mq, 2 * s * pq, 2 * s * qq⟩ = (0, s))
    (hd1 : ∀ mq pq qq : ℤ, mq % 2 = 1 →
      centroidHalfAxisSize ⟨2 * s * pq, s * mq, 2 * s * qq⟩ = (1, s))
    (hd2 : ∀ mq pq qq : ℤ, mq % 2 = 1 →
      centroidHalfAxisSize ⟨2 * s * pq, 2 * s * qq, s * mq⟩ = (2, s))
    (ch : ℕ → bccTetCentroid)
    (hch : subtetCentroids ⟨2 * s * (2 * c), 2 * s * (2 * a + 1), 2 * s * (2 * b)⟩ = some ch)
    (i : ℕ) (hi : i < 8) (hni : ch i ≠ invalidC) :
    centroidUpOneLevel (ch i) = ⟨2 * s * (2 * c), 2 * s * (2 * a + 1), 2 * s * (2 * b)⟩ := by
  have hu1 : 2 * s * (2 * a + 1) / (2 * (2 * s)) % 2 = a % 2 := by
    rw [show 2 * s * (2 * a + 1) = s * (4 * a + 2) by ring,
      show (2 * (2 * s) : ℤ) = 4 * s by ring, ediv_four_mul _ _ hs]
    omega
  have hu2 : 2 * s * (2 * c) / (2 * (2 * s)) % 2 = c % 2 := by
    rw [show 2 * s * (2 * c) = s * (4 * c) by ring,
      show (2 * (2 * s) : ℤ) = 4 * s by ring, ediv_four_mul _ _ hs]
    omega
  simp only [subtetCentroids, hdecP] at hch
  rw [if_neg (show ¬((2 : ℤ) * s < 2) by omega)] at hch
  norm_num [cGet, cSet] at hch
  simp only [hu1, hu2] at hch
  subst hch
  interval_cases i <;> norm_num at hni ⊢
  · rw [if_neg (not_lt.mpr hni.1)]
    by_cases hud : a % 2 = c % 2
    · simp only [if_pos hud]
      refine Eq.trans (congrArg centroidUpOneLevel ?_)
        (cUOL_c01_hc1 s a b c (4 * a + 1) (2 * b - 1) hs (Or.inl ⟨rfl, hud⟩)
          (Or.inl rfl) hbc hd1)
      simp only [bccTetCentroid.mk.injEq]
      refine ⟨by ring, by ring, by ring⟩
    · simp only [if_neg hud]
      refine Eq.trans (congrArg centroidUpOneLevel ?_)
        (cUOL_c01_hc1 s a b c (4 * a + 3) (2 * b - 1) hs (Or.inr ⟨rfl, hud⟩)
          (Or.inl rfl) hbc hd1)
      simp only [bccTetCentroid.mk.injEq]
      refine ⟨by ring, by ring, by ring⟩
  · by_cases hud : a % 2 = c % 2
    · simp only [if_pos hud]
      refine Eq.trans (congrArg centroidUpOneLevel ?_)
        (cUOL_c01_hc1 s a b c (4 * a + 1) (2 * b + 1) hs (Or.inl ⟨rfl, hud⟩)
          (Or.inr rfl) hbc hd1)
      simp only [bccTetCentroid.mk.injEq]
      refine ⟨by ring, by ring, by ring⟩
    · simp only [if_neg hud]
      refine Eq.trans (congrArg centroidUpOneLevel ?_)
        (cUOL_c01_hc1 s a b c (4 * a + 3) (2 * b + 1) hs (Or.inr ⟨rfl, hud⟩)
          (Or.inr rfl) hbc hd1)
      simp only [bccTetCentroid.mk.injEq]
      refine ⟨by ring, by ring, by ring⟩
  · by_cases hud : a % 2 = c % 2
    · simp only [if_pos hud]
      refine Eq.trans (congrArg centroidUpOneLevel ?_)
        (cUOL_c23_hc1 s a b c (4 * a + 3) (2 * c + 1) hs (Or.inl ⟨rfl, hud⟩)
          (Or.inl rfl) hbc hd1)
      simp only [bccTetCentroid.mk.injEq]
      refine ⟨by ring, by ring, by ring⟩
    · simp only [if_neg hud] at hni ⊢
      by_cases hg : 2 * s * (2 * c) < 2 * s
      · rw [if_pos hg] at hni
        exact absurd rfl hni
      · simp only [if_neg hg]
        refine Eq.trans (congrArg centroidUpOneLevel ?_)
          (cUOL_c23_hc1 s a b c (4 * a + 1) (2 * c - 1) hs (Or.inr ⟨rfl, hud⟩)
            (Or.inr rfl) hbc hd1)
        simp only [bccTetCentroid.mk.injEq]
        refine ⟨by ring, by ring, by ring⟩
  · by_cases hud : a % 2 = c % 2
    · simp only [if_pos hud] at hni ⊢
      by_cases hg : 2 * s * (2 * c) < 2 * s
      · rw [if_pos hg] at hni
        exact absurd rfl hni
      · simp only [if_neg hg]
        refine Eq.trans (congrArg centroidUpOneLevel ?_)
          (cUOL_c23_hc1 s a b c (4 * a + 3) (2 * c - 1) hs (Or.inl ⟨rfl, hud⟩)
            (Or.inr rfl) hbc hd1)
        simp only [bccTetCentroid.mk.injEq]
        refine ⟨by ring, by ring, by ring⟩
    · simp only [if_neg hud]
      refine Eq.trans (congrArg centroidUpOneLevel ?_)
        (cUOL_c23_hc1 s a b c (4 * a + 1) (2 * c + 1) hs (Or.inr ⟨rfl, hud⟩)
          (Or.inl rfl) hbc hd1)
      simp only [bccTetCentroid.mk.injEq]
      refine ⟨by ring, by ring, by ring⟩
  · rw [if_neg (not_lt.mpr hni.1)]
    refine Eq.trans (congrArg centroidUpOneLevel ?_)
      (cUOL_c45_hc1 s a b c (4 * b - 1) hs (Or.inl rfl) hbc hd2)
    simp only [bccTetCentroid.mk.injEq]
    refine ⟨by ring, by ring, by ring⟩
  · refine Eq.trans (congrArg centroidUpOneLevel ?_)
      (cUOL_c45_hc1 s a b c (4 * b + 1) hs (Or.inr rfl) hbc hd2)
    simp only [bccTetCentroid.mk.injEq]
    refine ⟨by ring, by ring, by ring⟩
  · rw [if_neg (not_lt.mpr hni.1)]
    refine Eq.trans (congrArg centroidUpOneLevel ?_)
      (cUOL_c67_hc1 s a b c (4 * c - 1) hs (Or.inl rfl) hbc hd0)
    simp only [bccTetCentroid.mk.injEq]
    refine ⟨by ring, by ring, by ring⟩
  · refine Eq.trans (congrArg centroidUpOneLevel ?_)
      (cUOL_c67_hc1 s a b c (4 * c + 1) hs (Or.inr rfl) hbc hd0)
    simp only [bccTetCentroid.mk.injEq]
    refine ⟨by ring, by ring, by ring⟩
/-- Round trip of `subtetCentroids` and `centroidUpOneLevel` for a parent of
half axis 2, stated over an opaque positive size `s` with the decode facts
supplied as hypotheses. -/

theorem c1_main_hc2 (s a b c : ℤ) (hs : 0 < s) (hbc : (b + c) % 2 = 1)
    (hdecP : centroidHalfAxisSize ⟨2 * s * (2 * b), 2 * s * (2 * c), 2 * s * (2 * a + 1)⟩ =
      (2, 2 * s))
    (hd0 : ∀ mq pq qq : ℤ, mq % 2 = 1 →
      centroidHalfAxisSize ⟨s * mq, 2 * s * pq, 2 * s * qq⟩ = (0, s))
    (hd1 : ∀ mq pq qq : ℤ, mq % 2 = 1 →
      centroidHalfAxisSize ⟨2 * s * pq, s * mq, 2 * s * qq⟩ = (1, s))
    (hd2 : ∀ mq pq qq : ℤ, mq % 2 = 1 →
      centroidHalfAxisSize ⟨2 * s * pq, 2 * s * qq, s * mq⟩ = (2, s))
    (ch : ℕ → bccTetCentroid)
    (hch : subtetCentroids ⟨2 * s * (2 * b), 2 * s * (2 * c), 2 * s * (2 * a + 1)⟩ = some ch)
    (i : ℕ) (hi : i < 8) (hni : ch i ≠ invalidC) :
    centroidUpOneLevel (ch i) = ⟨2 * s * (2 * b), 2 * s * (2 * c), 2 * s * (2 * a + 1)⟩ := by
  have hu1 : 2 * s * (2 * a + 1) / (2 * (2 * s)) % 2 = a % 2 := by
    rw [show 2 * s * (2 * a + 1) = s * (4 * a + 2) by ring,
      show (2 * (2 * s) : ℤ) = 4 * s by ring, ediv_four_mul _ _ hs]
    omega
  have hu2 : 2 * s * (2 * c) / (2 * (2 * s)) % 2 = c % 2 := by
    rw [show 2 * s * (2 * c) = s * (4 * c) by ring,
      show (2 * (2 * s) : ℤ) = 4 * s by ring, ediv_four_mul _ _ hs]
    omega
  simp only [subtetCentroids, hdecP] at hch
  rw [if_neg (show ¬((2 : ℤ) * s < 2) by omega)] at hch
  norm_num [cGet, cSet] at hch
  simp only [hu1, hu2] at hch
  subst hch
  interval_cases i <;> norm_num at hni ⊢
  · rw [if_neg (not_lt.mpr hni.1)]
    by_cases hud : a % 2 = c % 2
    · simp only [if_pos hud]
      refine Eq.trans (congrArg centroidUpOneLevel ?_)
        (cUOL_c01_hc2 s a b c (4 * a + 1) (2 * b - 1) hs (Or.inl ⟨rfl, hud⟩)
          (Or.inl rfl) hbc hd2)
      simp only [bccTetCentroid.mk.injEq]
      refine ⟨by ring, by ring, by ring⟩
    · simp only [if_neg hud]
      refine Eq.trans (congrArg centroidUpOneLevel ?_)
        (cUOL_c01_hc2 s a b c (4 * a + 3) (2 * b - 1) hs (Or.inr ⟨rfl, hud⟩)
          (Or.inl rfl) hbc hd2)
      simp only [bccTetCentroid.mk.injEq]
      refine ⟨by ring, by ring, by ring⟩
  · by_cases hud : a % 2 = c % 2
    · simp only [if_pos hud]
      refine Eq.trans (congrArg centroidUpOneLevel ?_)
        (cUOL_c01_hc2 s a b c (4 * a + 1) (2 * b + 1) hs (Or.inl ⟨rfl, hud⟩)
          (Or.inr rfl) hbc hd2)
      simp only [bccTetCentroid.mk.injEq]
      refine ⟨by ring, by ring, by ring⟩
    · simp only [if_neg hud]
      refine Eq.trans (congrArg centroidUpOneLevel ?_)
        (cUOL_c01_hc2 s a b c (4 * a + 3) (2 * b + 1) hs (Or.inr ⟨rfl, hud⟩)
          (Or.inr rfl) hbc hd2)
      simp only [bccTetCentroid.mk.injEq]
      refine ⟨by ring, by ring, by ring⟩
  · by_cases hud : a % 2 = c % 2
    · simp only [if_pos hud]
      refine Eq.trans (congrArg centroidUpOneLevel ?_)
        (cUOL_c23_hc2 s a b c (4 * a + 3) (2 * c + 1) hs (Or.inl ⟨rfl, hud⟩)
          (Or.inl rfl) hbc hd2)
      simp only [bccTetCentroid.mk.injEq]
      refine ⟨by ring, by ring, by ring⟩
    · simp only [if_neg hud] at hni ⊢
      by_cases hg : 2 * s * (2 * c) < 2 * s
      · rw [if_pos hg] at hni
        exact absurd rfl hni
      · simp only [if_neg hg]
        refine Eq.trans (congrArg centroidUpOneLevel ?_)
          (cUOL_c23_hc2 s a b c (4 * a + 1) (2 * c - 1) hs (Or.inr ⟨rfl, hud⟩)
            (Or.inr rfl) hbc hd2)
        simp only [bccTetCentroid.mk.injEq]
        refine ⟨by ring, by ring, by ring⟩
  · by_cases hud : a % 2 = c % 2
    · simp only [if_pos hud] at hni ⊢
      by_cases hg : 2 * s * (2 * c) < 2 * s
      · rw [if_pos hg] at hni
        exact absurd rfl hni
      · simp only [if_neg hg]
        refine Eq.trans (congrArg centroidUpOneLevel ?_)
          (cUOL_c23_hc2 s a b c (4 * a + 3) (2 * c - 1) hs (Or.inl ⟨rfl, hud⟩)
            (Or.inr rfl) hbc hd2)
        simp only [bccTetCentroid.mk.injEq]
        refine ⟨by ring, by ring, by ring⟩
    · simp only [if_neg hud]
      refine Eq.trans (congrArg centroidUpOneLevel ?_)
        (cUOL_c23_hc2 s a b c (4 * a + 1) (2 * c + 1) hs (Or.inr ⟨rfl, hud⟩)
          (Or.inl rfl) hbc hd2)
      simp only [bccTetCentroid.mk.injEq]
      refine ⟨by ring, by ring, by ring⟩
  · rw [if_neg (not_lt.mpr hni.1)]
    refine Eq.trans (congrArg centroidUpOneLevel ?_)
      (cUOL_c45_hc2 s a b c (4 * b - 1) hs (Or.inl rfl) hbc hd0)
    simp only [bccTetCentroid.mk.injEq]
    refine ⟨by ring, by ring, by ring⟩
  · refine Eq.trans (congrArg centroidUpOneLevel ?_)
      (cUOL_c45_hc2 s a b c (4 * b + 1) hs (Or.inr rfl) hbc hd0)
    simp only [bccTetCentroid.mk.injEq]
    refine ⟨by ring, by ring, by ring⟩
  · rw [if_neg (not_lt.mpr hni.1)]
    refine Eq.trans (congrArg centroidUpOneLevel ?_)
      (cUOL_c67_hc2 s a b c (4 * c - 1) hs (Or.inl rfl) hbc hd1)
    simp only [bccTetCentroid.mk.injEq]
    refine ⟨by ring, by ring, by ring⟩
  · refine Eq.trans (congrArg centroidUpOneLevel ?_)
      (cUOL_c67_hc2 s a b c (4 * c + 1) hs (Or.inr rfl) hbc hd1)
    simp only [bccTetCentroid.mk.injEq]
    refine ⟨by ring, by ring, by ring⟩

theorem cGet_mk0 (u v w : ℤ) : cGet ⟨u, v, w⟩ 0 = u := rfl

theorem cGet_mk1 (u v w : ℤ) : cGet ⟨u, v, w⟩ 1 = v := rfl

theorem cGet_mk2 (u v w : ℤ) : cGet ⟨u, v, w⟩ 2 = w := rfl

/-- Decode of a centroid whose half axis is 0 at level `2 ^ k`. -/
theorem decode_ax0 (k : ℕ) (hk : k ≤ 15) (m p q : ℤ) (hm : m % 2 = 1) :
    centroidHalfAxisSize ⟨2 ^ k * m, 2 * 2 ^ k * p, 2 * 2 ^ k * q⟩ = (0, 2 ^ k) := by
  have hm2 : 2 * ((m - 1) / 2) + 1 = m := by omega
  have h := halfAxisLoop_spec k 16 (by omega) 1 one_pos
    ⟨2 ^ k * m, 2 * 2 ^ k * p, 2 * 2 ^ k * q⟩ 0 (by norm_num)
    ⟨(m - 1) / 2, by rw [cGet_mk0, hm2]; ring⟩
    (by
      intro i hi hne
      have : i = 1 ∨ i = 2 := by omega
      rcases this with rfl | rfl
      · exact ⟨p, by rw [cGet_mk1]; ring⟩
      · exact ⟨q, by rw [cGet_mk2]; ring⟩)
  unfold centroidHalfAxisSize
  rw [h]
  norm_num

/-- Decode of a centroid whose half axis is 1 at level `2 ^ k`. -/
theorem decode_ax1 (k : ℕ) (hk : k ≤ 15) (m p q : ℤ) (hm : m % 2 = 1) :
    centroidHalfAxisSize ⟨2 * 2 ^ k * p, 2 ^ k * m, 2 * 2 ^ k * q⟩ = (1, 2 ^ k) := by
  have hm2 : 2 * ((m - 1) / 2) + 1 = m := by omega
  have h := halfAxisLoop_spec k 16 (by omega) 1 one_pos
    ⟨2 * 2 ^ k * p, 2 ^ k * m, 2 * 2 ^ k * q⟩ 1 (by norm_num)
    ⟨(m - 1) / 2, by rw [cGet_mk1, hm2]; ring⟩
    (by
      intro i hi hne
      have : i = 0 ∨ i = 2 := by omega
      rcases this with rfl | rfl
      · exact ⟨p, by rw [cGet_mk0]; ring⟩
      · exact ⟨q, by rw [cGet_mk2]; ring⟩)
  unfold centroidHalfAxisSize
  rw [h]
  norm_num

/-- Decode of a centroid whose half axis is 2 at level `2 ^ k`. -/
theorem decode_ax2 (k : ℕ) (hk : k ≤ 15) (m p q : ℤ) (hm : m % 2 = 1) :
    centroidHalfAxisSize ⟨2 * 2 ^ k * p, 2 * 2 ^ k * q, 2 ^ k * m⟩ = (2, 2 ^ k) := by
  have hm2 : 2 * ((m - 1) / 2) + 1 = m := by omega
  have h := halfAxisLoop_spec k 16 (by omega) 1 one_pos
    ⟨2 * 2 ^ k * p, 2 * 2 ^ k * q, 2 ^ k * m⟩ 2 (by norm_num)
    ⟨(m - 1) / 2, by rw [cGet_mk2, hm2]; ring⟩
    (by
      intro i hi hne
      have : i = 0 ∨ i = 1 := by omega
      rcases this with rfl | rfl
      · exact ⟨p, by rw [cGet_mk0]; ring⟩
      · exact ⟨q, by rw [cGet_mk1]; ring⟩)
  unfold centroidHalfAxisSize
  rw [h]
  norm_num

/-- C1: for every valid centroid at a resolution level above the finest and
every child index of `subtetCentroids` whose child is not the invalid
sentinel, promoting that child with `centroidUpOneLevel` yields the original
centroid again. -/
theorem C1_subdivide_promote (tc : bccTetCentroid) (hc k : ℕ) (a b c : ℤ)
    (h : ValidAt tc hc (k + 1) a b c) (ch : ℕ → bccTetCentroid)
    (hch : subtetCentroids tc = some ch) (i : ℕ) (hi : i < 8)
    (hni : ch i ≠ invalidC) :
    centroidUpOneLevel (ch i) = tc := by
  obtain ⟨h3, h15, ha0, hb0, hc0, hhc, hbv, hcv, hbc⟩ := h
  have hs : (0 : ℤ) < 2 ^ k := pow2_pos k
  obtain ⟨x, y, z⟩ := tc
  interval_cases hc <;>
    (simp only [cGet] at hhc hbv hcv
     norm_num at hhc hbv hcv
     subst hhc; subst hbv; subst hcv)
  · rw [show (⟨2 ^ (k + 1) * (2 * a + 1), 2 ^ (k + 2) * b, 2 ^ (k + 2) * c⟩ :
        bccTetCentroid) =
        ⟨2 * 2 ^ k * (2 * a + 1), 2 * 2 ^ k * (2 * b), 2 * 2 ^ k * (2 * c)⟩ from by
      simp only [bccTetCentroid.mk.injEq]
      refine ⟨by ring, by ring, by ring⟩] at hch ⊢
    refine c1_main_hc0 (2 ^ k) a b c hs hbc ?_ ?_ ?_ ?_ ch hch i hi hni
    · rw [show (⟨2 * 2 ^ k * (2 * a + 1), 2 * 2 ^ k * (2 * b),
          2 * 2 ^ k * (2 * c)⟩ : bccTetCentroid) =
          ⟨2 ^ (k + 1) * (2 * a + 1), 2 * 2 ^ (k + 1) * b, 2 * 2 ^ (k + 1) * c⟩ from by
        simp only [bccTetCentroid.mk.injEq]
        refine ⟨by ring, by ring, by ring⟩,
        decode_ax0 (k + 1) (by omega) (2 * a + 1) b c (by omega)]
      simp only [Prod.mk.injEq]
      exact ⟨trivial, by ring⟩
    · exact fun m p q hm => decode_ax0 k (by omega) m p q hm
    · exact fun m p q hm => decode_ax1 k (by omega) m p q hm
    · exact fun m p q hm => decode_ax2 k (by omega) m p q hm
  · rw [show (⟨2 ^ (k + 2) * c, 2 ^ (k + 1) * (2 * a + 1), 2 ^ (k + 2) * b⟩ :
        bccTetCentroid) =
        ⟨2 * 2 ^ k * (2 * c), 2 * 2 ^ k * (2 * a + 1), 2 * 2 ^ k * (2 * b)⟩ from by
      simp only [bccTetCentroid.mk.injEq]
      refine ⟨by ring, by ring, by ring⟩] at hch ⊢
    refine c1_main_hc1 (2 ^ k) a b c hs hbc ?_ ?_ ?_ ?_ ch hch i hi hni
    · rw [show (⟨2 * 2 ^ k * (2 * c), 2 * 2 ^ k * (2 * a + 1),
          2 * 2 ^ k * (2 * b)⟩ : bccTetCentroid) =
          ⟨2 * 2 ^ (k + 1) * c, 2 ^ (k + 1) * (2 * a + 1), 2 * 2 ^ (k + 1) * b⟩ from by
        simp only [bccTetCentroid.mk.injEq]
        refine ⟨by ring, by ring, by ring⟩,
        decode_ax1 (k + 1) (by omega) (2 * a + 1) c b (by omega)]
      simp only [Prod.mk.injEq]
      exact ⟨trivial, by ring⟩
    · exact fun m p q hm => decode_ax0 k (by omega) m p q hm
    · exact fun m p q hm => decode_ax1 k (by omega) m p q hm
    · exact fun m p q hm => decode_ax2 k (by omega) m p q hm
  · rw [show (⟨2 ^ (k + 2) * b, 2 ^ (k + 2) * c, 2 ^ (k + 1) * (2 * a + 1)⟩ :
        bccTetCentroid) =
        ⟨2 * 2 ^ k * (2 * b), 2 * 2 ^ k * (2 * c), 2 * 2 ^ k * (2 * a + 1)⟩ from by
      simp only [bccTetCentroid.mk.injEq]
      refine ⟨by ring, by ring, by ring⟩] at hch ⊢
    refine c1_main_hc2 (2 ^ k) a b c hs hbc ?_ ?_ ?_ ?_ ch hch i hi hni
    · rw [show (⟨2 * 2 ^ k * (2 * b), 2 * 2 ^ k * (2 * c),
          2 * 2 ^ k * (2 * a + 1)⟩ : bccTetCentroid) =
          ⟨2 * 2 ^ (k + 1) * b, 2 * 2 ^ (k + 1) * c, 2 ^ (k + 1) * (2 * a + 1)⟩ from by
        simp only [bccTetCentroid.mk.injEq]
        refine ⟨by ring, by ring, by ring⟩,
        decode_ax2 (k + 1) (by omega) (2 * a + 1) b c (by omega)]
      simp only [Prod.mk.injEq]
      exact ⟨trivial, by ring⟩
    · exact fun m p q hm => decode_ax0 k (by omega) m p q hm
    · exact fun m p q hm => decode_ax1 k (by omega) m p q hm
    · exact fun m p q hm => decode_ax2 k (by omega) m p q hm

/-- Witness for C1 at the concrete level-2 centroid `(2,4,0)` and child 0:
subdividing and promoting child 0 returns `(2,4,0)`. -/
theorem C1_subdivide_promote_witness :
    (subtetCentroids ⟨2, 4, 0⟩).map (fun ch => centroidUpOneLevel (ch 0)) =
      some ⟨2, 4, 0⟩ := by
  have hF : subtetCentroids ⟨2, 4, 0⟩ =
      some ((subtetCentroids ⟨2, 4, 0⟩).getD (fun _ => invalidC)) := rfl
  have h := C1_subdivide_promote ⟨2, 4, 0⟩ 0 0 0 1 0 (by decide)
    ((subtetCentroids ⟨2, 4, 0⟩).getD (fun _ => invalidC)) hF 0 (by decide)
    (by decide)
  rw [hF, Option.map_some', h]

/-- `vnBccTetrahedra::centroidToNodeLoci` before the final halving (source
lines 42-71): the four integer node positions of the tet, in doubled lattice
units.  The source computes the orientation flag once (line 54); its defining
comparison is inlined at each read here. -/
def centroidToNodeLociPre (tc : bccTetCentroid) (j : ℕ) : bccTetCentroid :=
  let p := centroidHalfAxisSize tc
  let hc : ℕ := p.1
  let size : ℤ := p.2
  let levelUpBit : ℤ := 2 * size
  let c1 : ℕ := if hc < 2 then hc + 1 else 0
  let c2 : ℕ := if 0 < hc then hc - 1 else 2
  if j = 0 then
    cSet (cSet tc hc (cGet tc hc +
      (if cGet tc hc / levelUpBit % 2 = cGet tc c2 / levelUpBit % 2 then -size
       else size))) c1 (cGet tc c1 - levelUpBit)
  else if j = 1 then
    cSet (cSet tc hc (cGet tc hc +
      (if cGet tc hc / levelUpBit % 2 = cGet tc c2 / levelUpBit % 2 then -size
       else size))) c1 (cGet tc c1 + levelUpBit)
  else if j = 2 then
    cSet (cSet tc hc (cGet tc hc +
      (if cGet tc hc / levelUpBit % 2 = cGet tc c2 / levelUpBit % 2 then size
       else -size))) c2 (cGet tc c2 +
      (if cGet tc hc / levelUpBit % 2 = cGet tc c2 / levelUpBit % 2 then levelUpBit
       else -levelUpBit))
  else
    cSet (cSet tc hc (cGet tc hc +
      (if cGet tc hc / levelUpBit % 2 = cGet tc c2 / levelUpBit % 2 then size
       else -size))) c2 (cGet tc c2 +
      (if cGet tc hc / levelUpBit % 2 = cGet tc c2 / levelUpBit % 2 then -levelUpBit
       else levelUpBit))

/-- `vnBccTetrahedra::centroidToNodeLoci` (source lines 42-77): the final
halving (`gridLoci[j][i] *= 0.5f`, a float product truncated on store into a
`short`) is exact integer division by two on the non-negative even values the
claim below establishes. -/
def centroidToNodeLoci (tc : bccTetCentroid) (j : ℕ) : bccTetCentroid :=
  let g := centroidToNodeLociPre tc j
  ⟨g.x / 2, g.y / 2, g.z / 2⟩

theorem ctnl_hc0 (s a b c : ℤ) (hs : 0 < s)
    (hdec : centroidHalfAxisSize ⟨s * (2 * a + 1), 2 * s * b, 2 * s * c⟩ = (0, s)) :
    (∀ j, j < 4 → ∀ i, i < 3 →
      cGet (centroidToNodeLociPre ⟨s * (2 * a + 1), 2 * s * b, 2 * s * c⟩ j) i % 2 = 0) ∧
    (∀ i, i < 3 →
      cGet (centroidToNodeLoci ⟨s * (2 * a + 1), 2 * s * b, 2 * s * c⟩ 0) i +
      cGet (centroidToNodeLoci ⟨s * (2 * a + 1), 2 * s * b, 2 * s * c⟩ 1) i +
      cGet (centroidToNodeLoci ⟨s * (2 * a + 1), 2 * s * b, 2 * s * c⟩ 2) i +
      cGet (centroidToNodeLoci ⟨s * (2 * a + 1), 2 * s * b, 2 * s * c⟩ 3) i =
      2 * cGet (⟨s * (2 * a + 1), 2 * s * b, 2 * s * c⟩ : bccTetCentroid) i) := by
  have hu : s * (2 * a + 1) / (2 * s) % 2 = a % 2 := by
    rw [ediv_two_mul _ _ hs]; omega
  have hu2 : 2 * s * c / (2 * s) % 2 = c % 2 := by
    rw [mul_comm (2 * s) c, Int.mul_ediv_cancel _ (by omega)]
  have d1 : (s * (2 * a + 1) + -s) / 2 = s * a := by
    rw [show s * (2 * a + 1) + -s = 2 * (s * a) by ring,
      Int.mul_ediv_cancel_left _ (by norm_num)]
  have d2 : (s * (2 * a + 1) + s) / 2 = s * a + s := by
    rw [show s * (2 * a + 1) + s = 2 * (s * a + s) by ring,
      Int.mul_ediv_cancel_left _ (by norm_num)]
  have d3 : (2 * s * b - 2 * s) / 2 = s * b - s := by
    rw [show 2 * s * b - 2 * s = 2 * (s * b - s) by ring,
      Int.mul_ediv_cancel_left _ (by norm_num)]
  have d4 : (2 * s * b + 2 * s) / 2 = s * b + s := by
    rw [show 2 * s * b + 2 * s = 2 * (s * b + s) by ring,
      Int.mul_ediv_cancel_left _ (by norm_num)]
  have d5 : (2 * s * b) / 2 = s * b := by
    rw [show 2 * s * b = 2 * (s * b) by ring,
      Int.mul_ediv_cancel_left _ (by norm_num)]
  have d6 : (2 * s * c) / 2 = s * c := by
    rw [show 2 * s * c = 2 * (s * c) by ring,
      Int.mul_ediv_cancel_left _ (by norm_num)]
  have d7 : (2 * s * c + 2 * s) / 2 = s * c + s := by
    rw [show 2 * s * c + 2 * s = 2 * (s * c + s) by ring,
      Int.mul_ediv_cancel_left _ (by norm_num)]
  have d8 : (2 * s * c + -(2 * s)) / 2 = s * c - s := by
    rw [show 2 * s * c + -(2 * s) = 2 * (s * c - s) by ring,
      Int.mul_ediv_cancel_left _ (by norm_num)]
  constructor
  · intro j hj i hi
    interval_cases j <;> interval_cases i <;>
      (simp only [centroidToNodeLociPre, hdec]
       norm_num [cGet, cSet]
       (try simp only [hu, hu2])
       by_cases hud : a % 2 = c % 2 <;>
         (try simp only [if_pos hud]) <;> (try simp only [if_neg hud]) <;>
         (try norm_num) <;>
         (first
           | omega
           | (refine Dvd.intro (s * a) ?_; ring1)
           | (refine Dvd.intro (s * a + s) ?_; ring1)
           | (refine Dvd.intro (s * b - s) ?_; ring1)
           | (refine Dvd.intro (s * b + s) ?_; ring1)
           | (refine Dvd.intro (s * b) ?_; ring1)
           | (refine Dvd.intro (s * c) ?_; ring1)
           | (refine Dvd.intro (s * c + s) ?_; ring1)
           | (refine Dvd.intro (s * c - s) ?_; ring1)))
  · intro i hi
    interval_cases i <;>
      (simp only [centroidToNodeLoci, centroidToNodeLociPre, hdec]
       norm_num [cGet, cSet]
       (try simp only [hu, hu2])
       by_cases hud : a % 2 = c % 2 <;>
         (try simp only [if_pos hud]) <;> (try simp only [if_neg hud]) <;>
         (try norm_num) <;>
         (try simp only [d1, d2, d3, d4, d5, d6, d7, d8]) <;>
         ring)


theorem ctnl_hc1 (s a b c : ℤ) (hs : 0 < s)
    (hdec : centroidHalfAxisSize ⟨2 * s * c, s * (2 * a + 1), 2 * s * b⟩ = (1, s)) :
    (∀ j, j < 4 → ∀ i, i < 3 →
      cGet (centroidToNodeLociPre ⟨2 * s * c, s * (2 * a + 1), 2 * s * b⟩ j) i % 2 = 0) ∧
    (∀ i, i < 3 →
      cGet (centroidToNodeLoci ⟨2 * s * c, s * (2 * a + 1), 2 * s * b⟩ 0) i +
      cGet (centroidToNodeLoci ⟨2 * s * c, s * (2 * a + 1), 2 * s * b⟩ 1) i +
      cGet (centroidToNodeLoci ⟨2 * s * c, s * (2 * a + 1), 2 * s * b⟩ 2) i +
      cGet (centroidToNodeLoci ⟨2 * s * c, s * (2 * a + 1), 2 * s * b⟩ 3) i =
      2 * cGet (⟨2 * s * c, s * (2 * a + 1), 2 * s * b⟩ : bccTetCentroid) i) := by
  have hu : s * (2 * a + 1) / (2 * s) % 2 = a % 2 := by
    rw [ediv_two_mul _ _ hs]; omega
  have hu2 : 2 * s * c / (2 * s) % 2 = c % 2 := by
    rw [mul_comm (2 * s) c, Int.mul_ediv_cancel _ (by omega)]
  have d1 : (s * (2 * a + 1) + -s) / 2 = s * a := by
    rw [show s * (2 * a + 1) + -s = 2 * (s * a) by ring,
      Int.mul_ediv_cancel_left _ (by norm_num)]
  have d2 : (s * (2 * a + 1) + s) / 2 = s * a + s := by
    rw [show s * (2 * a + 1) + s = 2 * (s * a + s) by ring,
      Int.mul_ediv_cancel_left _ (by norm_num)]
  have d3 : (2 * s * b - 2 * s) / 2 = s * b - s := by
    rw [show 2 * s * b - 2 * s = 2 * (s * b - s) by ring,
      Int.mul_ediv_cancel_left _ (by norm_num)]
  have d4 : (2 * s * b + 2 * s) / 2 = s * b + s := by
    rw [show 2 * s * b + 2 * s = 2 * (s * b + s) by ring,
      Int.mul_ediv_cancel_left _ (by norm_num)]
  have d5 : (2 * s * b) / 2 = s * b := by
    rw [show 2 * s * b = 2 * (s * b) by ring,
      Int.mul_ediv_cancel_left _ (by norm_num)]
  have d6 : (2 * s * c) / 2 = s * c := by
    rw [show 2 * s * c = 2 * (s * c) by ring,
      Int.mul_ediv_cancel_left _ (by norm_num)]
  have d7 : (2 * s * c + 2 * s) / 2 = s * c + s := by
    rw [show 2 * s * c + 2 * s = 2 * (s * c + s) by ring,
      Int.mul_ediv_cancel_left _ (by norm_num)]
  have d8 : (2 * s * c + -(2 * s)) / 2 = s * c - s := by
    rw [show 2 * s * c + -(2 * s) = 2 * (s * c - s) by ring,
      Int.mul_ediv_cancel_left _ (by norm_num)]
  constructor
  · intro j hj i hi
    interval_cases j <;> interval_cases i <;>
      (simp only [centroidToNodeLociPre, hdec]
       norm_num [cGet, cSet]
       (try simp only [hu, hu2])
       by_cases hud : a % 2 = c % 2 <;>
         (try simp only [if_pos hud]) <;> (try simp only [if_neg hud]) <;>
         (try norm_num) <;>
         (first
           | omega
           | (refine Dvd.intro (s * a) ?_; ring1)
           | (refine Dvd.intro (s * a + s) ?_; ring1)
           | (refine Dvd.intro (s * b - s) ?_; ring1)
           | (refine Dvd.intro (s * b + s) ?_; ring1)
           | (refine Dvd.intro (s * b) ?_; ring1)
           | (refine Dvd.intro (s * c) ?_; ring1)
           | (refine Dvd.intro (s * c + s) ?_; ring1)
           | (refine Dvd.intro (s * c - s) ?_; ring1)))
  · intro i hi
    interval_cases i <;>
      (simp only [centroidToNodeLoci, centroidToNodeLociPre, hdec]
       norm_num [cGet, cSet]
       (try simp only [hu, hu2])
       by_cases hud : a % 2 = c % 2 <;>
         (try simp only [if_pos hud]) <;> (try simp only [if_neg hud]) <;>
         (try norm_num) <;>
         (try simp only [d1, d2, d3, d4, d5, d6, d7, d8]) <;>
         ring)


theorem ctnl_hc2 (s a b c : ℤ) (hs : 0 < s)
    (hdec : centroidHalfAxisSize ⟨2 * s * b, 2 * s * c, s * (2 * a + 1)⟩ = (2, s)) :
    (∀ j, j < 4 → ∀ i, i < 3 →
      cGet (centroidToNodeLociPre ⟨2 * s * b, 2 * s * c, s * (2 * a + 1)⟩ j) i % 2 = 0) ∧
    (∀ i, i < 3 →
      cGet (centroidToNodeLoci ⟨2 * s * b, 2 * s * c, s * (2 * a + 1)⟩ 0) i +
      cGet (centroidToNodeLoci ⟨2 * s * b, 2 * s * c, s * (2 * a + 1)⟩ 1) i +
      cGet (centroidToNodeLoci ⟨2 * s * b, 2 * s * c, s * (2 * a + 1)⟩ 2) i +
      cGet (centroidToNodeLoci ⟨2 * s * b, 2 * s * c, s * (2 * a + 1)⟩ 3) i =
      2 * cGet (⟨2 * s * b, 2 * s * c, s * (2 * a + 1)⟩ : bccTetCentroid) i) := by
  have hu : s * (2 * a + 1) / (2 * s) % 2 = a % 2 := by
    rw [ediv_two_mul _ _ hs]; omega
  have hu2 : 2 * s * c / (2 * s) % 2 = c % 2 := by
    rw [mul_comm (2 * s) c, Int.mul_ediv_cancel _ (by omega)]
  have d1 : (s * (2 * a + 1) + -s) / 2 = s * a := by
    rw [show s * (2 * a + 1) + -s = 2 * (s * a) by ring,
      Int.mul_ediv_cancel_left _ (by norm_num)]
  have d2 : (s * (2 * a + 1) + s) / 2 = s * a + s := by
    rw [show s * (2 * a + 1) + s = 2 * (s * a + s) by ring,
      Int.mul_ediv_cancel_left _ (by norm_num)]
  have d3 : (2 * s * b - 2 * s) / 2 = s * b - s := by
    rw [show 2 * s * b - 2 * s = 2 * (s * b - s) by ring,
      Int.mul_ediv_cancel_left _ (by norm_num)]
  have d4 : (2 * s * b + 2 * s) / 2 = s * b + s := by
    rw [show 2 * s * b + 2 * s = 2 * (s * b + s) by ring,
      Int.mul_ediv_cancel_left _ (by norm_num)]
  have d5 : (2 * s * b) / 2 = s * b := by
    rw [show 2 * s * b = 2 * (s * b) by ring,
      Int.mul_ediv_cancel_left _ (by norm_num)]
  have d6 : (2 * s * c) / 2 = s * c := by
    rw [show 2 * s * c = 2 * (s * c) by ring,
      Int.mul_ediv_cancel_left _ (by norm_num)]
  have d7 : (2 * s * c + 2 * s) / 2 = s * c + s := by
    rw [show 2 * s * c + 2 * s = 2 * (s * c + s) by ring,
      Int.mul_ediv_cancel_left _ (by norm_num)]
  have d8 : (2 * s * c + -(2 * s)) / 2 = s * c - s := by
    rw [show 2 * s * c + -(2 * s) = 2 * (s * c - s) by ring,
      Int.mul_ediv_cancel_left _ (by norm_num)]
  constructor
  · intro j hj i hi
    interval_cases j <;> interval_cases i <;>
      (simp only [centroidToNodeLociPre, hdec]
       norm_num [cGet, cSet]
       (try simp only [hu, hu2])
       by_cases hud : a % 2 = c % 2 <;>
         (try simp only [if_pos hud]) <;> (try simp only [if_neg hud]) <;>
         (try norm_num) <;>
         (first
           | omega
           | (refine Dvd.intro (s * a) ?_; ring1)
           | (refine Dvd.intro (s * a + s) ?_; ring1)
           | (refine Dvd.intro (s * b - s) ?_; ring1)
           | (refine Dvd.intro (s * b + s) ?_; ring1)
           | (refine Dvd.intro (s * b) ?_; ring1)
           | (refine Dvd.intro (s * c) ?_; ring1)
           | (refine Dvd.intro (s * c + s) ?_; ring1)
           | (refine Dvd.intro (s * c - s) ?_; ring1)))
  · intro i hi
    interval_cases i <;>
      (simp only [centroidToNodeLoci, centroidToNodeLociPre, hdec]
       norm_num [cGet, cSet]
       (try simp only [hu, hu2])
       by_cases hud : a % 2 = c % 2 <;>
         (try simp only [if_pos hud]) <;> (try simp only [if_neg hud]) <;>
         (try norm_num) <;>
         (try simp only [d1, d2, d3, d4, d5, d6, d7, d8]) <;>
         ring)

/-- C10: for every valid centroid, each of the four pre-halved node positions
computed by `centroidToNodeLoci` has only even coordinates (so the source's
final `*= 0.5f` truncation on store into a `short` is exact), and the halved
node positions sum componentwise to twice the centroid code: their average is
exactly the centroid code divided by two, i.e. the tet centroid in grid
units. -/
theorem C10_nodeLoci_even_mean (tc : bccTetCentroid) (hc k : ℕ) (a b c : ℤ)
    (h : ValidAt tc hc k a b c) :
    (∀ j, j < 4 → ∀ i, i < 3 →
      cGet (centroidToNodeLociPre tc j) i % 2 = 0) ∧
    (∀ i, i < 3 →
      cGet (centroidToNodeLoci tc 0) i + cGet (centroidToNodeLoci tc 1) i +
      cGet (centroidToNodeLoci tc 2) i + cGet (centroidToNodeLoci tc 3) i =
      2 * cGet tc i) := by
  obtain ⟨h3, h15, ha0, hb0, hc0, hhc, hbv, hcv, hbc⟩ := h
  have hs : (0 : ℤ) < 2 ^ k := pow2_pos k
  obtain ⟨x, y, z⟩ := tc
  interval_cases hc <;>
    (simp only [cGet] at hhc hbv hcv
     norm_num at hhc hbv hcv
     subst hhc; subst hbv; subst hcv)
  · rw [show (⟨2 ^ k * (2 * a + 1), 2 ^ (k + 1) * b, 2 ^ (k + 1) * c⟩ :
        bccTetCentroid) =
        ⟨2 ^ k * (2 * a + 1), 2 * 2 ^ k * b, 2 * 2 ^ k * c⟩ from by
      simp only [bccTetCentroid.mk.injEq]
      refine ⟨by ring, by ring, by ring⟩]
    exact ctnl_hc0 (2 ^ k) a b c hs
      (decode_ax0 k h15 (2 * a + 1) b c (by omega))
  · rw [show (⟨2 ^ (k + 1) * c, 2 ^ k * (2 * a + 1), 2 ^ (k + 1) * b⟩ :
        bccTetCentroid) =
        ⟨2 * 2 ^ k * c, 2 ^ k * (2 * a + 1), 2 * 2 ^ k * b⟩ from by
      simp only [bccTetCentroid.mk.injEq]
      refine ⟨by ring, by ring, by ring⟩]
    exact ctnl_hc1 (2 ^ k) a b c hs
      (decode_ax1 k h15 (2 * a + 1) c b (by omega))
  · rw [show (⟨2 ^ (k + 1) * b, 2 ^ (k + 1) * c, 2 ^ k * (2 * a + 1)⟩ :
        bccTetCentroid) =
        ⟨2 * 2 ^ k * b, 2 * 2 ^ k * c, 2 ^ k * (2 * a + 1)⟩ from by
      simp only [bccTetCentroid.mk.injEq]
      refine ⟨by ring, by ring, by ring⟩]
    exact ctnl_hc2 (2 ^ k) a b c hs
      (decode_ax2 k h15 (2 * a + 1) b c (by omega))

/-- Witness for C10 at the valid micro centroid (1, 2, 0). -/
theorem C10_nodeLoci_even_mean_witness :
    (∀ j, j < 4 → ∀ i, i < 3 →
      cGet (centroidToNodeLociPre ⟨1, 2, 0⟩ j) i % 2 = 0) ∧
    (∀ i, i < 3 →
      cGet (centroidToNodeLoci ⟨1, 2, 0⟩ 0) i +
      cGet (centroidToNodeLoci ⟨1, 2, 0⟩ 1) i +
      cGet (centroidToNodeLoci ⟨1, 2, 0⟩ 2) i +
      cGet (centroidToNodeLoci ⟨1, 2, 0⟩ 3) i =
      2 * cGet ⟨1, 2, 0⟩ i) :=
  C10_nodeLoci_even_mean ⟨1, 2, 0⟩ 0 0 0 1 0 (by decide)

/-- A micro-resolution tet store: per-tet node index quadruple, per-tet
centroid, and the centroid-to-tet multimap `_tetHash` as an association
list (`equal_range` = all entries whose key equals the query centroid). -/
structure MicroTetStore where
  tetNodes : ℕ → ℕ → ℕ
  tetCentroids : ℕ → bccTetCentroid
  tetHash : List (bccTetCentroid × ℕ)

/-- The three node indices of a tet face (source lines 426-427):
`tn[(face + i) & 3]` for `i = 0, 1, 2`.  `& 3` on the non-negative sum is
`% 4`. -/
def faceNodes (st : MicroTetStore) (tet : ℕ) (face : ℤ) : List ℕ :=
  (List.range 3).map fun i => st.tetNodes tet ((face + i) % 4).toNat

/-- `vnBccTetrahedra::faceAdjacentMicrotets` (source lines 419-441): finds
the face-adjacent centroid, then keeps exactly those tets hashed at that
centroid whose three nodes on the adjacent face all occur among the query
face's nodes (`i > 2` after the scan).  `(adjFace + i) & 3` on a C++ `int`
equals `(adjFace + i) % 4` with the sign convention of `Int.emod` also for
`adjFace = -1`. -/
def faceAdjacentMicrotets (st : MicroTetStore) (tet : ℕ) (face : ℤ) :
    ℤ × List ℕ :=
  let r := faceAdjacentMicrotet (st.tetCentroids tet) face
  let fn := faceNodes st tet face
  let cands := (st.tetHash.filter fun e => e.1 = r.2).map fun e => e.2
  (r.1, cands.filter fun t2 =>
    (List.range 3).all fun i =>
      st.tetNodes t2 ((r.1 + i) % 4).toNat ∈ fn)

theorem famts_mem_shared (st : MicroTetStore) (tet : ℕ) (face : ℤ) (t2 : ℕ)
    (hmem : t2 ∈ (faceAdjacentMicrotets st tet face).2) (i : ℕ) (hi : i < 3) :
    st.tetNodes t2
      (((faceAdjacentMicrotets st tet face).1 + i) % 4).toNat ∈
      faceNodes st tet face := by
  simp only [faceAdjacentMicrotets] at hmem ⊢
  rw [List.mem_filter] at hmem
  have h2 := hmem.2
  rw [List.all_eq_true] at h2
  have h3 := h2 i (List.mem_range.mpr hi)
  exact of_decide_eq_true h3

theorem emod4_toNat_lt (x : ℤ) : (x % 4).toNat < 4 := by
  have h1 : 0 ≤ x % 4 := Int.emod_nonneg x (by norm_num)
  have h2 : x % 4 < 4 := Int.emod_lt_of_pos x (by norm_num)
  omega

/-- C4: every tet returned by `faceAdjacentMicrotets` shares all three node
indices of the query tet's face (each of the candidate's three adjacent-face
nodes occurs among the query face's nodes); consequently a tet whose node set
is disjoint from the query face's nodes — a virtual-noded duplicate on the
other side of a cut — is never returned. -/
theorem C4_face_adjacency_respects_cuts (st : MicroTetStore) (tet : ℕ)
    (face : ℤ) (t2 : ℕ) :
    (t2 ∈ (faceAdjacentMicrotets st tet face).2 →
      ∀ i : ℕ, i < 3 →
        st.tetNodes t2
          (((faceAdjacentMicrotets st tet face).1 + (i : ℤ)) % 4).toNat ∈
          faceNodes st tet face) ∧
    ((∀ j, j < 4 → st.tetNodes t2 j ∉ faceNodes st tet face) →
      t2 ∉ (faceAdjacentMicrotets st tet face).2) := by
  constructor
  · exact fun hmem i hi => famts_mem_shared st tet face t2 hmem i hi
  · intro hdisj hmem
    exact hdisj _ (emod4_toNat_lt ((faceAdjacentMicrotets st tet face).1 + 0))
      (famts_mem_shared st tet face t2 hmem 0 (by norm_num))

/-- A concrete five-node cut scenario: tet 0 at centroid (1, 2, 0) with nodes
0-3; its face-1 neighbour centroid (2, 3, 0) hashed twice, tet 1 sharing the
three face nodes and tet 2 a virtual-noded duplicate with disjoint nodes
10-13. -/
def c4Store : MicroTetStore where
  tetNodes t j :=
    if t = 0 then j
    else if t = 1 then (if j = 0 then 3 else if j = 1 then 2
                        else if j = 2 then 99 else 1)
    else 10 + j
  tetCentroids t := if t = 0 then ⟨1, 2, 0⟩ else ⟨2, 3, 0⟩
  tetHash := [(⟨2, 3, 0⟩, 1), (⟨2, 3, 0⟩, 2)]

/-- Witness for C4 on `c4Store`: the sharing tet 1 is returned with all three
face nodes shared, the disjoint duplicate tet 2 is not. -/
theorem C4_face_adjacency_respects_cuts_witness :
    (∀ i : ℕ, i < 3 →
      c4Store.tetNodes 1
        (((faceAdjacentMicrotets c4Store 0 1).1 + (i : ℤ)) % 4).toNat ∈
        faceNodes c4Store 0 1) ∧
    2 ∉ (faceAdjacentMicrotets c4Store 0 1).2 :=
  ⟨fun i hi =>
    (C4_face_adjacency_respects_cuts c4Store 0 1 1).1 (by decide) i hi,
   (C4_face_adjacency_respects_cuts c4Store 0 1 2).2 (by decide)⟩

/-- The virtual-noded junction selection of `vnBccTetrahedra::vertexSolidLinePath`
(source lines 757-775): among the tets hashed at the adjacent centroid, in
hash order, pick the first sharing at least one of its four nodes with the
path's node set (`if (i < 4) break;`); if none shares a node the function
returns -1 (`if (pr.first == pr.second) return -1;`). -/
def vslPickCandidate (tetNodes : ℕ → ℕ → ℕ) (nodeSet : List ℕ)
    (cands : List ℕ) : ℤ :=
  match cands.find? (fun t => (List.range 4).any fun i => tetNodes t i ∈ nodeSet) with
  | some t => (t : ℤ)
  | none => -1

/-- C7: the junction selection of `vertexSolidLinePath` yields either a
candidate tet id (non-negative) or -1, and never the value -2; in particular
on a virtual-noded junction whose candidates all have node sets disjoint from
the path's node set — the undisambiguable case of the function's own contract
(source line 685, "VN y junction hit making search impossible returns -2") —
it returns -1, identical to the plain not-found result. -/
theorem C7_blocked_junction_not_distinct :
    (∀ (tn : ℕ → ℕ → ℕ) (ns cands : List ℕ),
      vslPickCandidate tn ns cands = -1 ∨
        ∃ t, t ∈ cands ∧ vslPickCandidate tn ns cands = (t : ℤ)) ∧
    (∀ (tn : ℕ → ℕ → ℕ) (ns cands : List ℕ),
      vslPickCandidate tn ns cands ≠ -2) ∧
    vslPickCandidate (fun t i => 10 * t + i) [1, 2, 3, 4] [5, 6] = -1 := by
  have key : ∀ (tn : ℕ → ℕ → ℕ) (ns cands : List ℕ),
      vslPickCandidate tn ns cands = -1 ∨
        ∃ t, t ∈ cands ∧ vslPickCandidate tn ns cands = (t : ℤ) := by
    intro tn ns cands
    unfold vslPickCandidate
    cases h : cands.find?
        (fun t => (List.range 4).any fun i => tn t i ∈ ns) with
    | none => exact Or.inl rfl
    | some t => exact Or.inr ⟨t, List.mem_of_find?_eq_some h, rfl⟩
  refine ⟨key, fun tn ns cands hne => ?_, by decide⟩
  rcases key tn ns cands with h | ⟨t, _, h⟩
  · omega
  · rw [h] at hne
    omega

/-- `_tetHash.equal_range(tc)` is non-empty: some tet is hashed at `tc`. -/
def hashHas (hash : List (bccTetCentroid × ℕ)) (tc : bccTetCentroid) : Bool :=
  hash.any fun e => e.1 = tc

/-- `n` applications of `centroidUpOneLevel`. -/
def upIter (tc : bccTetCentroid) : ℕ → bccTetCentroid
  | 0 => tc
  | n + 1 => upIter (centroidUpOneLevel tc) n

/-- The promotion loop of `vnBccTetrahedra::parametricTriangleTet` (source
lines 1073-1082): while the centroid is not hashed, promote it one level and
increment `level`, throwing once `level` exceeds 16.  The structural `fuel`
argument only mirrors the level bound: the run starts at `(level, fuel) =
(1, 16)` and the `level` test fires before `fuel` can reach zero. -/
def ptLoopAux (hash : List (bccTetCentroid × ℕ)) :
    bccTetCentroid → ℕ → ℕ → Except Unit (bccTetCentroid × ℕ)
  | tC, level, fuel =>
    if hashHas hash tC then Except.ok (tC, level)
    else if 16 < level + 1 then Except.error ()
    else
      match fuel with
      | 0 => Except.error ()
      | fuel + 1 => ptLoopAux hash (centroidUpOneLevel tC) (level + 1) fuel

/-- The promotion loop of `parametricTriangleTet`, entered with `level = 1`
as at source line 1074. -/
def ptPromoteLoop (hash : List (bccTetCentroid × ℕ)) (tC : bccTetCentroid) :
    Except Unit (bccTetCentroid × ℕ) :=
  ptLoopAux hash tC 1 16

/-- The target-location loop of `vnBccTetrahedra::vertexSolidLinePath`
(source lines 689-696): the source computes `targetTets` once before the
loop and never refreshes it inside, so the loop condition tests the initial
lookup on every iteration (`found0` here); the body promotes the centroid,
increments `targetSize` and throws once it exceeds `_tetSubdivisionLevels`
(the parameter `L`). -/
def vslTargetLoopAux (found0 : Bool) (L : ℕ) :
    bccTetCentroid → ℕ → ℕ → Except Unit (bccTetCentroid × ℕ)
  | tc, size, fuel =>
    if found0 then Except.ok (tc, size)
    else if L < size + 1 then Except.error ()
    else
      match fuel with
      | 0 => Except.error ()
      | fuel + 1 => vslTargetLoopAux found0 L (centroidUpOneLevel tc) (size + 1) fuel

/-- The target-location loop of `vertexSolidLinePath`, entered with
`targetSize = 1` (source line 690). -/
def vslTargetLoop (hash : List (bccTetCentroid × ℕ)) (tc : bccTetCentroid)
    (L : ℕ) : Except Unit (bccTetCentroid × ℕ) :=
  vslTargetLoopAux (hashHas hash tc) L tc 1 L

theorem ptLoopAux_ok (hash : List (bccTetCentroid × ℕ)) :
    ∀ (fuel : ℕ) (tC : bccTetCentroid) (level : ℕ)
      (r : bccTetCentroid × ℕ), level ≤ 16 →
      ptLoopAux hash tC level fuel = Except.ok r →
      level ≤ r.2 ∧ r.2 ≤ 16 ∧ r.1 = upIter tC (r.2 - level) ∧
        hashHas hash r.1 = true := by
  intro fuel
  induction fuel with
  | zero =>
    intro tC level r hl h
    rw [ptLoopAux] at h
    by_cases hh : hashHas hash tC = true
    · rw [if_pos hh] at h
      injection h with h
      subst h
      exact ⟨le_refl _, hl, by simp [upIter], hh⟩
    · rw [if_neg hh] at h
      by_cases hb : 16 < level + 1
      · rw [if_pos hb] at h; exact absurd h (by simp)
      · rw [if_neg hb] at h; exact absurd h (by simp)
  | succ fuel ih =>
    intro tC level r hl h
    rw [ptLoopAux] at h
    by_cases hh : hashHas hash tC = true
    · rw [if_pos hh] at h
      injection h with h
      subst h
      exact ⟨le_refl _, hl, by simp [upIter], hh⟩
    · rw [if_neg hh] at h
      by_cases hb : 16 < level + 1
      · rw [if_pos hb] at h; exact absurd h (by simp)
      · rw [if_neg hb] at h
        obtain ⟨h1, h2, h3, h4⟩ := ih (centroidUpOneLevel tC) (level + 1) r
          (by omega) h
        refine ⟨by omega, h2, ?_, h4⟩
        rw [show r.2 - level = (r.2 - (level + 1)) + 1 from by omega]
        exact h3

theorem ptLoopAux_err (hash : List (bccTetCentroid × ℕ)) :
    ∀ (fuel : ℕ) (tC : bccTetCentroid) (level : ℕ),
      (∀ j, j ≤ fuel → hashHas hash (upIter tC j) = false) →
      ptLoopAux hash tC level fuel = Except.error () := by
  intro fuel
  induction fuel with
  | zero =>
    intro tC level hj
    rw [ptLoopAux]
    have h0 : hashHas hash tC = false := by simpa [upIter] using hj 0 (by omega)
    rw [if_neg (by simp [h0])]
    by_cases hb : 16 < level + 1
    · rw [if_pos hb]
    · rw [if_neg hb]
  | succ fuel ih =>
    intro tC level hj
    rw [ptLoopAux]
    have h0 : hashHas hash tC = false := by
      have := hj 0 (by omega); simpa [upIter] using this
    rw [if_neg (by simp [h0])]
    by_cases hb : 16 < level + 1
    · rw [if_pos hb]
    · rw [if_neg hb]
      exact ih (centroidUpOneLevel tC) (level + 1)
        (fun j hjf => hj (j + 1) (by omega))

theorem vslTargetLoopAux_err (L : ℕ) :
    ∀ (fuel : ℕ) (tc : bccTetCentroid) (size : ℕ),
      vslTargetLoopAux false L tc size fuel = Except.error () := by
  intro fuel
  induction fuel with
  | zero =>
    intro tc size
    rw [vslTargetLoopAux.eq_def]
    dsimp only
    rw [if_neg (by simp)]
    by_cases hb : L < size + 1
    · rw [if_pos hb]
    · rw [if_neg hb]
  | succ fuel ih =>
    intro tc size
    rw [vslTargetLoopAux.eq_def]
    dsimp only
    rw [if_neg (by simp)]
    by_cases hb : L < size + 1
    · rw [if_pos hb]
    · rw [if_neg hb]
      exact ih (centroidUpOneLevel tc) (size + 1)

/-- C6: the level-promotion loops of point location are bounded and fail
loudly.  In `parametricTriangleTet`, a successful run finds a hashed
promotion of the query centroid at a level between the entry level 1 and the
bound 16, and if no promotion within the bound is hashed the loop raises the
fatal logic error instead of looping on.  In `vertexSolidLinePath`, the
target loop returns immediately when the initial lookup succeeds, and in
every other case raises its fatal logic error within the configured
`_tetSubdivisionLevels` bound `L` (its loop condition tests the stale
initial lookup, so no late success is possible). -/
theorem C6_promotion_loops_bounded_fatal (hash : List (bccTetCentroid × ℕ))
    (tC : bccTetCentroid) (L : ℕ) :
    (∀ r, ptPromoteLoop hash tC = Except.ok r →
      1 ≤ r.2 ∧ r.2 ≤ 16 ∧ r.1 = upIter tC (r.2 - 1) ∧
        hashHas hash r.1 = true) ∧
    ((∀ j, j ≤ 16 → hashHas hash (upIter tC j) = false) →
      ptPromoteLoop hash tC = Except.error ()) ∧
    (hashHas hash tC = true → vslTargetLoop hash tC L = Except.ok (tC, 1)) ∧
    (hashHas hash tC = false → vslTargetLoop hash tC L = Except.error ()) := by
  refine ⟨fun r h => ptLoopAux_ok hash 16 tC 1 r (by omega) h,
    fun hj => ptLoopAux_err hash 16 tC 1 hj, fun h => ?_, fun h => ?_⟩
  · unfold vslTargetLoop
    rw [h, vslTargetLoopAux.eq_def]
    dsimp only
    rw [if_pos rfl]
  · unfold vslTargetLoop
    rw [h]
    exact vslTargetLoopAux_err L L tC 1

/-- Witness for C6: a singleton store holding centroid (1, 2, 0) locates it
immediately; the empty store exhausts both loops with the fatal error. -/
theorem C6_promotion_loops_bounded_fatal_witness :
    (1 ≤ 1 ∧ 1 ≤ 16 ∧
      (⟨1, 2, 0⟩ : bccTetCentroid) = upIter ⟨1, 2, 0⟩ (1 - 1) ∧
      hashHas [(⟨1, 2, 0⟩, 7)] (⟨1, 2, 0⟩ : bccTetCentroid) = true) ∧
    ptPromoteLoop [] (⟨1, 2, 0⟩ : bccTetCentroid) = Except.error () ∧
    vslTargetLoop [(⟨1, 2, 0⟩, 7)] (⟨1, 2, 0⟩ : bccTetCentroid) 3 =
      Except.ok (⟨1, 2, 0⟩, 1) ∧
    vslTargetLoop [] (⟨1, 2, 0⟩ : bccTetCentroid) 3 = Except.error () :=
  ⟨(C6_promotion_loops_bounded_fatal [(⟨1, 2, 0⟩, 7)] ⟨1, 2, 0⟩ 3).1
      (⟨1, 2, 0⟩, 1) (by rfl),
   (C6_promotion_loops_bounded_fatal [] ⟨1, 2, 0⟩ 3).2.1 (by decide),
   (C6_promotion_loops_bounded_fatal [(⟨1, 2, 0⟩, 7)] ⟨1, 2, 0⟩ 3).2.2.1
      (by rfl),
   (C6_promotion_loops_bounded_fatal [] ⟨1, 2, 0⟩ 3).2.2.2 (by rfl)⟩

/-- A 3-float vector, modelled exactly over ℚ (all values appearing in the
claims are small integers or quarters, exactly representable in `float`). -/
structure Vec3f where
  x : ℚ
  y : ℚ
  z : ℚ
deriving DecidableEq, Repr

def vadd (u v : Vec3f) : Vec3f := ⟨u.x + v.x, u.y + v.y, u.z + v.z⟩

def vsub (u v : Vec3f) : Vec3f := ⟨u.x - v.x, u.y - v.y, u.z - v.z⟩

def vscale (v : Vec3f) (r : ℚ) : Vec3f := ⟨v.x * r, v.y * r, v.z * r⟩

/-- Add `d` to component `i` (the source's `B[i] += d`). -/
def vAddC (v : Vec3f) (i : ℕ) (d : ℚ) : Vec3f :=
  if i = 0 then ⟨v.x + d, v.y, v.z⟩
  else if i = 1 then ⟨v.x, v.y + d, v.z⟩
  else ⟨v.x, v.y, v.z + d⟩

/-- Modelled from the spec: `Mat3x3f` lives in `Mat3x3f.h`, which is not
under `src/`.  Per spec §2 the vector constructor `Mat3x3f(V1, V2, V3)`
stores its arguments as the three columns, and the brace initializer lists
entries in column-major order (this convention is the one under which the
static `_barycentricInverses` of source lines 24-30 invert the microtet edge
matrices, as the theorems below verify). -/
structure Mat3x3f where
  c0 : Vec3f
  c1 : Vec3f
  c2 : Vec3f
deriving DecidableEq, Repr

/-- Column action of a matrix on a vector. -/
def mApply (M : Mat3x3f) (v : Vec3f) : Vec3f :=
  vadd (vadd (vscale M.c0 v.x) (vscale M.c1 v.y)) (vscale M.c2 v.z)

def mDet (M : Mat3x3f) : ℚ :=
  M.c0.x * (M.c1.y * M.c2.z - M.c1.z * M.c2.y)
  - M.c1.x * (M.c0.y * M.c2.z - M.c0.z * M.c2.y)
  + M.c2.x * (M.c0.y * M.c1.z - M.c0.z * M.c1.y)

/-- Modelled from the spec: `Robust_Solve_Linear_System` of `Mat3x3f.h` (not
under `src/`) solves the system exactly when the matrix is invertible (spec
§2: "a robust linear solve"; the robust fallback only concerns singular
systems, which the round-trip theorems never reach).  Modelled as the exact
Cramer solution on a non-zero determinant and zero otherwise. -/
def robustSolve (M : Mat3x3f) (b : Vec3f) : Vec3f :=
  if mDet M = 0 then ⟨0, 0, 0⟩
  else ⟨mDet ⟨b, M.c1, M.c2⟩ / mDet M,
        mDet ⟨M.c0, b, M.c2⟩ / mDet M,
        mDet ⟨M.c0, M.c1, b⟩ / mDet M⟩

/-- The static `_barycentricInverses` table (source lines 24-30), read
column-major. -/
def baryInverses (i : ℕ) : Mat3x3f :=
  if i = 0 then ⟨⟨-1/2, 1/2, 1/2⟩, ⟨1/2, 0, 0⟩, ⟨0, 1/2, -1/2⟩⟩
  else if i = 1 then ⟨⟨0, 1/2, -1/2⟩, ⟨-1/2, 1/2, 1/2⟩, ⟨1/2, 0, 0⟩⟩
  else if i = 2 then ⟨⟨1/2, 0, 0⟩, ⟨0, 1/2, -1/2⟩, ⟨-1/2, 1/2, 1/2⟩⟩
  else if i = 3 then ⟨⟨1/2, -1/2, -1/2⟩, ⟨1/2, 0, 0⟩, ⟨0, -1/2, 1/2⟩⟩
  else if i = 4 then ⟨⟨0, -1/2, 1/2⟩, ⟨1/2, -1/2, -1/2⟩, ⟨1/2, 0, 0⟩⟩
  else ⟨⟨1/2, 0, 0⟩, ⟨0, -1/2, 1/2⟩, ⟨1/2, -1/2, -1/2⟩⟩

def intToQ3 (t : bccTetCentroid) : Vec3f := ⟨(t.x : ℚ), (t.y : ℚ), (t.z : ℚ)⟩

/-- The grid locus of node `j` of the tet with centroid `tc`, as rationals
(`centroidToNodeLoci` output cast from `short` to `float`, exact). -/
def nodeLocusQ (tc : bccTetCentroid) (j : ℕ) : Vec3f :=
  intToQ3 (centroidToNodeLoci tc j)

/-- The barycentric interpolation common to both overloads of
`barycentricWeightToGridLocus` (source lines 220-234): node 0 weighted by
`1 - w0 - w1 - w2`, nodes 1-3 by `w0, w1, w2`. -/
def bwFromNodes (v0 v1 v2 v3 w : Vec3f) : Vec3f :=
  vadd (vadd (vadd (vscale v0 (1 - w.x - w.y - w.z)) (vscale v1 w.x))
    (vscale v2 w.y)) (vscale v3 w.z)

/-- A tet store for the barycentric conversions: per-tet node ids, per-node
grid loci (`_nodeGridLoci`, shorts cast exactly), and the centroid hash. -/
structure BaryStore where
  tetNodes : ℕ → ℕ → ℕ
  nodeGridLoci : ℕ → Vec3f
  tetHash : List (bccTetCentroid × ℕ)

/-- `vnBccTetrahedra::barycentricWeightToGridLocus` (tet overload, source
lines 220-225): interpolates the stored grid loci of the tet's four nodes. -/
def barycentricWeightToGridLocus (st : BaryStore) (tet : ℕ) (w : Vec3f) :
    Vec3f :=
  bwFromNodes (st.nodeGridLoci (st.tetNodes tet 0))
    (st.nodeGridLoci (st.tetNodes tet 1))
    (st.nodeGridLoci (st.tetNodes tet 2))
    (st.nodeGridLoci (st.tetNodes tet 3)) w

/-- `vnBccTetrahedra::gridLocusToBarycentricWeight` (source lines 255-298).
Above the finest level the unique tet hashed at the centroid provides the
edge matrix for a robust solve (the source asserts the lookup is non-empty
and unique; the unreachable empty case is completed with zero).  At the
finest level the centroid is halved, the orientation bit
`(xyz[hc] + xyz[(hc+1)%3]) & 1` picks inverse `hc` (with the locus shifted
by the tet's first node) or inverse `hc + 3` (source's `hc < 1 / hc < 2`
chains equal `baryInv = hc` resp. `hc + 3`). -/
def gridLocusToBarycentricWeight (st : BaryStore) (gridLocus : Vec3f)
    (tc : bccTetCentroid) : Vec3f :=
  let p := centroidHalfAxisSize tc
  let hc : ℕ := p.1
  let size : ℤ := p.2
  if 1 < size then
    match st.tetHash.find? (fun e => e.1 = tc) with
    | none => ⟨0, 0, 0⟩
    | some pr =>
      let tV : ℕ → Vec3f := fun i => st.nodeGridLoci (st.tetNodes pr.2 i)
      robustSolve ⟨vsub (tV 1) (tV 0), vsub (tV 2) (tV 0), vsub (tV 3) (tV 0)⟩
        (vsub gridLocus (tV 0))
  else
    let xyzv : bccTetCentroid := ⟨tc.x / 2, tc.y / 2, tc.z / 2⟩
    let B := vsub gridLocus (intToQ3 xyzv)
    if (cGet xyzv hc + cGet xyzv ((hc + 1) % 3)) % 2 = 1 then
      mApply (baryInverses hc) (vAddC B ((hc + 1) % 3) 1)
    else
      mApply (baryInverses (hc + 3)) (vAddC (vAddC B hc (-1)) ((hc + 1) % 3) 1)

theorem bw_sub_v0 (v0 v1 v2 v3 w : Vec3f) :
    vsub (bwFromNodes v0 v1 v2 v3 w) v0 =
      mApply ⟨vsub v1 v0, vsub v2 v0, vsub v3 v0⟩ w := by
  obtain ⟨a0, b0, c0⟩ := v0
  obtain ⟨a1, b1, c1⟩ := v1
  obtain ⟨a2, b2, c2⟩ := v2
  obtain ⟨a3, b3, c3⟩ := v3
  obtain ⟨wx, wy, wz⟩ := w
  simp only [bwFromNodes, mApply, vadd, vsub, vscale, Vec3f.mk.injEq]
  refine ⟨by ring, by ring, by ring⟩

theorem cramer_id (M : Mat3x3f) (w : Vec3f) (hd : mDet M ≠ 0) :
    robustSolve M (mApply M w) = w := by
  obtain ⟨⟨a, b, c⟩, ⟨d, e, f⟩, ⟨g, h, i⟩⟩ := M
  obtain ⟨wx, wy, wz⟩ := w
  rw [robustSolve]
  simp only [mDet, mApply, vadd, vscale] at hd ⊢
  rw [if_neg hd]
  simp only [Vec3f.mk.injEq]
  refine ⟨?_, ?_, ?_⟩ <;>
    (rw [div_eq_iff hd]; ring)

theorem micro_rt_hc0 (st : BaryStore) (T : ℕ) (a b c : ℤ) (w : Vec3f)
    (hbc : (b + c) % 2 = 1)
    (hdec : centroidHalfAxisSize ⟨2 * a + 1, 2 * b, 2 * c⟩ = (0, 1))
    (hcoh : ∀ j, j < 4 → st.nodeGridLoci (st.tetNodes T j) =
      nodeLocusQ ⟨2 * a + 1, 2 * b, 2 * c⟩ j) :
    gridLocusToBarycentricWeight st
      (barycentricWeightToGridLocus st T w) ⟨2 * a + 1, 2 * b, 2 * c⟩ = w := by
  have d1 : (2 * a + 1) / 2 = a := by omega
  have d2 : (2 * b) / 2 = b := by omega
  have d3 : (2 * c) / 2 = c := by omega
  have hu : (2 * a + 1) / 2 % 2 = a % 2 := by omega
  have hu2 : (2 * c) / 2 % 2 = c % 2 := by omega
  have da1 : (2 * a + 1 + -1) / 2 = a := by omega
  have da2 : (2 * a + 1 + 1) / 2 = a + 1 := by omega
  have db1 : (2 * b - 2) / 2 = b - 1 := by omega
  have db2 : (2 * b + 2) / 2 = b + 1 := by omega
  have dc1 : (2 * c + 2) / 2 = c + 1 := by omega
  have dc2 : (2 * c + -2) / 2 = c - 1 := by omega
  simp only [barycentricWeightToGridLocus, hcoh 0 (by norm_num),
    hcoh 1 (by norm_num), hcoh 2 (by norm_num), hcoh 3 (by norm_num),
    gridLocusToBarycentricWeight, hdec, nodeLocusQ, centroidToNodeLoci,
    centroidToNodeLociPre, intToQ3]
  simp +decide only [cGet, cSet, if_true, if_false]
  simp only [mul_one]
  simp only [hu, hu2, d1, d2, d3]
  by_cases hud : a % 2 = c % 2
  · simp only [if_pos hud]
    rw [if_pos (show (a + b) % 2 = 1 by omega)]
    simp only [da1, da2, db1, db2, dc1, dc2]
    obtain ⟨wx, wy, wz⟩ := w
    simp +decide only [bwFromNodes, baryInverses, mApply, vadd, vsub, vscale,
      vAddC, if_true, if_false, Vec3f.mk.injEq]
    push_cast
    refine ⟨by ring, by ring, by ring⟩
  · simp only [if_neg hud]
    rw [if_neg (show ¬(a + b) % 2 = 1 by omega)]
    simp only [da1, da2, db1, db2, dc1, dc2]
    obtain ⟨wx, wy, wz⟩ := w
    simp +decide only [bwFromNodes, baryInverses, mApply, vadd, vsub, vscale,
      vAddC, if_true, if_false, Vec3f.mk.injEq]
    push_cast
    refine ⟨by ring, by ring, by ring⟩

theorem macro_rt_hc0 (st : BaryStore) (T : ℕ) (s a b c : ℤ) (w : Vec3f)
    (hs : 1 < s)
    (hdec : centroidHalfAxisSize ⟨s * (2 * a + 1), 2 * s * b, 2 * s * c⟩ =
      (0, s))
    (hfind : st.tetHash.find? (fun e => e.1 =
        (⟨s * (2 * a + 1), 2 * s * b, 2 * s * c⟩ : bccTetCentroid)) =
      some (⟨s * (2 * a + 1), 2 * s * b, 2 * s * c⟩, T))
    (hcoh : ∀ j, j < 4 → st.nodeGridLoci (st.tetNodes T j) =
      nodeLocusQ ⟨s * (2 * a + 1), 2 * s * b, 2 * s * c⟩ j) :
    gridLocusToBarycentricWeight st
      (barycentricWeightToGridLocus st T w)
      ⟨s * (2 * a + 1), 2 * s * b, 2 * s * c⟩ = w := by
  have hs0 : (0 : ℤ) < s := by omega
  have hq : (0 : ℚ) < (s : ℚ) := by exact_mod_cast hs0
  have hu : s * (2 * a + 1) / (2 * s) % 2 = a % 2 := by
    rw [ediv_two_mul _ _ hs0]; omega
  have hu2 : 2 * s * c / (2 * s) % 2 = c % 2 := by
    rw [mul_comm (2 * s) c, Int.mul_ediv_cancel _ (by omega)]
  have d1 : (s * (2 * a + 1) + -s) / 2 = s * a := by
    rw [show s * (2 * a + 1) + -s = 2 * (s * a) by ring,
      Int.mul_ediv_cancel_left _ (by norm_num)]
  have d2 : (s * (2 * a + 1) + s) / 2 = s * a + s := by
    rw [show s * (2 * a + 1) + s = 2 * (s * a + s) by ring,
      Int.mul_ediv_cancel_left _ (by norm_num)]
  have d3 : (2 * s * b - 2 * s) / 2 = s * b - s := by
    rw [show 2 * s * b - 2 * s = 2 * (s * b - s) by ring,
      Int.mul_ediv_cancel_left _ (by norm_num)]
  have d4 : (2 * s * b + 2 * s) / 2 = s * b + s := by
    rw [show 2 * s * b + 2 * s = 2 * (s * b + s) by ring,
      Int.mul_ediv_cancel_left _ (by norm_num)]
  have d5 : (2 * s * b) / 2 = s * b := by
    rw [show 2 * s * b = 2 * (s * b) by ring,
      Int.mul_ediv_cancel_left _ (by norm_num)]
  have d6 : (2 * s * c) / 2 = s * c := by
    rw [show 2 * s * c = 2 * (s * c) by ring,
      Int.mul_ediv_cancel_left _ (by norm_num)]
  have d7 : (2 * s * c + 2 * s) / 2 = s * c + s := by
    rw [show 2 * s * c + 2 * s = 2 * (s * c + s) by ring,
      Int.mul_ediv_cancel_left _ (by norm_num)]
  have d8 : (2 * s * c + -(2 * s)) / 2 = s * c - s := by
    rw [show 2 * s * c + -(2 * s) = 2 * (s * c - s) by ring,
      Int.mul_ediv_cancel_left _ (by norm_num)]
  simp only [barycentricWeightToGridLocus, gridLocusToBarycentricWeight,
    hdec, nodeLocusQ, centroidToNodeLoci, centroidToNodeLociPre, intToQ3]
  rw [if_pos hs, hfind]
  simp +decide only [cGet, cSet, if_true, if_false]
  simp only [hcoh 0 (by norm_num), hcoh 1 (by norm_num), hcoh 2 (by norm_num),
    hcoh 3 (by norm_num), nodeLocusQ, centroidToNodeLoci,
    centroidToNodeLociPre, hdec, intToQ3]
  simp +decide only [cGet, cSet, if_true, if_false]
  simp only [hu, hu2]
  by_cases hud : a % 2 = c % 2 <;>
    [simp only [if_pos hud]; simp only [if_neg hud]] <;>
    (simp only [d1, d2, d3, d4, d5, d6, d7, d8]
     rw [bw_sub_v0]
     refine cramer_id _ _ ?_
     simp only [mDet, vsub]
     refine ne_of_gt ?_
     push_cast
     nlinarith [pow_pos hq 3])

theorem micro_rt_hc1 (st : BaryStore) (T : ℕ) (a b c : ℤ) (w : Vec3f)
    (hbc : (b + c) % 2 = 1)
    (hdec : centroidHalfAxisSize ⟨2 * c, 2 * a + 1, 2 * b⟩ = (1, 1))
    (hcoh : ∀ j, j < 4 → st.nodeGridLoci (st.tetNodes T j) =
      nodeLocusQ ⟨2 * c, 2 * a + 1, 2 * b⟩ j) :
    gridLocusToBarycentricWeight st
      (barycentricWeightToGridLocus st T w) ⟨2 * c, 2 * a + 1, 2 * b⟩ = w := by
  have d1 : (2 * a + 1) / 2 = a := by omega
  have d2 : (2 * b) / 2 = b := by omega
  have d3 : (2 * c) / 2 = c := by omega
  have hu : (2 * a + 1) / 2 % 2 = a % 2 := by omega
  have hu2 : (2 * c) / 2 % 2 = c % 2 := by omega
  have da1 : (2 * a + 1 + -1) / 2 = a := by omega
  have da2 : (2 * a + 1 + 1) / 2 = a + 1 := by omega
  have db1 : (2 * b - 2) / 2 = b - 1 := by omega
  have db2 : (2 * b + 2) / 2 = b + 1 := by omega
  have dc1 : (2 * c + 2) / 2 = c + 1 := by omega
  have dc2 : (2 * c + -2) / 2 = c - 1 := by omega
  simp only [barycentricWeightToGridLocus, hcoh 0 (by norm_num),
    hcoh 1 (by norm_num), hcoh 2 (by norm_num), hcoh 3 (by norm_num),
    gridLocusToBarycentricWeight, hdec, nodeLocusQ, centroidToNodeLoci,
    centroidToNodeLociPre, intToQ3]
  simp +decide only [cGet, cSet, if_true, if_false]
  simp only [mul_one]
  simp only [hu, hu2, d1, d2, d3]
  by_cases hud : a % 2 = c % 2
  · simp only [if_pos hud]
    rw [if_pos (show (a + b) % 2 = 1 by omega)]
    simp only [da1, da2, db1, db2, dc1, dc2]
    obtain ⟨wx, wy, wz⟩ := w
    simp +decide only [bwFromNodes, baryInverses, mApply, vadd, vsub, vscale,
      vAddC, if_true, if_false, Vec3f.mk.injEq]
    push_cast
    refine ⟨by ring, by ring, by ring⟩
  · simp only [if_neg hud]
    rw [if_neg (show ¬(a + b) % 2 = 1 by omega)]
    simp only [da1, da2, db1, db2, dc1, dc2]
    obtain ⟨wx, wy, wz⟩ := w
    simp +decide only [bwFromNodes, baryInverses, mApply, vadd, vsub, vscale,
      vAddC, if_true, if_false, Vec3f.mk.injEq]
    push_cast
    refine ⟨by ring, by ring, by ring⟩

theorem micro_rt_hc2 (st : BaryStore) (T : ℕ) (a b c : ℤ) (w : Vec3f)
    (hbc : (b + c) % 2 = 1)
    (hdec : centroidHalfAxisSize ⟨2 * b, 2 * c, 2 * a + 1⟩ = (2, 1))
    (hcoh : ∀ j, j < 4 → st.nodeGridLoci (st.tetNodes T j) =
      nodeLocusQ ⟨2 * b, 2 * c, 2 * a + 1⟩ j) :
    gridLocusToBarycentricWeight st
      (barycentricWeightToGridLocus st T w) ⟨2 * b, 2 * c, 2 * a + 1⟩ = w := by
  have d1 : (2 * a + 1) / 2 = a := by omega
  have d2 : (2 * b) / 2 = b := by omega
  have d3 : (2 * c) / 2 = c := by omega
  have hu : (2 * a + 1) / 2 % 2 = a % 2 := by omega
  have hu2 : (2 * c) / 2 % 2 = c % 2 := by omega
  have da1 : (2 * a + 1 + -1) / 2 = a := by omega
  have da2 : (2 * a + 1 + 1) / 2 = a + 1 := by omega
  have db1 : (2 * b - 2) / 2 = b - 1 := by omega
  have db2 : (2 * b + 2) / 2 = b + 1 := by omega
  have dc1 : (2 * c + 2) / 2 = c + 1 := by omega
  have dc2 : (2 * c + -2) / 2 = c - 1 := by omega
  simp only [barycentricWeightToGridLocus, hcoh 0 (by norm_num),
    hcoh 1 (by norm_num), hcoh 2 (by norm_num), hcoh 3 (by norm_num),
    gridLocusToBarycentricWeight, hdec, nodeLocusQ, centroidToNodeLoci,
    centroidToNodeLociPre, intToQ3]
  simp +decide only [cGet, cSet, if_true, if_false]
  simp only [mul_one]
  simp only [hu, hu2, d1, d2, d3]
  by_cases hud : a % 2 = c % 2
  · simp only [if_pos hud]
    rw [if_pos (show (a + b) % 2 = 1 by omega)]
    simp only [da1, da2, db1, db2, dc1, dc2]
    obtain ⟨wx, wy, wz⟩ := w
    simp +decide only [bwFromNodes, baryInverses, mApply, vadd, vsub, vscale,
      vAddC, if_true, if_false, Vec3f.mk.injEq]
    push_cast
    refine ⟨by ring, by ring, by ring⟩
  · simp only [if_neg hud]
    rw [if_neg (show ¬(a + b) % 2 = 1 by omega)]
    simp only [da1, da2, db1, db2, dc1, dc2]
    obtain ⟨wx, wy, wz⟩ := w
    simp +decide only [bwFromNodes, baryInverses, mApply, vadd, vsub, vscale,
      vAddC, if_true, if_false, Vec3f.mk.injEq]
    push_cast
    refine ⟨by ring, by ring, by ring⟩

theorem macro_rt_hc1 (st : BaryStore) (T : ℕ) (s a b c : ℤ) (w : Vec3f)
    (hs : 1 < s)
    (hdec : centroidHalfAxisSize ⟨2 * s * c, s * (2 * a + 1), 2 * s * b⟩ =
      (1, s))
    (hfind : st.tetHash.find? (fun e => e.1 =
        (⟨2 * s * c, s * (2 * a + 1), 2 * s * b⟩ : bccTetCentroid)) =
      some (⟨2 * s * c, s * (2 * a + 1), 2 * s * b⟩, T))
    (hcoh : ∀ j, j < 4 → st.nodeGridLoci (st.tetNodes T j) =
      nodeLocusQ ⟨2 * s * c, s * (2 * a + 1), 2 * s * b⟩ j) :
    gridLocusToBarycentricWeight st
      (barycentricWeightToGridLocus st T w)
      ⟨2 * s * c, s * (2 * a + 1), 2 * s * b⟩ = w := by
  have hs0 : (0 : ℤ) < s := by omega
  have hq : (0 : ℚ) < (s : ℚ) := by exact_mod_cast hs0
  have hu : s * (2 * a + 1) / (2 * s) % 2 = a % 2 := by
    rw [ediv_two_mul _ _ hs0]; omega
  have hu2 : 2 * s * c / (2 * s) % 2 = c % 2 := by
    rw [mul_comm (2 * s) c, Int.mul_ediv_cancel _ (by omega)]
  have d1 : (s * (2 * a + 1) + -s) / 2 = s * a := by
    rw [show s * (2 * a + 1) + -s = 2 * (s * a) by ring,
      Int.mul_ediv_cancel_left _ (by norm_num)]
  have d2 : (s * (2 * a + 1) + s) / 2 = s * a + s := by
    rw [show s * (2 * a + 1) + s = 2 * (s * a + s) by ring,
      Int.mul_ediv_cancel_left _ (by norm_num)]
  have d3 : (2 * s * b - 2 * s) / 2 = s * b - s := by
    rw [show 2 * s * b - 2 * s = 2 * (s * b - s) by ring,
      Int.mul_ediv_cancel_left _ (by norm_num)]
  have d4 : (2 * s * b + 2 * s) / 2 = s * b + s := by
    rw [show 2 * s * b + 2 * s = 2 * (s * b + s) by ring,
      Int.mul_ediv_cancel_left _ (by norm_num)]
  have d5 : (2 * s * b) / 2 = s * b := by
    rw [show 2 * s * b = 2 * (s * b) by ring,
      Int.mul_ediv_cancel_left _ (by norm_num)]
  have d6 : (2 * s * c) / 2 = s * c := by
    rw [show 2 * s * c = 2 * (s * c) by ring,
      Int.mul_ediv_cancel_left _ (by norm_num)]
  have d7 : (2 * s * c + 2 * s) / 2 = s * c + s := by
    rw [show 2 * s * c + 2 * s = 2 * (s * c + s) by ring,
      Int.mul_ediv_cancel_left _ (by norm_num)]
  have d8 : (2 * s * c + -(2 * s)) / 2 = s * c - s := by
    rw [show 2 * s * c + -(2 * s) = 2 * (s * c - s) by ring,
      Int.mul_ediv_cancel_left _ (by norm_num)]
  simp only [barycentricWeightToGridLocus, gridLocusToBarycentricWeight,
    hdec, nodeLocusQ, centroidToNodeLoci, centroidToNodeLociPre, intToQ3]
  rw [if_pos hs, hfind]
  simp +decide only [cGet, cSet, if_true, if_false]
  simp only [hcoh 0 (by norm_num), hcoh 1 (by norm_num), hcoh 2 (by norm_num),
    hcoh 3 (by norm_num), nodeLocusQ, centroidToNodeLoci,
    centroidToNodeLociPre, hdec, intToQ3]
  simp +decide only [cGet, cSet, if_true, if_false]
  simp only [hu, hu2]
  by_cases hud : a % 2 = c % 2 <;>
    [simp only [if_pos hud]; simp only [if_neg hud]] <;>
    (simp only [d1, d2, d3, d4, d5, d6, d7, d8]
     rw [bw_sub_v0]
     refine cramer_id _ _ ?_
     simp only [mDet, vsub]
     refine ne_of_gt ?_
     push_cast
     nlinarith [pow_pos hq 3])

theorem macro_rt_hc2 (st : BaryStore) (T : ℕ) (s a b c : ℤ) (w : Vec3f)
    (hs : 1 < s)
    (hdec : centroidHalfAxisSize ⟨2 * s * b, 2 * s * c, s * (2 * a + 1)⟩ =
      (2, s))
    (hfind : st.tetHash.find? (fun e => e.1 =
        (⟨2 * s * b, 2 * s * c, s * (2 * a + 1)⟩ : bccTetCentroid)) =
      some (⟨2 * s * b, 2 * s * c, s * (2 * a + 1)⟩, T))
    (hcoh : ∀ j, j < 4 → st.nodeGridLoci (st.tetNodes T j) =
      nodeLocusQ ⟨2 * s * b, 2 * s * c, s * (2 * a + 1)⟩ j) :
    gridLocusToBarycentricWeight st
      (barycentricWeightToGridLocus st T w)
      ⟨2 * s * b, 2 * s * c, s * (2 * a + 1)⟩ = w := by
  have hs0 : (0 : ℤ) < s := by omega
  have hq : (0 : ℚ) < (s : ℚ) := by exact_mod_cast hs0
  have hu : s * (2 * a + 1) / (2 * s) % 2 = a % 2 := by
    rw [ediv_two_mul _ _ hs0]; omega
  have hu2 : 2 * s * c / (2 * s) % 2 = c % 2 := by
    rw [mul_comm (2 * s) c, Int.mul_ediv_cancel _ (by omega)]
  have d1 : (s * (2 * a + 1) + -s) / 2 = s * a := by
    rw [show s * (2 * a + 1) + -s = 2 * (s * a) by ring,
      Int.mul_ediv_cancel_left _ (by norm_num)]
  have d2 : (s * (2 * a + 1) + s) / 2 = s * a + s := by
    rw [show s * (2 * a + 1) + s = 2 * (s * a + s) by ring,
      Int.mul_ediv_cancel_left _ (by norm_num)]
  have d3 : (2 * s * b - 2 * s) / 2 = s * b - s := by
    rw [show 2 * s * b - 2 * s = 2 * (s * b - s) by ring,
      Int.mul_ediv_cancel_left _ (by norm_num)]
  have d4 : (2 * s * b + 2 * s) / 2 = s * b + s := by
    rw [show 2 * s * b + 2 * s = 2 * (s * b + s) by ring,
      Int.mul_ediv_cancel_left _ (by norm_num)]
  have d5 : (2 * s * b) / 2 = s * b := by
    rw [show 2 * s * b = 2 * (s * b) by ring,
      Int.mul_ediv_cancel_left _ (by norm_num)]
  have d6 : (2 * s * c) / 2 = s * c := by
    rw [show 2 * s * c = 2 * (s * c) by ring,
      Int.mul_ediv_cancel_left _ (by norm_num)]
  have d7 : (2 * s * c + 2 * s) / 2 = s * c + s := by
    rw [show 2 * s * c + 2 * s = 2 * (s * c + s) by ring,
      Int.mul_ediv_cancel_left _ (by norm_num)]
  have d8 : (2 * s * c + -(2 * s)) / 2 = s * c - s := by
    rw [show 2 * s * c + -(2 * s) = 2 * (s * c - s) by ring,
      Int.mul_ediv_cancel_left _ (by norm_num)]
  simp only [barycentricWeightToGridLocus, gridLocusToBarycentricWeight,
    hdec, nodeLocusQ, centroidToNodeLoci, centroidToNodeLociPre, intToQ3]
  rw [if_pos hs, hfind]
  simp +decide only [cGet, cSet, if_true, if_false]
  simp only [hcoh 0 (by norm_num), hcoh 1 (by norm_num), hcoh 2 (by norm_num),
    hcoh 3 (by norm_num), nodeLocusQ, centroidToNodeLoci,
    centroidToNodeLociPre, hdec, intToQ3]
  simp +decide only [cGet, cSet, if_true, if_false]
  simp only [hu, hu2]
  by_cases hud : a % 2 = c % 2 <;>
    [simp only [if_pos hud]; simp only [if_neg hud]] <;>
    (simp only [d1, d2, d3, d4, d5, d6, d7, d8]
     rw [bw_sub_v0]
     refine cramer_id _ _ ?_
     simp only [mDet, vsub]
     refine ne_of_gt ?_
     push_cast
     nlinarith [pow_pos hq 3])

/-- C8: barycentric round trip.  For every valid centroid and every tet `T`
whose stored node grid loci agree with the centroid's node loci, and every
weight vector with non-negative components summing to at most one,
converting the weights to a grid locus with `barycentricWeightToGridLocus`
and back with `gridLocusToBarycentricWeight` on that centroid reproduces the
weights exactly (the model computes over ℚ, so "within floating-point
tolerance" is met with zero error); above the finest level the tet is the
unique one hashed at the centroid. -/
theorem C8_barycentric_roundtrip (st : BaryStore) (tc : bccTetCentroid)
    (hc k : ℕ) (a b c : ℤ) (T : ℕ) (w : Vec3f)
    (h : ValidAt tc hc k a b c)
    (hcoh : ∀ j, j < 4 → st.nodeGridLoci (st.tetNodes T j) = nodeLocusQ tc j)
    (hw : 0 ≤ w.x ∧ 0 ≤ w.y ∧ 0 ≤ w.z ∧ w.x + w.y + w.z ≤ 1) :
    (k = 0 → gridLocusToBarycentricWeight st
        (barycentricWeightToGridLocus st T w) tc = w) ∧
    (1 ≤ k → st.tetHash.find? (fun e => e.1 = tc) = some (tc, T) →
      gridLocusToBarycentricWeight st
        (barycentricWeightToGridLocus st T w) tc = w) := by
  obtain ⟨h3, h15, ha0, hb0, hc0v, hhc, hbv, hcv, hbc⟩ := h
  obtain ⟨x, y, z⟩ := tc
  interval_cases hc <;>
    (simp only [cGet] at hhc hbv hcv
     norm_num at hhc hbv hcv
     subst hhc; subst hbv; subst hcv) <;>
    constructor
  · intro hk
    subst hk
    rw [show (⟨2 ^ 0 * (2 * a + 1), 2 ^ (0 + 1) * b, 2 ^ (0 + 1) * c⟩ :
        bccTetCentroid) = ⟨2 * a + 1, 2 * b, 2 * c⟩ from by
      simp only [bccTetCentroid.mk.injEq]
      refine ⟨by ring, by ring, by ring⟩] at hcoh ⊢
    have hdec : centroidHalfAxisSize ⟨2 * a + 1, 2 * b, 2 * c⟩ = (0, 1) := by
      have hd := decode_ax0 0 (by omega) (2 * a + 1) b c (by omega)
      rw [show (⟨2 ^ 0 * (2 * a + 1), 2 * 2 ^ 0 * b, 2 * 2 ^ 0 * c⟩ :
          bccTetCentroid) = ⟨2 * a + 1, 2 * b, 2 * c⟩ from by
        simp only [bccTetCentroid.mk.injEq]
        refine ⟨by ring, by ring, by ring⟩] at hd
      simpa using hd
    exact micro_rt_hc0 st T a b c w hbc hdec hcoh
  · intro hk hfind
    rw [show (⟨2 ^ k * (2 * a + 1), 2 ^ (k + 1) * b, 2 ^ (k + 1) * c⟩ :
        bccTetCentroid) = ⟨2 ^ k * (2 * a + 1), 2 * 2 ^ k * b, 2 * 2 ^ k * c⟩
        from by
      simp only [bccTetCentroid.mk.injEq]
      refine ⟨by ring, by ring, by ring⟩] at hcoh hfind ⊢
    refine macro_rt_hc0 st T (2 ^ k) a b c w ?_
      (decode_ax0 k h15 (2 * a + 1) b c (by omega)) hfind hcoh
    have h2 : (2 : ℤ) ^ 1 ≤ 2 ^ k := pow_le_pow_right (by norm_num) hk
    omega
  · intro hk
    subst hk
    rw [show (⟨2 ^ (0 + 1) * c, 2 ^ 0 * (2 * a + 1), 2 ^ (0 + 1) * b⟩ :
        bccTetCentroid) = ⟨2 * c, 2 * a + 1, 2 * b⟩ from by
      simp only [bccTetCentroid.mk.injEq]
      refine ⟨by ring, by ring, by ring⟩] at hcoh ⊢
    have hdec : centroidHalfAxisSize ⟨2 * c, 2 * a + 1, 2 * b⟩ = (1, 1) := by
      have hd := decode_ax1 0 (by omega) (2 * a + 1) c b (by omega)
      rw [show (⟨2 * 2 ^ 0 * c, 2 ^ 0 * (2 * a + 1), 2 * 2 ^ 0 * b⟩ :
          bccTetCentroid) = ⟨2 * c, 2 * a + 1, 2 * b⟩ from by
        simp only [bccTetCentroid.mk.injEq]
        refine ⟨by ring, by ring, by ring⟩] at hd
      simpa using hd
    exact micro_rt_hc1 st T a b c w hbc hdec hcoh
  · intro hk hfind
    rw [show (⟨2 ^ (k + 1) * c, 2 ^ k * (2 * a + 1), 2 ^ (k + 1) * b⟩ :
        bccTetCentroid) = ⟨2 * 2 ^ k * c, 2 ^ k * (2 * a + 1), 2 * 2 ^ k * b⟩
        from by
      simp only [bccTetCentroid.mk.injEq]
      refine ⟨by ring, by ring, by ring⟩] at hcoh hfind ⊢
    refine macro_rt_hc1 st T (2 ^ k) a b c w ?_
      (decode_ax1 k h15 (2 * a + 1) c b (by omega)) hfind hcoh
    have h2 : (2 : ℤ) ^ 1 ≤ 2 ^ k := pow_le_pow_right (by norm_num) hk
    omega
  · intro hk
    subst hk
    rw [show (⟨2 ^ (0 + 1) * b, 2 ^ (0 + 1) * c, 2 ^ 0 * (2 * a + 1)⟩ :
        bccTetCentroid) = ⟨2 * b, 2 * c, 2 * a + 1⟩ from by
      simp only [bccTetCentroid.mk.injEq]
      refine ⟨by ring, by ring, by ring⟩] at hcoh ⊢
    have hdec : centroidHalfAxisSize ⟨2 * b, 2 * c, 2 * a + 1⟩ = (2, 1) := by
      have hd := decode_ax2 0 (by omega) (2 * a + 1) b c (by omega)
      rw [show (⟨2 * 2 ^ 0 * b, 2 * 2 ^ 0 * c, 2 ^ 0 * (2 * a + 1)⟩ :
          bccTetCentroid) = ⟨2 * b, 2 * c, 2 * a + 1⟩ from by
        simp only [bccTetCentroid.mk.injEq]
        refine ⟨by ring, by ring, by ring⟩] at hd
      simpa using hd
    exact micro_rt_hc2 st T a b c w hbc hdec hcoh
  · intro hk hfind
    rw [show (⟨2 ^ (k + 1) * b, 2 ^ (k + 1) * c, 2 ^ k * (2 * a + 1)⟩ :
        bccTetCentroid) = ⟨2 * 2 ^ k * b, 2 * 2 ^ k * c, 2 ^ k * (2 * a + 1)⟩
        from by
      simp only [bccTetCentroid.mk.injEq]
      refine ⟨by ring, by ring, by ring⟩] at hcoh hfind ⊢
    refine macro_rt_hc2 st T (2 ^ k) a b c w ?_
      (decode_ax2 k h15 (2 * a + 1) b c (by omega)) hfind hcoh
    have h2 : (2 : ℤ) ^ 1 ≤ 2 ^ k := pow_le_pow_right (by norm_num) hk
    omega

/-- A one-tet store for the C8 witness: tet 0 is the microtet at centroid
(1, 2, 0), its node loci the centroid's own node loci. -/
def c8Store : BaryStore where
  tetNodes _ j := j
  nodeGridLoci n := nodeLocusQ ⟨1, 2, 0⟩ n
  tetHash := [(⟨1, 2, 0⟩, 0)]

/-- Witness for C8 at centroid (1, 2, 0) and weights (1/4, 1/4, 1/4). -/
theorem C8_barycentric_roundtrip_witness :
    gridLocusToBarycentricWeight c8Store
      (barycentricWeightToGridLocus c8Store 0 ⟨1/4, 1/4, 1/4⟩) ⟨1, 2, 0⟩ =
      ⟨1/4, 1/4, 1/4⟩ :=
  (C8_barycentric_roundtrip c8Store ⟨1, 2, 0⟩ 0 0 0 1 0 0 ⟨1/4, 1/4, 1/4⟩
    (by decide) (fun j hj => rfl) (by norm_num)).1 rfl

def vGet (v : Vec3f) (i : ℕ) : ℚ :=
  if i = 0 then v.x else if i = 1 then v.y else v.z

/-- The split-pattern selection of `vnBccTetrahedra::unitCubeCentroids`
(source lines 386-399): the three corner parities collapse to one of four
diagonal patterns. -/
def uccSplit (m0 m1 m2 : ℤ) : Bool × Bool × Bool :=
  let s0 := decide (m0 % 2 = 1)
  let s1 := decide (m1 % 2 = 1)
  let s2 := decide (m2 % 2 = 1)
  if s0 = s1 ∧ s0 = s2 then (true, true, true)
  else if s0 = s1 then (false, false, true)
  else if s0 = s2 then (false, true, false)
  else (true, false, false)

/-- `vnBccTetrahedra::unitCubeCentroids` (source lines 374-417) in doubled
centroid-code units: the float loci are half-integers with cube centre
`minimumCorner + 0.5`, and the code overload (lines 374-382) multiplies by
2.00001 and truncates, which on these values is exactly doubling; so the six
codes are built from the doubled centre `2 m + 1` with `±1` in place of the
locus `±0.5`.  Tet `idx = 2 i + j` adjusts axes `c1 = (i+1) % 3` and
`c2 = (i+2) % 3` exactly as the source's loop body. -/
def unitCubeCentroids (m0 m1 m2 : ℤ) (idx : ℕ) : bccTetCentroid :=
  let sp := uccSplit m0 m1 m2
  let i := idx / 2
  let j := idx % 2
  let spi : Bool := if i = 0 then sp.1 else if i = 1 then sp.2.1 else sp.2.2
  let c1 : ℕ := if i < 2 then i + 1 else 0
  let c2 : ℕ := if c1 < 2 then c1 + 1 else 0
  let base : bccTetCentroid := ⟨2 * m0 + 1, 2 * m1 + 1, 2 * m2 + 1⟩
  if j = 0 then
    cSet (cSet base c1 (cGet base c1 + 1)) c2
      (cGet base c2 + (if spi then -1 else 1))
  else
    cSet (cSet base c1 (cGet base c1 - 1)) c2
      (cGet base c2 + (if spi then 1 else -1))

/-- `vnBccTetrahedra::insideTet` (grid-locus overload, source lines 880-943):
the inline low-bit scan is `centroidHalfAxisSize`; each `if (... > ...)
return false` becomes a negated conjunct; the integer `V` values are compared
against the float locus exactly (cast to ℚ). -/
def insideTet (tc : bccTetCentroid) (g : Vec3f) : Prop :=
  let p := centroidHalfAxisSize tc
  let hc : ℕ := p.1
  let dd : ℤ := 2 * p.2
  let c1 : ℕ := (hc + 1) % 3
  let c2 : ℕ := (hc + 2) % 3
  if cGet tc hc / dd % 2 = cGet tc c2 / dd % 2 then
    let V0 : ℤ := cGet tc c2 / 2
    let V1 : ℤ := if dd < 3 then cGet tc hc / 2 else cGet tc hc / 2 - dd / 4
    let V1b : ℤ := if dd < 3 then V1 + 1 else V1 + dd / 2
    let V0b : ℤ := cGet tc c1 / 2
    ¬(vGet g c2 - vGet g hc > ((V0 - V1 : ℤ) : ℚ)) ∧
    ¬(-vGet g c2 - vGet g hc > ((-V0 - V1 : ℤ) : ℚ)) ∧
    ¬(vGet g c1 + vGet g hc > ((V0b + V1b : ℤ) : ℚ)) ∧
    ¬(-vGet g c1 + vGet g hc > ((-V0b + V1b : ℤ) : ℚ))
  else
    let V0 : ℤ := cGet tc c2 / 2
    let V1 : ℤ := if dd < 3 then cGet tc hc / 2 + 1 else cGet tc hc / 2 + dd / 4
    let V1b : ℤ := if dd < 3 then V1 - 1 else V1 - dd / 2
    let V0b : ℤ := cGet tc c1 / 2
    ¬(vGet g c2 + vGet g hc > ((V0 + V1 : ℤ) : ℚ)) ∧
    ¬(-vGet g c2 + vGet g hc > ((-V0 + V1 : ℤ) : ℚ)) ∧
    ¬(vGet g c1 - vGet g hc > ((V0b - V1b : ℤ) : ℚ)) ∧
    ¬(-vGet g c1 - vGet g hc > ((-V0b - V1b : ℤ) : ℚ))

instance (tc : bccTetCentroid) (g : Vec3f) : Decidable (insideTet tc g) := by
  unfold insideTet
  infer_instance

/-- The interior of the same four half-spaces tested by `insideTet`: the
rejection comparisons made non-strict, so membership is strict.  A point
strictly inside a tet and on none of its faces satisfies this. -/
def insideTetOpen (tc : bccTetCentroid) (g : Vec3f) : Prop :=
  let p := centroidHalfAxisSize tc
  let hc : ℕ := p.1
  let dd : ℤ := 2 * p.2
  let c1 : ℕ := (hc + 1) % 3
  let c2 : ℕ := (hc + 2) % 3
  if cGet tc hc / dd % 2 = cGet tc c2 / dd % 2 then
    let V0 : ℤ := cGet tc c2 / 2
    let V1 : ℤ := if dd < 3 then cGet tc hc / 2 else cGet tc hc / 2 - dd / 4
    let V1b : ℤ := if dd < 3 then V1 + 1 else V1 + dd / 2
    let V0b : ℤ := cGet tc c1 / 2
    ¬(vGet g c2 - vGet g hc ≥ ((V0 - V1 : ℤ) : ℚ)) ∧
    ¬(-vGet g c2 - vGet g hc ≥ ((-V0 - V1 : ℤ) : ℚ)) ∧
    ¬(vGet g c1 + vGet g hc ≥ ((V0b + V1b : ℤ) : ℚ)) ∧
    ¬(-vGet g c1 + vGet g hc ≥ ((-V0b + V1b : ℤ) : ℚ))
  else
    let V0 : ℤ := cGet tc c2 / 2
    let V1 : ℤ := if dd < 3 then cGet tc hc / 2 + 1 else cGet tc hc / 2 + dd / 4
    let V1b : ℤ := if dd < 3 then V1 - 1 else V1 - dd / 2
    let V0b : ℤ := cGet tc c1 / 2
    ¬(vGet g c2 + vGet g hc ≥ ((V0 + V1 : ℤ) : ℚ)) ∧
    ¬(-vGet g c2 + vGet g hc ≥ ((-V0 + V1 : ℤ) : ℚ)) ∧
    ¬(vGet g c1 - vGet g hc ≥ ((V0b - V1b : ℤ) : ℚ)) ∧
    ¬(-vGet g c1 - vGet g hc ≥ ((-V0b - V1b : ℤ) : ℚ))

instance (tc : bccTetCentroid) (g : Vec3f) : Decidable (insideTetOpen tc g) := by
  unfold insideTetOpen
  infer_instance

theorem insideTet_hc0 (A B C : ℤ) (g : Vec3f) :
    (A % 2 = C % 2 →
      (insideTet ⟨2 * A + 1, 2 * B, 2 * C⟩ g ↔
        (g.z - g.x ≤ ((C - A : ℤ) : ℚ) ∧ -g.z - g.x ≤ ((-C - A : ℤ) : ℚ) ∧
         g.y + g.x ≤ ((B + (A + 1) : ℤ) : ℚ) ∧
         -g.y + g.x ≤ ((-B + (A + 1) : ℤ) : ℚ)))) ∧
    (¬A % 2 = C % 2 →
      (insideTet ⟨2 * A + 1, 2 * B, 2 * C⟩ g ↔
        (g.z + g.x ≤ ((C + (A + 1) : ℤ) : ℚ) ∧
         -g.z + g.x ≤ ((-C + (A + 1) : ℤ) : ℚ) ∧
         g.y - g.x ≤ ((B - (A + 1 - 1) : ℤ) : ℚ) ∧
         -g.y - g.x ≤ ((-B - (A + 1 - 1) : ℤ) : ℚ)))) := by
  have hdec : centroidHalfAxisSize ⟨2 * A + 1, 2 * B, 2 * C⟩ = (0, 1) := by
    rw [centroidHalfAxisSize, halfAxisLoop]
    rw [if_pos (show (⟨2 * A + 1, 2 * B, 2 * C⟩ : bccTetCentroid).x / 1 % 2 = 1
      by simp only []; omega)]
  have e1 : (2 * A + 1) / 2 = A := by omega
  have e2 : (2 * B) / 2 = B := by omega
  have e3 : (2 * C) / 2 = C := by omega
  have hu : (2 * A + 1) / 2 % 2 = A % 2 := by omega
  have hu2 : (2 * C) / 2 % 2 = C % 2 := by omega
  constructor <;> intro hud <;>
    (simp only [insideTet, hdec, vGet, cGet]
     simp +decide only [if_true, if_false]
     simp only [mul_one]
     simp only [hu, hu2, e1, e2, e3])
  · rw [if_pos hud]
    simp only [not_lt]
  · rw [if_neg hud]
    simp only [not_lt]

theorem insideTetOpen_hc0 (A B C : ℤ) (g : Vec3f) :
    (A % 2 = C % 2 →
      (insideTetOpen ⟨2 * A + 1, 2 * B, 2 * C⟩ g ↔
        (g.z - g.x < ((C - A : ℤ) : ℚ) ∧ -g.z - g.x < ((-C - A : ℤ) : ℚ) ∧
         g.y + g.x < ((B + (A + 1) : ℤ) : ℚ) ∧
         -g.y + g.x < ((-B + (A + 1) : ℤ) : ℚ)))) ∧
    (¬A % 2 = C % 2 →
      (insideTetOpen ⟨2 * A + 1, 2 * B, 2 * C⟩ g ↔
        (g.z + g.x < ((C + (A + 1) : ℤ) : ℚ) ∧
         -g.z + g.x < ((-C + (A + 1) : ℤ) : ℚ) ∧
         g.y - g.x < ((B - (A + 1 - 1) : ℤ) : ℚ) ∧
         -g.y - g.x < ((-B - (A + 1 - 1) : ℤ) : ℚ)))) := by
  have hdec : centroidHalfAxisSize ⟨2 * A + 1, 2 * B, 2 * C⟩ = (0, 1) := by
    rw [centroidHalfAxisSize, halfAxisLoop]
    rw [if_pos (show (⟨2 * A + 1, 2 * B, 2 * C⟩ : bccTetCentroid).x / 1 % 2 = 1
      by simp only []; omega)]
  have e1 : (2 * A + 1) / 2 = A := by omega
  have e2 : (2 * B) / 2 = B := by omega
  have e3 : (2 * C) / 2 = C := by omega
  have hu : (2 * A + 1) / 2 % 2 = A % 2 := by omega
  have hu2 : (2 * C) / 2 % 2 = C % 2 := by omega
  constructor <;> intro hud <;>
    (simp only [insideTetOpen, hdec, vGet, cGet]
     simp +decide only [if_true, if_false]
     simp only [mul_one]
     simp only [hu, hu2, e1, e2, e3])
  · rw [if_pos hud]
    simp only [not_le]
  · rw [if_neg hud]
    simp only [not_le]

theorem insideTet_hc1 (A B C : ℤ) (g : Vec3f) :
    (A % 2 = C % 2 →
      (insideTet ⟨2 * C, 2 * A + 1, 2 * B⟩ g ↔
        (g.x - g.y ≤ ((C - A : ℤ) : ℚ) ∧ -g.x - g.y ≤ ((-C - A : ℤ) : ℚ) ∧
         g.z + g.y ≤ ((B + (A + 1) : ℤ) : ℚ) ∧
         -g.z + g.y ≤ ((-B + (A + 1) : ℤ) : ℚ)))) ∧
    (¬A % 2 = C % 2 →
      (insideTet ⟨2 * C, 2 * A + 1, 2 * B⟩ g ↔
        (g.x + g.y ≤ ((C + (A + 1) : ℤ) : ℚ) ∧
         -g.x + g.y ≤ ((-C + (A + 1) : ℤ) : ℚ) ∧
         g.z - g.y ≤ ((B - (A + 1 - 1) : ℤ) : ℚ) ∧
         -g.z - g.y ≤ ((-B - (A + 1 - 1) : ℤ) : ℚ)))) := by
  have hdec : centroidHalfAxisSize ⟨2 * C, 2 * A + 1, 2 * B⟩ = (1, 1) := by
    rw [centroidHalfAxisSize, halfAxisLoop]
    rw [if_neg (show ¬(⟨2 * C, 2 * A + 1, 2 * B⟩ : bccTetCentroid).x / 1 % 2 = 1
      by simp only []; omega)]
    rw [if_pos (show (⟨2 * C, 2 * A + 1, 2 * B⟩ : bccTetCentroid).y / 1 % 2 = 1
      by simp only []; omega)]
  have e1 : (2 * A + 1) / 2 = A := by omega
  have e2 : (2 * B) / 2 = B := by omega
  have e3 : (2 * C) / 2 = C := by omega
  have hu : (2 * A + 1) / 2 % 2 = A % 2 := by omega
  have hu2 : (2 * C) / 2 % 2 = C % 2 := by omega
  constructor <;> intro hud <;>
    (simp only [insideTet, hdec, vGet, cGet]
     simp +decide only [if_true, if_false]
     simp only [mul_one]
     simp only [hu, hu2, e1, e2, e3])
  · rw [if_pos hud]
    simp only [not_lt]
  · rw [if_neg hud]
    simp only [not_lt]

theorem insideTetOpen_hc1 (A B C : ℤ) (g : Vec3f) :
    (A % 2 = C % 2 →
      (insideTetOpen ⟨2 * C, 2 * A + 1, 2 * B⟩ g ↔
        (g.x - g.y < ((C - A : ℤ) : ℚ) ∧ -g.x - g.y < ((-C - A : ℤ) : ℚ) ∧
         g.z + g.y < ((B + (A + 1) : ℤ) : ℚ) ∧
         -g.z + g.y < ((-B + (A + 1) : ℤ) : ℚ)))) ∧
    (¬A % 2 = C % 2 →
      (insideTetOpen ⟨2 * C, 2 * A + 1, 2 * B⟩ g ↔
        (g.x + g.y < ((C + (A + 1) : ℤ) : ℚ) ∧
         -g.x + g.y < ((-C + (A + 1) : ℤ) : ℚ) ∧
         g.z - g.y < ((B - (A + 1 - 1) : ℤ) : ℚ) ∧
         -g.z - g.y < ((-B - (A + 1 - 1) : ℤ) : ℚ)))) := by
  have hdec : centroidHalfAxisSize ⟨2 * C, 2 * A + 1, 2 * B⟩ = (1, 1) := by
    rw [centroidHalfAxisSize, halfAxisLoop]
    rw [if_neg (show ¬(⟨2 * C, 2 * A + 1, 2 * B⟩ : bccTetCentroid).x / 1 % 2 = 1
      by simp only []; omega)]
    rw [if_pos (show (⟨2 * C, 2 * A + 1, 2 * B⟩ : bccTetCentroid).y / 1 % 2 = 1
      by simp only []; omega)]
  have e1 : (2 * A + 1) / 2 = A := by omega
  have e2 : (2 * B) / 2 = B := by omega
  have e3 : (2 * C) / 2 = C := by omega
  have hu : (2 * A + 1) / 2 % 2 = A % 2 := by omega
  have hu2 : (2 * C) / 2 % 2 = C % 2 := by omega
  constructor <;> intro hud <;>
    (simp only [insideTetOpen, hdec, vGet, cGet]
     simp +decide only [if_true, if_false]
     simp only [mul_one]
     simp only [hu, hu2, e1, e2, e3])
  · rw [if_pos hud]
    simp only [not_le]
  · rw [if_neg hud]
    simp only [not_le]

theorem insideTet_hc2 (A B C : ℤ) (g : Vec3f) :
    (A % 2 = C % 2 →
      (insideTet ⟨2 * B, 2 * C, 2 * A + 1⟩ g ↔
        (g.y - g.z ≤ ((C - A : ℤ) : ℚ) ∧ -g.y - g.z ≤ ((-C - A : ℤ) : ℚ) ∧
         g.x + g.z ≤ ((B + (A + 1) : ℤ) : ℚ) ∧
         -g.x + g.z ≤ ((-B + (A + 1) : ℤ) : ℚ)))) ∧
    (¬A % 2 = C % 2 →
      (insideTet ⟨2 * B, 2 * C, 2 * A + 1⟩ g ↔
        (g.y + g.z ≤ ((C + (A + 1) : ℤ) : ℚ) ∧
         -g.y + g.z ≤ ((-C + (A + 1) : ℤ) : ℚ) ∧
         g.x - g.z ≤ ((B - (A + 1 - 1) : ℤ) : ℚ) ∧
         -g.x - g.z ≤ ((-B - (A + 1 - 1) : ℤ) : ℚ)))) := by
  have hdec : centroidHalfAxisSize ⟨2 * B, 2 * C, 2 * A + 1⟩ = (2, 1) := by
    rw [centroidHalfAxisSize, halfAxisLoop]
    rw [if_neg (show ¬(⟨2 * B, 2 * C, 2 * A + 1⟩ : bccTetCentroid).x / 1 % 2 = 1
      by simp only []; omega)]
    rw [if_neg (show ¬(⟨2 * B, 2 * C, 2 * A + 1⟩ : bccTetCentroid).y / 1 % 2 = 1
      by simp only []; omega)]
    rw [if_pos (show (⟨2 * B, 2 * C, 2 * A + 1⟩ : bccTetCentroid).z / 1 % 2 = 1
      by simp only []; omega)]
  have e1 : (2 * A + 1) / 2 = A := by omega
  have e2 : (2 * B) / 2 = B := by omega
  have e3 : (2 * C) / 2 = C := by omega
  have hu : (2 * A + 1) / 2 % 2 = A % 2 := by omega
  have hu2 : (2 * C) / 2 % 2 = C % 2 := by omega
  constructor <;> intro hud <;>
    (simp only [insideTet, hdec, vGet, cGet]
     simp +decide only [if_true, if_false]
     simp only [mul_one]
     simp only [hu, hu2, e1, e2, e3])
  · rw [if_pos hud]
    simp only [not_lt]
  · rw [if_neg hud]
    simp only [not_lt]

theorem insideTetOpen_hc2 (A B C : ℤ) (g : Vec3f) :
    (A % 2 = C % 2 →
      (insideTetOpen ⟨2 * B, 2 * C, 2 * A + 1⟩ g ↔
        (g.y - g.z < ((C - A : ℤ) : ℚ) ∧ -g.y - g.z < ((-C - A : ℤ) : ℚ) ∧
         g.x + g.z < ((B + (A + 1) : ℤ) : ℚ) ∧
         -g.x + g.z < ((-B + (A + 1) : ℤ) : ℚ)))) ∧
    (¬A % 2 = C % 2 →
      (insideTetOpen ⟨2 * B, 2 * C, 2 * A + 1⟩ g ↔
        (g.y + g.z < ((C + (A + 1) : ℤ) : ℚ) ∧
         -g.y + g.z < ((-C + (A + 1) : ℤ) : ℚ) ∧
         g.x - g.z < ((B - (A + 1 - 1) : ℤ) : ℚ) ∧
         -g.x - g.z < ((-B - (A + 1 - 1) : ℤ) : ℚ)))) := by
  have hdec : centroidHalfAxisSize ⟨2 * B, 2 * C, 2 * A + 1⟩ = (2, 1) := by
    rw [centroidHalfAxisSize, halfAxisLoop]
    rw [if_neg (show ¬(⟨2 * B, 2 * C, 2 * A + 1⟩ : bccTetCentroid).x / 1 % 2 = 1
      by simp only []; omega)]
    rw [if_neg (show ¬(⟨2 * B, 2 * C, 2 * A + 1⟩ : bccTetCentroid).y / 1 % 2 = 1
      by simp only []; omega)]
    rw [if_pos (show (⟨2 * B, 2 * C, 2 * A + 1⟩ : bccTetCentroid).z / 1 % 2 = 1
      by simp only []; omega)]
  have e1 : (2 * A + 1) / 2 = A := by omega
  have e2 : (2 * B) / 2 = B := by omega
  have e3 : (2 * C) / 2 = C := by omega
  have hu : (2 * A + 1) / 2 % 2 = A % 2 := by omega
  have hu2 : (2 * C) / 2 % 2 = C % 2 := by omega
  constructor <;> intro hud <;>
    (simp only [insideTetOpen, hdec, vGet, cGet]
     simp +decide only [if_true, if_false]
     simp only [mul_one]
     simp only [hu, hu2, e1, e2, e3])
  · rw [if_pos hud]
    simp only [not_le]
  · rw [if_neg hud]
    simp only [not_le]

theorem uccClassA (m0 m1 m2 : ℤ) (dx dy dz : ℚ)
    (hx0 : 0 ≤ dx) (hx1 : dx ≤ 1) (hy0 : 0 ≤ dy) (hy1 : dy ≤ 1)
    (hz0 : 0 ≤ dz) (hz1 : dz ≤ 1) (hp1 : m0 % 2 = m1 % 2) (hp2 : m0 % 2 = m2 % 2) :
    (∃ i, i < 6 ∧ insideTet (unitCubeCentroids m0 m1 m2 i) ⟨(m0 : ℚ) + dx, (m1 : ℚ) + dy, (m2 : ℚ) + dz⟩) ∧
    (∀ i, i < 6 → insideTetOpen (unitCubeCentroids m0 m1 m2 i) ⟨(m0 : ℚ) + dx, (m1 : ℚ) + dy, (m2 : ℚ) + dz⟩ →
      ∀ j, j < 6 → j ≠ i →
        ¬insideTet (unitCubeCentroids m0 m1 m2 j) ⟨(m0 : ℚ) + dx, (m1 : ℚ) + dy, (m2 : ℚ) + dz⟩) := by
  have hS : uccSplit m0 m1 m2 = (true, true, true) := by
    have e1 : decide (m0 % 2 = 1) = decide (m1 % 2 = 1) :=
      decide_eq_decide.mpr (by omega)
    have e2 : decide (m0 % 2 = 1) = decide (m2 % 2 = 1) :=
      decide_eq_decide.mpr (by omega)
    simp only [uccSplit]
    rw [if_pos ⟨e1, e2⟩]
  have c0eq : unitCubeCentroids m0 m1 m2 0 = ⟨2 * m0 + 1, 2 * (m1 + 1), 2 * m2⟩ := by
    simp +decide only [unitCubeCentroids, hS, cGet, cSet, if_true, if_false]
    simp only [bccTetCentroid.mk.injEq]
    refine ⟨by ring, by ring, by ring⟩
  have c1eq : unitCubeCentroids m0 m1 m2 1 = ⟨2 * m0 + 1, 2 * m1, 2 * (m2 + 1)⟩ := by
    simp +decide only [unitCubeCentroids, hS, cGet, cSet, if_true, if_false]
    simp only [bccTetCentroid.mk.injEq]
    refine ⟨by ring, by ring, by ring⟩
  have c2eq : unitCubeCentroids m0 m1 m2 2 = ⟨2 * m0, 2 * m1 + 1, 2 * (m2 + 1)⟩ := by
    simp +decide only [unitCubeCentroids, hS, cGet, cSet, if_true, if_false]
    simp only [bccTetCentroid.mk.injEq]
    refine ⟨by ring, by ring, by ring⟩
  have c3eq : unitCubeCentroids m0 m1 m2 3 = ⟨2 * (m0 + 1), 2 * m1 + 1, 2 * m2⟩ := by
    simp +decide only [unitCubeCentroids, hS, cGet, cSet, if_true, if_false]
    simp only [bccTetCentroid.mk.injEq]
    refine ⟨by ring, by ring, by ring⟩
  have c4eq : unitCubeCentroids m0 m1 m2 4 = ⟨2 * (m0 + 1), 2 * m1, 2 * m2 + 1⟩ := by
    simp +decide only [unitCubeCentroids, hS, cGet, cSet, if_true, if_false]
    simp only [bccTetCentroid.mk.injEq]
    refine ⟨by ring, by ring, by ring⟩
  have c5eq : unitCubeCentroids m0 m1 m2 5 = ⟨2 * m0, 2 * (m1 + 1), 2 * m2 + 1⟩ := by
    simp +decide only [unitCubeCentroids, hS, cGet, cSet, if_true, if_false]
    simp only [bccTetCentroid.mk.injEq]
    refine ⟨by ring, by ring, by ring⟩
  have I0 := (insideTet_hc0 m0 (m1 + 1) m2 ⟨(m0 : ℚ) + dx, (m1 : ℚ) + dy, (m2 : ℚ) + dz⟩).1 (by omega)
  have O0 := (insideTetOpen_hc0 m0 (m1 + 1) m2 ⟨(m0 : ℚ) + dx, (m1 : ℚ) + dy, (m2 : ℚ) + dz⟩).1 (by omega)
  rw [← c0eq] at I0 O0
  dsimp only at I0 O0
  push_cast at I0 O0
  have I1 := (insideTet_hc0 m0 m1 (m2 + 1) ⟨(m0 : ℚ) + dx, (m1 : ℚ) + dy, (m2 : ℚ) + dz⟩).2 (by omega)
  have O1 := (insideTetOpen_hc0 m0 m1 (m2 + 1) ⟨(m0 : ℚ) + dx, (m1 : ℚ) + dy, (m2 : ℚ) + dz⟩).2 (by omega)
  rw [← c1eq] at I1 O1
  dsimp only at I1 O1
  push_cast at I1 O1
  have I2 := (insideTet_hc1 m1 (m2 + 1) m0 ⟨(m0 : ℚ) + dx, (m1 : ℚ) + dy, (m2 : ℚ) + dz⟩).1 (by omega)
  have O2 := (insideTetOpen_hc1 m1 (m2 + 1) m0 ⟨(m0 : ℚ) + dx, (m1 : ℚ) + dy, (m2 : ℚ) + dz⟩).1 (by omega)
  rw [← c2eq] at I2 O2
  dsimp only at I2 O2
  push_cast at I2 O2
  have I3 := (insideTet_hc1 m1 m2 (m0 + 1) ⟨(m0 : ℚ) + dx, (m1 : ℚ) + dy, (m2 : ℚ) + dz⟩).2 (by omega)
  have O3 := (insideTetOpen_hc1 m1 m2 (m0 + 1) ⟨(m0 : ℚ) + dx, (m1 : ℚ) + dy, (m2 : ℚ) + dz⟩).2 (by omega)
  rw [← c3eq] at I3 O3
  dsimp only at I3 O3
  push_cast at I3 O3
  have I4 := (insideTet_hc2 m2 (m0 + 1) m1 ⟨(m0 : ℚ) + dx, (m1 : ℚ) + dy, (m2 : ℚ) + dz⟩).1 (by omega)
  have O4 := (insideTetOpen_hc2 m2 (m0 + 1) m1 ⟨(m0 : ℚ) + dx, (m1 : ℚ) + dy, (m2 : ℚ) + dz⟩).1 (by omega)
  rw [← c4eq] at I4 O4
  dsimp only at I4 O4
  push_cast at I4 O4
  have I5 := (insideTet_hc2 m2 m0 (m1 + 1) ⟨(m0 : ℚ) + dx, (m1 : ℚ) + dy, (m2 : ℚ) + dz⟩).2 (by omega)
  have O5 := (insideTetOpen_hc2 m2 m0 (m1 + 1) ⟨(m0 : ℚ) + dx, (m1 : ℚ) + dy, (m2 : ℚ) + dz⟩).2 (by omega)
  rw [← c5eq] at I5 O5
  dsimp only at I5 O5
  push_cast at I5 O5
  refine ⟨?_, ?_⟩
  · rcases le_total dx dy with h1 | h1 <;> rcases le_total dy dz with h2 | h2 <;>
      rcases le_total dx dz with h3 | h3
    · exact ⟨2, by omega, I2.mpr
        ⟨by linarith, by linarith, by linarith, by linarith⟩⟩
    · exact ⟨2, by omega, I2.mpr
        ⟨by linarith, by linarith, by linarith, by linarith⟩⟩
    · exact ⟨5, by omega, I5.mpr
        ⟨by linarith, by linarith, by linarith, by linarith⟩⟩
    · exact ⟨0, by omega, I0.mpr
        ⟨by linarith, by linarith, by linarith, by linarith⟩⟩
    · exact ⟨1, by omega, I1.mpr
        ⟨by linarith, by linarith, by linarith, by linarith⟩⟩
    · exact ⟨4, by omega, I4.mpr
        ⟨by linarith, by linarith, by linarith, by linarith⟩⟩
    · exact ⟨3, by omega, I3.mpr
        ⟨by linarith, by linarith, by linarith, by linarith⟩⟩
    · exact ⟨3, by omega, I3.mpr
        ⟨by linarith, by linarith, by linarith, by linarith⟩⟩
  · intro i hi hopen j hj hne
    interval_cases i <;> interval_cases j
    · exact absurd rfl hne
    · intro hins
      obtain ⟨p1, p2, p3, p4⟩ := O0.mp hopen
      obtain ⟨q1, q2, q3, q4⟩ := I1.mp hins
      linarith
    · intro hins
      obtain ⟨p1, p2, p3, p4⟩ := O0.mp hopen
      obtain ⟨q1, q2, q3, q4⟩ := I2.mp hins
      linarith
    · intro hins
      obtain ⟨p1, p2, p3, p4⟩ := O0.mp hopen
      obtain ⟨q1, q2, q3, q4⟩ := I3.mp hins
      linarith
    · intro hins
      obtain ⟨p1, p2, p3, p4⟩ := O0.mp hopen
      obtain ⟨q1, q2, q3, q4⟩ := I4.mp hins
      linarith
    · intro hins
      obtain ⟨p1, p2, p3, p4⟩ := O0.mp hopen
      obtain ⟨q1, q2, q3, q4⟩ := I5.mp hins
      linarith
    · intro hins
      obtain ⟨p1, p2, p3, p4⟩ := O1.mp hopen
      obtain ⟨q1, q2, q3, q4⟩ := I0.mp hins
      linarith
    · exact absurd rfl hne
    · intro hins
      obtain ⟨p1, p2, p3, p4⟩ := O1.mp hopen
      obtain ⟨q1, q2, q3, q4⟩ := I2.mp hins
      linarith
    · intro hins
      obtain ⟨p1, p2, p3, p4⟩ := O1.mp hopen
      obtain ⟨q1, q2, q3, q4⟩ := I3.mp hins
      linarith
    · intro hins
      obtain ⟨p1, p2, p3, p4⟩ := O1.mp hopen
      obtain ⟨q1, q2, q3, q4⟩ := I4.mp hins
      linarith
    · intro hins
      obtain ⟨p1, p2, p3, p4⟩ := O1.mp hopen
      obtain ⟨q1, q2, q3, q4⟩ := I5.mp hins
      linarith
    · intro hins
      obtain ⟨p1, p2, p3, p4⟩ := O2.mp hopen
      obtain ⟨q1, q2, q3, q4⟩ := I0.mp hins
      linarith
    · intro hins
      obtain ⟨p1, p2, p3, p4⟩ := O2.mp hopen
      obtain ⟨q1, q2, q3, q4⟩ := I1.mp hins
      linarith
    · exact absurd rfl hne
    · intro hins
      obtain ⟨p1, p2, p3, p4⟩ := O2.mp hopen
      obtain ⟨q1, q2, q3, q4⟩ := I3.mp hins
      linarith
    · intro hins
      obtain ⟨p1, p2, p3, p4⟩ := O2.mp hopen
      obtain ⟨q1, q2, q3, q4⟩ := I4.mp hins
      linarith
    · intro hins
      obtain ⟨p1, p2, p3, p4⟩ := O2.mp hopen
      obtain ⟨q1, q2, q3, q4⟩ := I5.mp hins
      linarith
    · intro hins
      obtain ⟨p1, p2, p3, p4⟩ := O3.mp hopen
      obtain ⟨q1, q2, q3, q4⟩ := I0.mp hins
      linarith
    · intro hins
      obtain ⟨p1, p2, p3, p4⟩ := O3.mp hopen
      obtain ⟨q1, q2, q3, q4⟩ := I1.mp hins
      linarith
    · intro hins
      obtain ⟨p1, p2, p3, p4⟩ := O3.mp hopen
      obtain ⟨q1, q2, q3, q4⟩ := I2.mp hins
      linarith
    · exact absurd rfl hne
    · intro hins
      obtain ⟨p1, p2, p3, p4⟩ := O3.mp hopen
      obtain ⟨q1, q2, q3, q4⟩ := I4.mp hins
      linarith
    · intro hins
      obtain ⟨p1, p2, p3, p4⟩ := O3.mp hopen
      obtain ⟨q1, q2, q3, q4⟩ := I5.mp hins
      linarith
    · intro hins
      obtain ⟨p1, p2, p3, p4⟩ := O4.mp hopen
      obtain ⟨q1, q2, q3, q4⟩ := I0.mp hins
      linarith
    · intro hins
      obtain ⟨p1, p2, p3, p4⟩ := O4.mp hopen
      obtain ⟨q1, q2, q3, q4⟩ := I1.mp hins
      linarith
    · intro hins
      obtain ⟨p1, p2, p3, p4⟩ := O4.mp hopen
      obtain ⟨q1, q2, q3, q4⟩ := I2.mp hins
      linarith
    · intro hins
      obtain ⟨p1, p2, p3, p4⟩ := O4.mp hopen
      obtain ⟨q1, q2, q3, q4⟩ := I3.mp hins
      linarith
    · exact absurd rfl hne
    · intro hins
      obtain ⟨p1, p2, p3, p4⟩ := O4.mp hopen
      obtain ⟨q1, q2, q3, q4⟩ := I5.mp hins
      linarith
    · intro hins
      obtain ⟨p1, p2, p3, p4⟩ := O5.mp hopen
      obtain ⟨q1, q2, q3, q4⟩ := I0.mp hins
      linarith
    · intro hins
      obtain ⟨p1, p2, p3, p4⟩ := O5.mp hopen
      obtain ⟨q1, q2, q3, q4⟩ := I1.mp hins
      linarith
    · intro hins
      obtain ⟨p1, p2, p3, p4⟩ := O5.mp hopen
      obtain ⟨q1, q2, q3, q4⟩ := I2.mp hins
      linarith
    · intro hins
      obtain ⟨p1, p2, p3, p4⟩ := O5.mp hopen
      obtain ⟨q1, q2, q3, q4⟩ := I3.mp hins
      linarith
    · intro hins
      obtain ⟨p1, p2, p3, p4⟩ := O5.mp hopen
      obtain ⟨q1, q2, q3, q4⟩ := I4.mp hins
      linarith
    · exact absurd rfl hne

theorem uccClassB (m0 m1 m2 : ℤ) (dx dy dz : ℚ)
    (hx0 : 0 ≤ dx) (hx1 : dx ≤ 1) (hy0 : 0 ≤ dy) (hy1 : dy ≤ 1)
    (hz0 : 0 ≤ dz) (hz1 : dz ≤ 1) (hp1 : m0 % 2 = m1 % 2) (hp2 : ¬m0 % 2 = m2 % 2) :
    (∃ i, i < 6 ∧ insideTet (unitCubeCentroids m0 m1 m2 i) ⟨(m0 : ℚ) + dx, (m1 : ℚ) + dy, (m2 : ℚ) + dz⟩) ∧
    (∀ i, i < 6 → insideTetOpen (unitCubeCentroids m0 m1 m2 i) ⟨(m0 : ℚ) + dx, (m1 : ℚ) + dy, (m2 : ℚ) + dz⟩ →
      ∀ j, j < 6 → j ≠ i →
        ¬insideTet (unitCubeCentroids m0 m1 m2 j) ⟨(m0 : ℚ) + dx, (m1 : ℚ) + dy, (m2 : ℚ) + dz⟩) := by
  have hS : uccSplit m0 m1 m2 = (false, false, true) := by
    have e1 : decide (m0 % 2 = 1) = decide (m1 % 2 = 1) :=
      decide_eq_decide.mpr (by omega)
    have e2 : ¬decide (m0 % 2 = 1) = decide (m2 % 2 = 1) := by
      simp only [decide_eq_decide]
      omega
    simp only [uccSplit]
    rw [if_neg (by intro hA; exact e2 hA.2), if_pos e1]
  have c0eq : unitCubeCentroids m0 m1 m2 0 = ⟨2 * m0 + 1, 2 * (m1 + 1), 2 * (m2 + 1)⟩ := by
    simp +decide only [unitCubeCentroids, hS, cGet, cSet, if_true, if_false]
    simp only [bccTetCentroid.mk.injEq]
    refine ⟨by ring, by ring, by ring⟩
  have c1eq : unitCubeCentroids m0 m1 m2 1 = ⟨2 * m0 + 1, 2 * m1, 2 * m2⟩ := by
    simp +decide only [unitCubeCentroids, hS, cGet, cSet, if_true, if_false]
    simp only [bccTetCentroid.mk.injEq]
    refine ⟨by ring, by ring, by ring⟩
  have c2eq : unitCubeCentroids m0 m1 m2 2 = ⟨2 * (m0 + 1), 2 * m1 + 1, 2 * (m2 + 1)⟩ := by
    simp +decide only [unitCubeCentroids, hS, cGet, cSet, if_true, if_false]
    simp only [bccTetCentroid.mk.injEq]
    refine ⟨by ring, by ring, by ring⟩
  have c3eq : unitCubeCentroids m0 m1 m2 3 = ⟨2 * m0, 2 * m1 + 1, 2 * m2⟩ := by
    simp +decide only [unitCubeCentroids, hS, cGet, cSet, if_true, if_false]
    simp only [bccTetCentroid.mk.injEq]
    refine ⟨by ring, by ring, by ring⟩
  have c4eq : unitCubeCentroids m0 m1 m2 4 = ⟨2 * (m0 + 1), 2 * m1, 2 * m2 + 1⟩ := by
    simp +decide only [unitCubeCentroids, hS, cGet, cSet, if_true, if_false]
    simp only [bccTetCentroid.mk.injEq]
    refine ⟨by ring, by ring, by ring⟩
  have c5eq : unitCubeCentroids m0 m1 m2 5 = ⟨2 * m0, 2 * (m1 + 1), 2 * m2 + 1⟩ := by
    simp +decide only [unitCubeCentroids, hS, cGet, cSet, if_true, if_false]
    simp only [bccTetCentroid.mk.injEq]
    refine ⟨by ring, by ring, by ring⟩
  have I0 := (insideTet_hc0 m0 (m1 + 1) (m2 + 1) ⟨(m0 : ℚ) + dx, (m1 : ℚ) + dy, (m2 : ℚ) + dz⟩).1 (by omega)
  have O0 := (insideTetOpen_hc0 m0 (m1 + 1) (m2 + 1) ⟨(m0 : ℚ) + dx, (m1 : ℚ) + dy, (m2 : ℚ) + dz⟩).1 (by omega)
  rw [← c0eq] at I0 O0
  dsimp only at I0 O0
  push_cast at I0 O0
  have I1 := (insideTet_hc0 m0 m1 m2 ⟨(m0 : ℚ) + dx, (m1 : ℚ) + dy, (m2 : ℚ) + dz⟩).2 (by omega)
  have O1 := (insideTetOpen_hc0 m0 m1 m2 ⟨(m0 : ℚ) + dx, (m1 : ℚ) + dy, (m2 : ℚ) + dz⟩).2 (by omega)
  rw [← c1eq] at I1 O1
  dsimp only at I1 O1
  push_cast at I1 O1
  have I2 := (insideTet_hc1 m1 (m2 + 1) (m0 + 1) ⟨(m0 : ℚ) + dx, (m1 : ℚ) + dy, (m2 : ℚ) + dz⟩).2 (by omega)
  have O2 := (insideTetOpen_hc1 m1 (m2 + 1) (m0 + 1) ⟨(m0 : ℚ) + dx, (m1 : ℚ) + dy, (m2 : ℚ) + dz⟩).2 (by omega)
  rw [← c2eq] at I2 O2
  dsimp only at I2 O2
  push_cast at I2 O2
  have I3 := (insideTet_hc1 m1 m2 m0 ⟨(m0 : ℚ) + dx, (m1 : ℚ) + dy, (m2 : ℚ) + dz⟩).1 (by omega)
  have O3 := (insideTetOpen_hc1 m1 m2 m0 ⟨(m0 : ℚ) + dx, (m1 : ℚ) + dy, (m2 : ℚ) + dz⟩).1 (by omega)
  rw [← c3eq] at I3 O3
  dsimp only at I3 O3
  push_cast at I3 O3
  have I4 := (insideTet_hc2 m2 (m0 + 1) m1 ⟨(m0 : ℚ) + dx, (m1 : ℚ) + dy, (m2 : ℚ) + dz⟩).2 (by omega)
  have O4 := (insideTetOpen_hc2 m2 (m0 + 1) m1 ⟨(m0 : ℚ) + dx, (m1 : ℚ) + dy, (m2 : ℚ) + dz⟩).2 (by omega)
  rw [← c4eq] at I4 O4
  dsimp only at I4 O4
  push_cast at I4 O4
  have I5 := (insideTet_hc2 m2 m0 (m1 + 1) ⟨(m0 : ℚ) + dx, (m1 : ℚ) + dy, (m2 : ℚ) + dz⟩).1 (by omega)
  have O5 := (insideTetOpen_hc2 m2 m0 (m1 + 1) ⟨(m0 : ℚ) + dx, (m1 : ℚ) + dy, (m2 : ℚ) + dz⟩).1 (by omega)
  rw [← c5eq] at I5 O5
  dsimp only at I5 O5
  push_cast at I5 O5
  refine ⟨?_, ?_⟩
  · rcases le_total dx dy with h1 | h1 <;> rcases le_total (dx + dz) 1 with h2 | h2 <;>
      rcases le_total (dy + dz) 1 with h3 | h3
    · exact ⟨3, by omega, I3.mpr
        ⟨by linarith, by linarith, by linarith, by linarith⟩⟩
    · exact ⟨5, by omega, I5.mpr
        ⟨by linarith, by linarith, by linarith, by linarith⟩⟩
    · exact ⟨3, by omega, I3.mpr
        ⟨by linarith, by linarith, by linarith, by linarith⟩⟩
    · exact ⟨0, by omega, I0.mpr
        ⟨by linarith, by linarith, by linarith, by linarith⟩⟩
    · exact ⟨1, by omega, I1.mpr
        ⟨by linarith, by linarith, by linarith, by linarith⟩⟩
    · exact ⟨2, by omega, I2.mpr
        ⟨by linarith, by linarith, by linarith, by linarith⟩⟩
    · exact ⟨4, by omega, I4.mpr
        ⟨by linarith, by linarith, by linarith, by linarith⟩⟩
    · exact ⟨2, by omega, I2.mpr
        ⟨by linarith, by linarith, by linarith, by linarith⟩⟩
  · intro i hi hopen j hj hne
    interval_cases i <;> interval_cases j
    · exact absurd rfl hne
    · intro hins
      obtain ⟨p1, p2, p3, p4⟩ := O0.mp hopen
      obtain ⟨q1, q2, q3, q4⟩ := I1.mp hins
      linarith
    · intro hins
      obtain ⟨p1, p2, p3, p4⟩ := O0.mp hopen
      obtain ⟨q1, q2, q3, q4⟩ := I2.mp hins
      linarith
    · intro hins
      obtain ⟨p1, p2, p3, p4⟩ := O0.mp hopen
      obtain ⟨q1, q2, q3, q4⟩ := I3.mp hins
      linarith
    · intro hins
      obtain ⟨p1, p2, p3, p4⟩ := O0.mp hopen
      obtain ⟨q1, q2, q3, q4⟩ := I4.mp hins
      linarith
    · intro hins
      obtain ⟨p1, p2, p3, p4⟩ := O0.mp hopen
      obtain ⟨q1, q2, q3, q4⟩ := I5.mp hins
      linarith
    · intro hins
      obtain ⟨p1, p2, p3, p4⟩ := O1.mp hopen
      obtain ⟨q1, q2, q3, q4⟩ := I0.mp hins
      linarith
    · exact absurd rfl hne
    · intro hins
      obtain ⟨p1, p2, p3, p4⟩ := O1.mp hopen
      obtain ⟨q1, q2, q3, q4⟩ := I2.mp hins
      linarith
    · intro hins
      obtain ⟨p1, p2, p3, p4⟩ := O1.mp hopen
      obtain ⟨q1, q2, q3, q4⟩ := I3.mp hins
      linarith
    · intro hins
      obtain ⟨p1, p2, p3, p4⟩ := O1.mp hopen
      obtain ⟨q1, q2, q3, q4⟩ := I4.mp hins
      linarith
    · intro hins
      obtain ⟨p1, p2, p3, p4⟩ := O1.mp hopen
      obtain ⟨q1, q2, q3, q4⟩ := I5.mp hins
      linarith
    · intro hins
      obtain ⟨p1, p2, p3, p4⟩ := O2.mp hopen
      obtain ⟨q1, q2, q3, q4⟩ := I0.mp hins
      linarith
    · intro hins
      obtain ⟨p1, p2, p3, p4⟩ := O2.mp hopen
      obtain ⟨q1, q2, q3, q4⟩ := I1.mp hins
      linarith
    · exact absurd rfl hne
    · intro hins
      obtain ⟨p1, p2, p3, p4⟩ := O2.mp hopen
      obtain ⟨q1, q2, q3, q4⟩ := I3.mp hins
      linarith
    · intro hins
      obtain ⟨p1, p2, p3, p4⟩ := O2.mp hopen
      obtain ⟨q1, q2, q3, q4⟩ := I4.mp hins
      linarith
    · intro hins
      obtain ⟨p1, p2, p3, p4⟩ := O2.mp hopen
      obtain ⟨q1, q2, q3, q4⟩ := I5.mp hins
      linarith
    · intro hins
      obtain ⟨p1, p2, p3, p4⟩ := O3.mp hopen
      obtain ⟨q1, q2, q3, q4⟩ := I0.mp hins
      linarith
    · intro hins
      obtain ⟨p1, p2, p3, p4⟩ := O3.mp hopen
      obtain ⟨q1, q2, q3, q4⟩ := I1.mp hins
      linarith
    · intro hins
      obtain ⟨p1, p2, p3, p4⟩ := O3.mp hopen
      obtain ⟨q1, q2, q3, q4⟩ := I2.mp hins
      linarith
    · exact absurd rfl hne
    · intro hins
      obtain ⟨p1, p2, p3, p4⟩ := O3.mp hopen
      obtain ⟨q1, q2, q3, q4⟩ := I4.mp hins
      linarith
    · intro hins
      obtain ⟨p1, p2, p3, p4⟩ := O3.mp hopen
      obtain ⟨q1, q2, q3, q4⟩ := I5.mp hins
      linarith
    · intro hins
      obtain ⟨p1, p2, p3, p4⟩ := O4.mp hopen
      obtain ⟨q1, q2, q3, q4⟩ := I0.mp hins
      linarith
    · intro hins
      obtain ⟨p1, p2, p3, p4⟩ := O4.mp hopen
      obtain ⟨q1, q2, q3, q4⟩ := I1.mp hins
      linarith
    · intro hins
      obtain ⟨p1, p2, p3, p4⟩ := O4.mp hopen
      obtain ⟨q1, q2, q3, q4⟩ := I2.mp hins
      linarith
    · intro hins
      obtain ⟨p1, p2, p3, p4⟩ := O4.mp hopen
      obtain ⟨q1, q2, q3, q4⟩ := I3.mp hins
      linarith
    · exact absurd rfl hne
    · intro hins
      obtain ⟨p1, p2, p3, p4⟩ := O4.mp hopen
      obtain ⟨q1, q2, q3, q4⟩ := I5.mp hins
      linarith
    · intro hins
      obtain ⟨p1, p2, p3, p4⟩ := O5.mp hopen
      obtain ⟨q1, q2, q3, q4⟩ := I0.mp hins
      linarith
    · intro hins
      obtain ⟨p1, p2, p3, p4⟩ := O5.mp hopen
      obtain ⟨q1, q2, q3, q4⟩ := I1.mp hins
      linarith
    · intro hins
      obtain ⟨p1, p2, p3, p4⟩ := O5.mp hopen
      obtain ⟨q1, q2, q3, q4⟩ := I2.mp hins
      linarith
    · intro hins
      obtain ⟨p1, p2, p3, p4⟩ := O5.mp hopen
      obtain ⟨q1, q2, q3, q4⟩ := I3.mp hins
      linarith
    · intro hins
      obtain ⟨p1, p2, p3, p4⟩ := O5.mp hopen
      obtain ⟨q1, q2, q3, q4⟩ := I4.mp hins
      linarith
    · exact absurd rfl hne

theorem uccClassC (m0 m1 m2 : ℤ) (dx dy dz : ℚ)
    (hx0 : 0 ≤ dx) (hx1 : dx ≤ 1) (hy0 : 0 ≤ dy) (hy1 : dy ≤ 1)
    (hz0 : 0 ≤ dz) (hz1 : dz ≤ 1) (hp1 : ¬m0 % 2 = m1 % 2) (hp2 : m0 % 2 = m2 % 2) :
    (∃ i, i < 6 ∧ insideTet (unitCubeCentroids m0 m1 m2 i) ⟨(m0 : ℚ) + dx, (m1 : ℚ) + dy, (m2 : ℚ) + dz⟩) ∧
    (∀ i, i < 6 → insideTetOpen (unitCubeCentroids m0 m1 m2 i) ⟨(m0 : ℚ) + dx, (m1 : ℚ) + dy, (m2 : ℚ) + dz⟩ →
      ∀ j, j < 6 → j ≠ i →
        ¬insideTet (unitCubeCentroids m0 m1 m2 j) ⟨(m0 : ℚ) + dx, (m1 : ℚ) + dy, (m2 : ℚ) + dz⟩) := by
  have hS : uccSplit m0 m1 m2 = (false, true, false) := by
    have e1 : ¬decide (m0 % 2 = 1) = decide (m1 % 2 = 1) := by
      simp only [decide_eq_decide]
      omega
    have e2 : decide (m0 % 2 = 1) = decide (m2 % 2 = 1) :=
      decide_eq_decide.mpr (by omega)
    simp only [uccSplit]
    rw [if_neg (by intro hA; exact e1 hA.1), if_neg e1, if_pos e2]
  have c0eq : unitCubeCentroids m0 m1 m2 0 = ⟨2 * m0 + 1, 2 * (m1 + 1), 2 * (m2 + 1)⟩ := by
    simp +decide only [unitCubeCentroids, hS, cGet, cSet, if_true, if_false]
    simp only [bccTetCentroid.mk.injEq]
    refine ⟨by ring, by ring, by ring⟩
  have c1eq : unitCubeCentroids m0 m1 m2 1 = ⟨2 * m0 + 1, 2 * m1, 2 * m2⟩ := by
    simp +decide only [unitCubeCentroids, hS, cGet, cSet, if_true, if_false]
    simp only [bccTetCentroid.mk.injEq]
    refine ⟨by ring, by ring, by ring⟩
  have c2eq : unitCubeCentroids m0 m1 m2 2 = ⟨2 * m0, 2 * m1 + 1, 2 * (m2 + 1)⟩ := by
    simp +decide only [unitCubeCentroids, hS, cGet, cSet, if_true, if_false]
    simp only [bccTetCentroid.mk.injEq]
    refine ⟨by ring, by ring, by ring⟩
  have c3eq : unitCubeCentroids m0 m1 m2 3 = ⟨2 * (m0 + 1), 2 * m1 + 1, 2 * m2⟩ := by
    simp +decide only [unitCubeCentroids, hS, cGet, cSet, if_true, if_false]
    simp only [bccTetCentroid.mk.injEq]
    refine ⟨by ring, by ring, by ring⟩
  have c4eq : unitCubeCentroids m0 m1 m2 4 = ⟨2 * (m0 + 1), 2 * (m1 + 1), 2 * m2 + 1⟩ := by
    simp +decide only [unitCubeCentroids, hS, cGet, cSet, if_true, if_false]
    simp only [bccTetCentroid.mk.injEq]
    refine ⟨by ring, by ring, by ring⟩
  have c5eq : unitCubeCentroids m0 m1 m2 5 = ⟨2 * m0, 2 * m1, 2 * m2 + 1⟩ := by
    simp +decide only [unitCubeCentroids, hS, cGet, cSet, if_true, if_false]
    simp only [bccTetCentroid.mk.injEq]
    refine ⟨by ring, by ring, by ring⟩
  have I0 := (insideTet_hc0 m0 (m1 + 1) (m2 + 1) ⟨(m0 : ℚ) + dx, (m1 : ℚ) + dy, (m2 : ℚ) + dz⟩).2 (by omega)
  have O0 := (insideTetOpen_hc0 m0 (m1 + 1) (m2 + 1) ⟨(m0 : ℚ) + dx, (m1 : ℚ) + dy, (m2 : ℚ) + dz⟩).2 (by omega)
  rw [← c0eq] at I0 O0
  dsimp only at I0 O0
  push_cast at I0 O0
  have I1 := (insideTet_hc0 m0 m1 m2 ⟨(m0 : ℚ) + dx, (m1 : ℚ) + dy, (m2 : ℚ) + dz⟩).1 (by omega)
  have O1 := (insideTetOpen_hc0 m0 m1 m2 ⟨(m0 : ℚ) + dx, (m1 : ℚ) + dy, (m2 : ℚ) + dz⟩).1 (by omega)
  rw [← c1eq] at I1 O1
  dsimp only at I1 O1
  push_cast at I1 O1
  have I2 := (insideTet_hc1 m1 (m2 + 1) m0 ⟨(m0 : ℚ) + dx, (m1 : ℚ) + dy, (m2 : ℚ) + dz⟩).2 (by omega)
  have O2 := (insideTetOpen_hc1 m1 (m2 + 1) m0 ⟨(m0 : ℚ) + dx, (m1 : ℚ) + dy, (m2 : ℚ) + dz⟩).2 (by omega)
  rw [← c2eq] at I2 O2
  dsimp only at I2 O2
  push_cast at I2 O2
  have I3 := (insideTet_hc1 m1 m2 (m0 + 1) ⟨(m0 : ℚ) + dx, (m1 : ℚ) + dy, (m2 : ℚ) + dz⟩).1 (by omega)
  have O3 := (insideTetOpen_hc1 m1 m2 (m0 + 1) ⟨(m0 : ℚ) + dx, (m1 : ℚ) + dy, (m2 : ℚ) + dz⟩).1 (by omega)
  rw [← c3eq] at I3 O3
  dsimp only at I3 O3
  push_cast at I3 O3
  have I4 := (insideTet_hc2 m2 (m0 + 1) (m1 + 1) ⟨(m0 : ℚ) + dx, (m1 : ℚ) + dy, (m2 : ℚ) + dz⟩).1 (by omega)
  have O4 := (insideTetOpen_hc2 m2 (m0 + 1) (m1 + 1) ⟨(m0 : ℚ) + dx, (m1 : ℚ) + dy, (m2 : ℚ) + dz⟩).1 (by omega)
  rw [← c4eq] at I4 O4
  dsimp only at I4 O4
  push_cast at I4 O4
  have I5 := (insideTet_hc2 m2 m0 m1 ⟨(m0 : ℚ) + dx, (m1 : ℚ) + dy, (m2 : ℚ) + dz⟩).2 (by omega)
  have O5 := (insideTetOpen_hc2 m2 m0 m1 ⟨(m0 : ℚ) + dx, (m1 : ℚ) + dy, (m2 : ℚ) + dz⟩).2 (by omega)
  rw [← c5eq] at I5 O5
  dsimp only at I5 O5
  push_cast at I5 O5
  refine ⟨?_, ?_⟩
  · rcases le_total dx dz with h1 | h1 <;> rcases le_total (dx + dy) 1 with h2 | h2 <;>
      rcases le_total (dy + dz) 1 with h3 | h3
    · exact ⟨5, by omega, I5.mpr
        ⟨by linarith, by linarith, by linarith, by linarith⟩⟩
    · exact ⟨2, by omega, I2.mpr
        ⟨by linarith, by linarith, by linarith, by linarith⟩⟩
    · exact ⟨0, by omega, I0.mpr
        ⟨by linarith, by linarith, by linarith, by linarith⟩⟩
    · exact ⟨0, by omega, I0.mpr
        ⟨by linarith, by linarith, by linarith, by linarith⟩⟩
    · exact ⟨1, by omega, I1.mpr
        ⟨by linarith, by linarith, by linarith, by linarith⟩⟩
    · exact ⟨4, by omega, I4.mpr
        ⟨by linarith, by linarith, by linarith, by linarith⟩⟩
    · exact ⟨3, by omega, I3.mpr
        ⟨by linarith, by linarith, by linarith, by linarith⟩⟩
    · exact ⟨4, by omega, I4.mpr
        ⟨by linarith, by linarith, by linarith, by linarith⟩⟩
  · intro i hi hopen j hj hne
    interval_cases i <;> interval_cases j
    · exact absurd rfl hne
    · intro hins
      obtain ⟨p1, p2, p3, p4⟩ := O0.mp hopen
      obtain ⟨q1, q2, q3, q4⟩ := I1.mp hins
      linarith
    · intro hins
      obtain ⟨p1, p2, p3, p4⟩ := O0.mp hopen
      obtain ⟨q1, q2, q3, q4⟩ := I2.mp hins
      linarith
    · intro hins
      obtain ⟨p1, p2, p3, p4⟩ := O0.mp hopen
      obtain ⟨q1, q2, q3, q4⟩ := I3.mp hins
      linarith
    · intro hins
      obtain ⟨p1, p2, p3, p4⟩ := O0.mp hopen
      obtain ⟨q1, q2, q3, q4⟩ := I4.mp hins
      linarith
    · intro hins
      obtain ⟨p1, p2, p3, p4⟩ := O0.mp hopen
      obtain ⟨q1, q2, q3, q4⟩ := I5.mp hins
      linarith
    · intro hins
      obtain ⟨p1, p2, p3, p4⟩ := O1.mp hopen
      obtain ⟨q1, q2, q3, q4⟩ := I0.mp hins
      linarith
    · exact absurd rfl hne
    · intro hins
      obtain ⟨p1, p2, p3, p4⟩ := O1.mp hopen
      obtain ⟨q1, q2, q3, q4⟩ := I2.mp hins
      linarith
    · intro hins
      obtain ⟨p1, p2, p3, p4⟩ := O1.mp hopen
      obtain ⟨q1, q2, q3, q4⟩ := I3.mp hins
      linarith
    · intro hins
      obtain ⟨p1, p2, p3, p4⟩ := O1.mp hopen
      obtain ⟨q1, q2, q3, q4⟩ := I4.mp hins
      linarith
    · intro hins
      obtain ⟨p1, p2, p3, p4⟩ := O1.mp hopen
      obtain ⟨q1, q2, q3, q4⟩ := I5.mp hins
      linarith
    · intro hins
      obtain ⟨p1, p2, p3, p4⟩ := O2.mp hopen
      obtain ⟨q1, q2, q3, q4⟩ := I0.mp hins
      linarith
    · intro hins
      obtain ⟨p1, p2, p3, p4⟩ := O2.mp hopen
      obtain ⟨q1, q2, q3, q4⟩ := I1.mp hins
      linarith
    · exact absurd rfl hne
    · intro hins
      obtain ⟨p1, p2, p3, p4⟩ := O2.mp hopen
      obtain ⟨q1, q2, q3, q4⟩ := I3.mp hins
      linarith
    · intro hins
      obtain ⟨p1, p2, p3, p4⟩ := O2.mp hopen
      obtain ⟨q1, q2, q3, q4⟩ := I4.mp hins
      linarith
    · intro hins
      obtain ⟨p1, p2, p3, p4⟩ := O2.mp hopen
      obtain ⟨q1, q2, q3, q4⟩ := I5.mp hins
      linarith
    · intro hins
      obtain ⟨p1, p2, p3, p4⟩ := O3.mp hopen
      obtain ⟨q1, q2, q3, q4⟩ := I0.mp hins
      linarith
    · intro hins
      obtain ⟨p1, p2, p3, p4⟩ := O3.mp hopen
      obtain ⟨q1, q2, q3, q4⟩ := I1.mp hins
      linarith
    · intro hins
      obtain ⟨p1, p2, p3, p4⟩ := O3.mp hopen
      obtain ⟨q1, q2, q3, q4⟩ := I2.mp hins
      linarith
    · exact absurd rfl hne
    · intro hins
      obtain ⟨p1, p2, p3, p4⟩ := O3.mp hopen
      obtain ⟨q1, q2, q3, q4⟩ := I4.mp hins
      linarith
    · intro hins
      obtain ⟨p1, p2, p3, p4⟩ := O3.mp hopen
      obtain ⟨q1, q2, q3, q4⟩ := I5.mp hins
      linarith
    · intro hins
      obtain ⟨p1, p2, p3, p4⟩ := O4.mp hopen
      obtain ⟨q1, q2, q3, q4⟩ := I0.mp hins
      linarith
    · intro hins
      obtain ⟨p1, p2, p3, p4⟩ := O4.mp hopen
      obtain ⟨q1, q2, q3, q4⟩ := I1.mp hins
      linarith
    · intro hins
      obtain ⟨p1, p2, p3, p4⟩ := O4.mp hopen
      obtain ⟨q1, q2, q3, q4⟩ := I2.mp hins
      linarith
    · intro hins
      obtain ⟨p1, p2, p3, p4⟩ := O4.mp hopen
      obtain ⟨q1, q2, q3, q4⟩ := I3.mp hins
      linarith
    · exact absurd rfl hne
    · intro hins
      obtain ⟨p1, p2, p3, p4⟩ := O4.mp hopen
      obtain ⟨q1, q2, q3, q4⟩ := I5.mp hins
      linarith
    · intro hins
      obtain ⟨p1, p2, p3, p4⟩ := O5.mp hopen
      obtain ⟨q1, q2, q3, q4⟩ := I0.mp hins
      linarith
    · intro hins
      obtain ⟨p1, p2, p3, p4⟩ := O5.mp hopen
      obtain ⟨q1, q2, q3, q4⟩ := I1.mp hins
      linarith
    · intro hins
      obtain ⟨p1, p2, p3, p4⟩ := O5.mp hopen
      obtain ⟨q1, q2, q3, q4⟩ := I2.mp hins
      linarith
    · intro hins
      obtain ⟨p1, p2, p3, p4⟩ := O5.mp hopen
      obtain ⟨q1, q2, q3, q4⟩ := I3.mp hins
      linarith
    · intro hins
      obtain ⟨p1, p2, p3, p4⟩ := O5.mp hopen
      obtain ⟨q1, q2, q3, q4⟩ := I4.mp hins
      linarith
    · exact absurd rfl hne

theorem uccClassD (m0 m1 m2 : ℤ) (dx dy dz : ℚ)
    (hx0 : 0 ≤ dx) (hx1 : dx ≤ 1) (hy0 : 0 ≤ dy) (hy1 : dy ≤ 1)
    (hz0 : 0 ≤ dz) (hz1 : dz ≤ 1) (hp1 : ¬m0 % 2 = m1 % 2) (hp2 : ¬m0 % 2 = m2 % 2) :
    (∃ i, i < 6 ∧ insideTet (unitCubeCentroids m0 m1 m2 i) ⟨(m0 : ℚ) + dx, (m1 : ℚ) + dy, (m2 : ℚ) + dz⟩) ∧
    (∀ i, i < 6 → insideTetOpen (unitCubeCentroids m0 m1 m2 i) ⟨(m0 : ℚ) + dx, (m1 : ℚ) + dy, (m2 : ℚ) + dz⟩ →
      ∀ j, j < 6 → j ≠ i →
        ¬insideTet (unitCubeCentroids m0 m1 m2 j) ⟨(m0 : ℚ) + dx, (m1 : ℚ) + dy, (m2 : ℚ) + dz⟩) := by
  have hS : uccSplit m0 m1 m2 = (true, false, false) := by
    have e1 : ¬decide (m0 % 2 = 1) = decide (m1 % 2 = 1) := by
      simp only [decide_eq_decide]
      omega
    have e2 : ¬decide (m0 % 2 = 1) = decide (m2 % 2 = 1) := by
      simp only [decide_eq_decide]
      omega
    simp only [uccSplit]
    rw [if_neg (by intro hA; exact e1 hA.1), if_neg e1, if_neg e2]
  have c0eq : unitCubeCentroids m0 m1 m2 0 = ⟨2 * m0 + 1, 2 * (m1 + 1), 2 * m2⟩ := by
    simp +decide only [unitCubeCentroids, hS, cGet, cSet, if_true, if_false]
    simp only [bccTetCentroid.mk.injEq]
    refine ⟨by ring, by ring, by ring⟩
  have c1eq : unitCubeCentroids m0 m1 m2 1 = ⟨2 * m0 + 1, 2 * m1, 2 * (m2 + 1)⟩ := by
    simp +decide only [unitCubeCentroids, hS, cGet, cSet, if_true, if_false]
    simp only [bccTetCentroid.mk.injEq]
    refine ⟨by ring, by ring, by ring⟩
  have c2eq : unitCubeCentroids m0 m1 m2 2 = ⟨2 * (m0 + 1), 2 * m1 + 1, 2 * (m2 + 1)⟩ := by
    simp +decide only [unitCubeCentroids, hS, cGet, cSet, if_true, if_false]
    simp only [bccTetCentroid.mk.injEq]
    refine ⟨by ring, by ring, by ring⟩
  have c3eq : unitCubeCentroids m0 m1 m2 3 = ⟨2 * m0, 2 * m1 + 1, 2 * m2⟩ := by
    simp +decide only [unitCubeCentroids, hS, cGet, cSet, if_true, if_false]
    simp only [bccTetCentroid.mk.injEq]
    refine ⟨by ring, by ring, by ring⟩
  have c4eq : unitCubeCentroids m0 m1 m2 4 = ⟨2 * (m0 + 1), 2 * (m1 + 1), 2 * m2 + 1⟩ := by
    simp +decide only [unitCubeCentroids, hS, cGet, cSet, if_true, if_false]
    simp only [bccTetCentroid.mk.injEq]
    refine ⟨by ring, by ring, by ring⟩
  have c5eq : unitCubeCentroids m0 m1 m2 5 = ⟨2 * m0, 2 * m1, 2 * m2 + 1⟩ := by
    simp +decide only [unitCubeCentroids, hS, cGet, cSet, if_true, if_false]
    simp only [bccTetCentroid.mk.injEq]
    refine ⟨by ring, by ring, by ring⟩
  have I0 := (insideTet_hc0 m0 (m1 + 1) m2 ⟨(m0 : ℚ) + dx, (m1 : ℚ) + dy, (m2 : ℚ) + dz⟩).2 (by omega)
  have O0 := (insideTetOpen_hc0 m0 (m1 + 1) m2 ⟨(m0 : ℚ) + dx, (m1 : ℚ) + dy, (m2 : ℚ) + dz⟩).2 (by omega)
  rw [← c0eq] at I0 O0
  dsimp only at I0 O0
  push_cast at I0 O0
  have I1 := (insideTet_hc0 m0 m1 (m2 + 1) ⟨(m0 : ℚ) + dx, (m1 : ℚ) + dy, (m2 : ℚ) + dz⟩).1 (by omega)
  have O1 := (insideTetOpen_hc0 m0 m1 (m2 + 1) ⟨(m0 : ℚ) + dx, (m1 : ℚ) + dy, (m2 : ℚ) + dz⟩).1 (by omega)
  rw [← c1eq] at I1 O1
  dsimp only at I1 O1
  push_cast at I1 O1
  have I2 := (insideTet_hc1 m1 (m2 + 1) (m0 + 1) ⟨(m0 : ℚ) + dx, (m1 : ℚ) + dy, (m2 : ℚ) + dz⟩).1 (by omega)
  have O2 := (insideTetOpen_hc1 m1 (m2 + 1) (m0 + 1) ⟨(m0 : ℚ) + dx, (m1 : ℚ) + dy, (m2 : ℚ) + dz⟩).1 (by omega)
  rw [← c2eq] at I2 O2
  dsimp only at I2 O2
  push_cast at I2 O2
  have I3 := (insideTet_hc1 m1 m2 m0 ⟨(m0 : ℚ) + dx, (m1 : ℚ) + dy, (m2 : ℚ) + dz⟩).2 (by omega)
  have O3 := (insideTetOpen_hc1 m1 m2 m0 ⟨(m0 : ℚ) + dx, (m1 : ℚ) + dy, (m2 : ℚ) + dz⟩).2 (by omega)
  rw [← c3eq] at I3 O3
  dsimp only at I3 O3
  push_cast at I3 O3
  have I4 := (insideTet_hc2 m2 (m0 + 1) (m1 + 1) ⟨(m0 : ℚ) + dx, (m1 : ℚ) + dy, (m2 : ℚ) + dz⟩).2 (by omega)
  have O4 := (insideTetOpen_hc2 m2 (m0 + 1) (m1 + 1) ⟨(m0 : ℚ) + dx, (m1 : ℚ) + dy, (m2 : ℚ) + dz⟩).2 (by omega)
  rw [← c4eq] at I4 O4
  dsimp only at I4 O4
  push_cast at I4 O4
  have I5 := (insideTet_hc2 m2 m0 m1 ⟨(m0 : ℚ) + dx, (m1 : ℚ) + dy, (m2 : ℚ) + dz⟩).1 (by omega)
  have O5 := (insideTetOpen_hc2 m2 m0 m1 ⟨(m0 : ℚ) + dx, (m1 : ℚ) + dy, (m2 : ℚ) + dz⟩).1 (by omega)
  rw [← c5eq] at I5 O5
  dsimp only at I5 O5
  push_cast at I5 O5
  refine ⟨?_, ?_⟩
  · rcases le_total dy dz with h1 | h1 <;> rcases le_total (dx + dy) 1 with h2 | h2 <;>
      rcases le_total (dx + dz) 1 with h3 | h3
    · exact ⟨5, by omega, I5.mpr
        ⟨by linarith, by linarith, by linarith, by linarith⟩⟩
    · exact ⟨1, by omega, I1.mpr
        ⟨by linarith, by linarith, by linarith, by linarith⟩⟩
    · exact ⟨5, by omega, I5.mpr
        ⟨by linarith, by linarith, by linarith, by linarith⟩⟩
    · exact ⟨2, by omega, I2.mpr
        ⟨by linarith, by linarith, by linarith, by linarith⟩⟩
    · exact ⟨3, by omega, I3.mpr
        ⟨by linarith, by linarith, by linarith, by linarith⟩⟩
    · exact ⟨4, by omega, I4.mpr
        ⟨by linarith, by linarith, by linarith, by linarith⟩⟩
    · exact ⟨0, by omega, I0.mpr
        ⟨by linarith, by linarith, by linarith, by linarith⟩⟩
    · exact ⟨4, by omega, I4.mpr
        ⟨by linarith, by linarith, by linarith, by linarith⟩⟩
  · intro i hi hopen j hj hne
    interval_cases i <;> interval_cases j
    · exact absurd rfl hne
    · intro hins
      obtain ⟨p1, p2, p3, p4⟩ := O0.mp hopen
      obtain ⟨q1, q2, q3, q4⟩ := I1.mp hins
      linarith
    · intro hins
      obtain ⟨p1, p2, p3, p4⟩ := O0.mp hopen
      obtain ⟨q1, q2, q3, q4⟩ := I2.mp hins
      linarith
    · intro hins
      obtain ⟨p1, p2, p3, p4⟩ := O0.mp hopen
      obtain ⟨q1, q2, q3, q4⟩ := I3.mp hins
      linarith
    · intro hins
      obtain ⟨p1, p2, p3, p4⟩ := O0.mp hopen
      obtain ⟨q1, q2, q3, q4⟩ := I4.mp hins
      linarith
    · intro hins
      obtain ⟨p1, p2, p3, p4⟩ := O0.mp hopen
      obtain ⟨q1, q2, q3, q4⟩ := I5.mp hins
      linarith
    · intro hins
      obtain ⟨p1, p2, p3, p4⟩ := O1.mp hopen
      obtain ⟨q1, q2, q3, q4⟩ := I0.mp hins
      linarith
    · exact absurd rfl hne
    · intro hins
      obtain ⟨p1, p2, p3, p4⟩ := O1.mp hopen
      obtain ⟨q1, q2, q3, q4⟩ := I2.mp hins
      linarith
    · intro hins
      obtain ⟨p1, p2, p3, p4⟩ := O1.mp hopen
      obtain ⟨q1, q2, q3, q4⟩ := I3.mp hins
      linarith
    · intro hins
      obtain ⟨p1, p2, p3, p4⟩ := O1.mp hopen
      obtain ⟨q1, q2, q3, q4⟩ := I4.mp hins
      linarith
    · intro hins
      obtain ⟨p1, p2, p3, p4⟩ := O1.mp hopen
      obtain ⟨q1, q2, q3, q4⟩ := I5.mp hins
      linarith
    · intro hins
      obtain ⟨p1, p2, p3, p4⟩ := O2.mp hopen
      obtain ⟨q1, q2, q3, q4⟩ := I0.mp hins
      linarith
    · intro hins
      obtain ⟨p1, p2, p3, p4⟩ := O2.mp hopen
      obtain ⟨q1, q2, q3, q4⟩ := I1.mp hins
      linarith
    · exact absurd rfl hne
    · intro hins
      obtain ⟨p1, p2, p3, p4⟩ := O2.mp hopen
      obtain ⟨q1, q2, q3, q4⟩ := I3.mp hins
      linarith
    · intro hins
      obtain ⟨p1, p2, p3, p4⟩ := O2.mp hopen
      obtain ⟨q1, q2, q3, q4⟩ := I4.mp hins
      linarith
    · intro hins
      obtain ⟨p1, p2, p3, p4⟩ := O2.mp hopen
      obtain ⟨q1, q2, q3, q4⟩ := I5.mp hins
      linarith
    · intro hins
      obtain ⟨p1, p2, p3, p4⟩ := O3.mp hopen
      obtain ⟨q1, q2, q3, q4⟩ := I0.mp hins
      linarith
    · intro hins
      obtain ⟨p1, p2, p3, p4⟩ := O3.mp hopen
      obtain ⟨q1, q2, q3, q4⟩ := I1.mp hins
      linarith
    · intro hins
      obtain ⟨p1, p2, p3, p4⟩ := O3.mp hopen
      obtain ⟨q1, q2, q3, q4⟩ := I2.mp hins
      linarith
    · exact absurd rfl hne
    · intro hins
      obtain ⟨p1, p2, p3, p4⟩ := O3.mp hopen
      obtain ⟨q1, q2, q3, q4⟩ := I4.mp hins
      linarith
    · intro hins
      obtain ⟨p1, p2, p3, p4⟩ := O3.mp hopen
      obtain ⟨q1, q2, q3, q4⟩ := I5.mp hins
      linarith
    · intro hins
      obtain ⟨p1, p2, p3, p4⟩ := O4.mp hopen
      obtain ⟨q1, q2, q3, q4⟩ := I0.mp hins
      linarith
    · intro hins
      obtain ⟨p1, p2, p3, p4⟩ := O4.mp hopen
      obtain ⟨q1, q2, q3, q4⟩ := I1.mp hins
      linarith
    · intro hins
      obtain ⟨p1, p2, p3, p4⟩ := O4.mp hopen
      obtain ⟨q1, q2, q3, q4⟩ := I2.mp hins
      linarith
    · intro hins
      obtain ⟨p1, p2, p3, p4⟩ := O4.mp hopen
      obtain ⟨q1, q2, q3, q4⟩ := I3.mp hins
      linarith
    · exact absurd rfl hne
    · intro hins
      obtain ⟨p1, p2, p3, p4⟩ := O4.mp hopen
      obtain ⟨q1, q2, q3, q4⟩ := I5.mp hins
      linarith
    · intro hins
      obtain ⟨p1, p2, p3, p4⟩ := O5.mp hopen
      obtain ⟨q1, q2, q3, q4⟩ := I0.mp hins
      linarith
    · intro hins
      obtain ⟨p1, p2, p3, p4⟩ := O5.mp hopen
      obtain ⟨q1, q2, q3, q4⟩ := I1.mp hins
      linarith
    · intro hins
      obtain ⟨p1, p2, p3, p4⟩ := O5.mp hopen
      obtain ⟨q1, q2, q3, q4⟩ := I2.mp hins
      linarith
    · intro hins
      obtain ⟨p1, p2, p3, p4⟩ := O5.mp hopen
      obtain ⟨q1, q2, q3, q4⟩ := I3.mp hins
      linarith
    · intro hins
      obtain ⟨p1, p2, p3, p4⟩ := O5.mp hopen
      obtain ⟨q1, q2, q3, q4⟩ := I4.mp hins
      linarith
    · exact absurd rfl hne

/-- C3: the six tets of `unitCubeCentroids` tile the unit lattice cube.  For
every cube corner and every point of the closed cube (corner plus fractional
offsets in [0,1]), `insideTet` holds for at least one of the six centroids
(so boundary points are claimed); and a point strictly inside one tet (in
the interior of its four half-spaces, hence interior to the cube and on no
shared face) satisfies `insideTet` for no other of the six, so exactly
one. -/
theorem C3_unit_cube_tiling (m0 m1 m2 : ℤ) (dx dy dz : ℚ)
    (hx0 : 0 ≤ dx) (hx1 : dx ≤ 1) (hy0 : 0 ≤ dy) (hy1 : dy ≤ 1)
    (hz0 : 0 ≤ dz) (hz1 : dz ≤ 1) :
    (∃ i, i < 6 ∧ insideTet (unitCubeCentroids m0 m1 m2 i)
        ⟨(m0 : ℚ) + dx, (m1 : ℚ) + dy, (m2 : ℚ) + dz⟩) ∧
    (∀ i, i < 6 → insideTetOpen (unitCubeCentroids m0 m1 m2 i)
        ⟨(m0 : ℚ) + dx, (m1 : ℚ) + dy, (m2 : ℚ) + dz⟩ →
      ∀ j, j < 6 → j ≠ i →
        ¬insideTet (unitCubeCentroids m0 m1 m2 j)
          ⟨(m0 : ℚ) + dx, (m1 : ℚ) + dy, (m2 : ℚ) + dz⟩) := by
  by_cases hp1 : m0 % 2 = m1 % 2 <;> by_cases hp2 : m0 % 2 = m2 % 2
  · exact uccClassA m0 m1 m2 dx dy dz hx0 hx1 hy0 hy1 hz0 hz1 hp1 hp2
  · exact uccClassB m0 m1 m2 dx dy dz hx0 hx1 hy0 hy1 hz0 hz1 hp1 hp2
  · exact uccClassC m0 m1 m2 dx dy dz hx0 hx1 hy0 hy1 hz0 hz1 hp1 hp2
  · exact uccClassD m0 m1 m2 dx dy dz hx0 hx1 hy0 hy1 hz0 hz1 hp1 hp2

/-- Witness for C3 at the cube with corner (0, 0, 0) and the interior point
(0.6, 0.7, 0.5). -/
theorem C3_unit_cube_tiling_witness :
    (∃ i, i < 6 ∧ insideTet (unitCubeCentroids 0 0 0 i)
        ⟨((0 : ℤ) : ℚ) + 6/10, ((0 : ℤ) : ℚ) + 7/10, ((0 : ℤ) : ℚ) + 5/10⟩) ∧
    (∀ i, i < 6 → insideTetOpen (unitCubeCentroids 0 0 0 i)
        ⟨((0 : ℤ) : ℚ) + 6/10, ((0 : ℤ) : ℚ) + 7/10, ((0 : ℤ) : ℚ) + 5/10⟩ →
      ∀ j, j < 6 → j ≠ i →
        ¬insideTet (unitCubeCentroids 0 0 0 j)
          ⟨((0 : ℤ) : ℚ) + 6/10, ((0 : ℤ) : ℚ) + 7/10, ((0 : ℤ) : ℚ) + 5/10⟩) :=
  C3_unit_cube_tiling 0 0 0 (6/10) (7/10) (5/10) (by norm_num) (by norm_num)
    (by norm_num) (by norm_num) (by norm_num) (by norm_num)
